import Mathlib

/-! Nord wallpaper ditherer (`src/main.go`): shallow embedding and verified properties

Conventions of the embedding.

* Go `int` values are `Int`; `uint8` values are `Nat` (every `uint8` the program
  stores is produced by `clampU8`, by the palette, or by a pixel read, so no
  wrap-around occurs).
* `float64` values that are provably small integers (the distances of
  `findClosestColor`, the diffusion errors) are exact and modelled in `Int`/`ℚ`.
* The `float64` arithmetic of the resize (lines 76-90) is modelled with its
  rounding: every conversion, product and quotient is rounded to 53 bits, ties to
  even (`round53`).
* The noise term of line 128 is modelled by exact rational arithmetic.
-/

namespace Wallpapers

/-! ## Constants and palette (main.go 18-46) -/

/-- The constant `screenW`. -/
def screenW : Int := 2256

/-- The constant `screenH`. -/
def screenH : Int := 1504

/-- The constant `scaleFactor = 0.50`. -/
def scaleFactor : ℚ := 1 / 2

/-- The constant `noiseAmount = 0.05`. -/
def noiseAmount : ℚ := 1 / 20

/-- The table `nordPalette`, in source order. -/
def nordPalette : List (Nat × Nat × Nat) :=
  [ (46, 52, 64), (59, 66, 82), (67, 76, 94), (76, 86, 106),
    (216, 222, 233), (229, 233, 240), (236, 239, 244),
    (143, 188, 187), (136, 192, 208), (129, 161, 193), (94, 129, 172),
    (191, 97, 106), (208, 135, 112), (235, 203, 139), (163, 190, 140), (180, 142, 173) ]

/-- The value of `math.MaxFloat64`, `(2^53 - 1) * 2^971`, which is an integer. -/
def maxFloat64 : Int :=
  179769313486231570814527423731704356798070567525844996598917476803157260780028538760589558632766878171540458953514382464234321326889464182768467546703537516986049910576551282076245490090389328944075868508455133942304583236903222948165808559332123348274797826204144723168738177180919299881250404026184124858368

/-! ## Colour matcher (main.go 58-72) -/

/-- The expression `dr*dr + dg*dg + db*db` of the loop body of `findClosestColor`
for the palette entry `c`; on `uint8` operands every intermediate value is an
integer below `2^53`, so the `float64` computation is exact. -/
def sqDist (r g b : Nat) (c : Nat × Nat × Nat) : Int :=
  let dr : Int := (r : Int) - (c.1 : Int)
  let dg : Int := (g : Int) - (c.2.1 : Int)
  let db : Int := (b : Int) - (c.2.2 : Int)
  dr * dr + dg * dg + db * db

/-- One iteration of the loop of `findClosestColor`; the state is
`(minDist, cr, cg, cb)`. -/
def closestStep (r g b : Nat) (st : Int × Nat × Nat × Nat) (c : Nat × Nat × Nat) :
    Int × Nat × Nat × Nat :=
  let dist := sqDist r g b c
  if dist < st.1 then (dist, c.1, c.2.1, c.2.2) else st

/-- The function `findClosestColor`: a left-to-right scan of `nordPalette` starting
from `minDist = math.MaxFloat64` and the zero-valued `cr, cg, cb`. -/
def findClosestColor (r g b : Nat) : Nat × Nat × Nat :=
  (nordPalette.foldl (closestStep r g b) (maxFloat64, 0, 0, 0)).2

/-! ## `float64` for the resize arithmetic (main.go 76-90)

The scale computation divides by `float64(srcW)` and `float64(srcH)`, which can be
zero, so the IEEE special values are modelled. Every conversion, product and
quotient is rounded to the nearest value with a 53-bit significand, ties to even,
as binary64 does. The exponent range is not bounded: the values that arise for a
Go `int` source size lie between `2^-60` and `2^64`, far from overflow and from
the subnormal range. Every zero is `+0`, which is what the conversions
`float64(n)` of this program produce. -/

/-- Rounding to the nearest integer, ties to the even one. -/
def roundHalfEven (x : ℚ) : Int :=
  if x - (⌊x⌋ : ℚ) < 1 / 2 then ⌊x⌋
  else if 1 / 2 < x - (⌊x⌋ : ℚ) then ⌊x⌋ + 1
  else if ⌊x⌋ % 2 = 0 then ⌊x⌋ else ⌊x⌋ + 1

/-- The binary64 rounding of a real value `q`: with `2^l ≤ |q| < 2^(l+1)`, the
value is scaled to `[2^52, 2^53)`, rounded to an integer (ties to even) and
scaled back. -/
def round53 (q : ℚ) : ℚ :=
  if q = 0 then 0
  else (roundHalfEven (q / (2 : ℚ) ^ (Int.log 2 |q| - 52)) : ℚ) * (2 : ℚ) ^ (Int.log 2 |q| - 52)

/-- A `float64` value: a finite rational (one that `round53` returns, or an exact
constant), a signed infinity, or NaN. -/
inductive F64 where
  | fin (q : ℚ)
  | inf (negative : Bool)
  | nan
  deriving DecidableEq

namespace F64

/-- The conversion `float64(n)` of a Go `int`, rounded when `n` needs more than 53
bits. -/
def ofInt (n : Int) : F64 := fin (round53 (n : ℚ))

/-- The product `a * b`, rounded; `0 * ±Inf` is NaN. -/
def mul : F64 → F64 → F64
  | fin a, fin b => fin (round53 (a * b))
  | fin a, inf s => if a = 0 then nan else inf (xor (decide (a < 0)) s)
  | inf s, fin b => if b = 0 then nan else inf (xor s (decide (b < 0)))
  | inf s, inf t => inf (xor s t)
  | nan, _ => nan
  | _, nan => nan

/-- The quotient `a / b`, rounded; a non-zero finite value over zero is an infinity
of the sign of the dividend, `0 / 0` and `Inf / Inf` are NaN. Go does not panic on
a `float64` division by zero. -/
def div : F64 → F64 → F64
  | fin a, fin b =>
    if b = 0 then (if a = 0 then nan else inf (decide (a < 0)))
    else fin (round53 (a / b))
  | fin _, inf _ => fin 0
  | inf s, fin b => inf (xor s (decide (b < 0)))
  | inf _, inf _ => nan
  | nan, _ => nan
  | _, nan => nan

/-- The comparison `a < b`; false as soon as an operand is NaN. -/
def lt : F64 → F64 → Bool
  | fin a, fin b => decide (a < b)
  | fin _, inf s => !s
  | inf s, fin _ => s
  | inf s, inf t => s && !t
  | nan, _ => false
  | _, nan => false

/-- The function `math.Floor`; infinities and NaN are returned unchanged. -/
def floor : F64 → F64
  | fin a => fin (⌊a⌋ : Int)
  | inf s => inf s
  | nan => nan

/-- The conversion `int(f)`: truncation toward zero of a finite value. The Go
specification leaves the result implementation-dependent when the value is not
representable (an infinity or NaN); that case is `none`. -/
def toInt : F64 → Option Int
  | fin a => some (if 0 ≤ a then ⌊a⌋ else ⌈a⌉)
  | inf _ => none
  | nan => none

end F64

/-! ## Resize geometry (main.go 76-93) -/

/-- The integer locals that `ditherImage` computes before it touches any pixel. -/
structure Layout where
  availW : Int
  availH : Int
  newW : Int
  newH : Int
  borderX : Int
  borderY : Int
  deriving DecidableEq

/-- Lines 76-93 of `ditherImage` for a source of `srcW x srcH` pixels. Go's integer
`/` truncates toward zero (`Int.tdiv`). The result is `none` exactly when an
`int(...)` conversion is applied to a non-finite value. -/
def layout (srcW srcH : Int) : Option Layout := do
  let availW ← (F64.floor (F64.mul (F64.ofInt screenW) (F64.fin scaleFactor))).toInt
  let availH ← (F64.floor (F64.mul (F64.ofInt screenH) (F64.fin scaleFactor))).toInt
  let scaleX := F64.div (F64.ofInt availW) (F64.ofInt srcW)
  let scaleY := F64.div (F64.ofInt availH) (F64.ofInt srcH)
  let scale := if F64.lt scaleY scaleX then scaleY else scaleX
  let newW ← (F64.floor (F64.mul (F64.ofInt srcW) scale)).toInt
  let newH ← (F64.floor (F64.mul (F64.ofInt srcH) scale)).toInt
  let borderX := Int.tdiv (screenW - newW) 2
  let borderY := Int.tdiv (screenH - newH) 2
  pure ⟨availW, availH, newW, newH, borderX, borderY⟩

/-! ## Loops -/

/-- The loop `for i := 0; i < n; i++ { body }` run for `n` iterations on a state:
the first `k` iterations followed by iteration `k`. An iteration that panics
(`none`) ends the run. -/
def forLoop {σ : Type} (body : Int → σ → Option σ) : Nat → σ → Option σ
  | 0, s => some s
  | k + 1, s => (forLoop body k s).bind (body (k : Int))

/-! ## Images and the working buffer -/

/-- The type `color.NRGBA`. -/
structure NRGBA where
  R : Nat
  G : Nat
  B : Nat
  A : Nat
  deriving DecidableEq

/-- An `*image.NRGBA` whose rectangle is `(0,0)-(w,h)`; `pix x y` is the stored
pixel, meaningful for `0 ≤ x < w`, `0 ≤ y < h`. -/
structure Canvas where
  w : Int
  h : Int
  pix : Int → Int → NRGBA

namespace Canvas

/-- The call `image.NewNRGBA(image.Rect(0, 0, w, h))`: all pixels zero. -/
def new (w h : Int) : Canvas := ⟨w, h, fun _ _ => ⟨0, 0, 0, 0⟩⟩

/-- The test `image.Point{x, y}.In(p.Rect)`. -/
def inBounds (p : Canvas) (x y : Int) : Bool :=
  decide (0 ≤ x) && decide (x < p.w) && decide (0 ≤ y) && decide (y < p.h)

/-- The method `SetNRGBA`: a point outside the rectangle is ignored. -/
def SetNRGBA (p : Canvas) (x y : Int) (c : NRGBA) : Canvas :=
  if p.inBounds x y then
    { p with pix := fun X Y => if X = x ∧ Y = y then c else p.pix X Y }
  else p

/-- The method `NRGBAAt`: the zero colour outside the rectangle. -/
def NRGBAAt (p : Canvas) (x y : Int) : NRGBA :=
  if p.inBounds x y then p.pix x y else ⟨0, 0, 0, 0⟩

end Canvas

/-- The effect of `draw.CatmullRom.Scale` followed by `draw.Copy(canvas,
image.Pt(dpX, dpY), resized, resized.Bounds(), draw.Over, nil)` for a resized image
of `srW x srH` pixels. Both routines belong to `golang.org/x/image/draw`, outside
the repository, so the pixel values they leave are the parameter `composited`
(`composited x y` is the value at offset `(x, y)` of the destination rectangle).
What is modelled is the footprint: `draw.Copy` writes exactly the destination
rectangle `(dpX, dpY)-(dpX+srW, dpY+srH)` clipped to the canvas. -/
def drawCopy (dst : Canvas) (dpX dpY srW srH : Int) (composited : Int → Int → NRGBA) :
    Canvas :=
  { dst with
    pix := fun X Y =>
      if dpX ≤ X ∧ X < dpX + srW ∧ dpY ≤ Y ∧ Y < dpY + srH ∧ dst.inBounds X Y = true then
        composited (X - dpX) (Y - dpY)
      else dst.pix X Y }

/-- The working buffer `buf [][]uint8`: `rows = len(buf)`, `rowLen y = len(buf[y])`
(zero for a row that is still nil) and the stored bytes. -/
structure Buf where
  rows : Int
  rowLen : Int → Int
  cell : Int → Int → Nat

namespace Buf

/-- The allocation `make([][]uint8, n)`; panics for a negative `n`. -/
def make (n : Int) : Option Buf :=
  if 0 ≤ n then some ⟨n, fun _ => 0, fun _ _ => 0⟩ else none

/-- The test that `buf[y][i]` is an in-range access. -/
def inRange (b : Buf) (y i : Int) : Bool :=
  decide (0 ≤ y) && decide (y < b.rows) && decide (0 ≤ i) && decide (i < b.rowLen y)

/-- The assignment `buf[y] = make([]uint8, n)`; panics when `y` is out of range or
`n` is negative. -/
def setRow (b : Buf) (y n : Int) : Option Buf :=
  if 0 ≤ y ∧ y < b.rows ∧ 0 ≤ n then
    some { b with
      rowLen := fun Y => if Y = y then n else b.rowLen Y
      cell := fun Y I => if Y = y then 0 else b.cell Y I }
  else none

/-- The read `buf[y][i]`; panics when an index is out of range. -/
def get (b : Buf) (y i : Int) : Option Nat :=
  if b.inRange y i then some (b.cell y i) else none

/-- The buffer with byte `(y, i)` replaced by `v`. -/
def put (b : Buf) (y i : Int) (v : Nat) : Buf :=
  { b with cell := fun Y I => if Y = y ∧ I = i then v else b.cell Y I }

/-- The write `buf[y][i] = v`; panics when an index is out of range. -/
def set (b : Buf) (y i : Int) (v : Nat) : Option Buf :=
  if b.inRange y i then some (b.put y i v) else none

/-- The three bytes of pixel `x` of row `y`. -/
def pixel (b : Buf) (y x : Int) : Nat × Nat × Nat :=
  (b.cell y (x * 3), b.cell y (x * 3 + 1), b.cell y (x * 3 + 2))

end Buf

/-! ## The ditherer (main.go 48-56, 99-179) -/

/-- The function `clampU8`; on `[0, 255]` the conversion `uint8(v)` truncates. -/
def clampU8 (v : ℚ) : Nat :=
  if v < 0 then 0 else if v > 255 then 255 else ⌊v⌋₊

/-- The background colour `bg` of `ditherImage`. -/
def bg : NRGBA := ⟨46, 52, 64, 255⟩

/-- Lines 100-106: allocate the canvas and fill it with `bg`. -/
def fillCanvas : Option Canvas :=
  forLoop (fun y canvas =>
    forLoop (fun x canvas => some (canvas.SetNRGBA x y bg)) screenW.toNat canvas)
    screenH.toNat (Canvas.new screenW screenH)

/-- Lines 113-122: allocate the working buffer and load it from the canvas. -/
def initBuf (canvas : Canvas) (borderX borderY newW newH : Int) : Option Buf := do
  let buf ← Buf.make newH
  forLoop (fun y buf => do
    let buf ← buf.setRow y (newW * 3)
    forLoop (fun x buf => do
      let c := canvas.NRGBAAt (borderX + x) (borderY + y)
      let buf ← buf.set y (x * 3) c.R
      let buf ← buf.set y (x * 3 + 1) c.G
      buf.set y (x * 3 + 2) c.B) newW.toNat buf) newH.toNat buf

/-- One statement `buf[y][i] = clampU8(float64(buf[y][i]) + err*w/16)`. The error
is an integer of absolute value at most 255 and `w` a small integer, so the
`float64` expression is exact. -/
def accumulate (buf : Buf) (y i : Int) (err : Int) (w : Int) : Option Buf := do
  let v ← buf.get y i
  buf.set y i (clampU8 ((v : ℚ) + (err : ℚ) * (w : ℚ) / 16))

/-- The three statements that add the weighted error to the pixel whose first
byte is `buf[y][bi]` (one of the four blocks of lines 142-165). -/
def diffuse (buf : Buf) (y bi : Int) (errR errG errB : Int) (w : Int) : Option Buf := do
  let buf ← accumulate buf y bi errR w
  let buf ← accumulate buf y (bi + 1) errG w
  accumulate buf y (bi + 2) errB w

/-- The noisy value `clampU8(float64(v) + (rand.Float64()-0.5)*255*noiseAmount)`
for the draw `u` and the noise amplitude `amount`. -/
def addNoise (amount : ℚ) (v : Nat) (u : ℚ) : Nat :=
  clampU8 ((v : ℚ) + (u - 1 / 2) * 255 * amount)

/-- The four guarded blocks of lines 142-165: the error of pixel `(x, y)` is added
to the right, lower-left, lower and lower-right neighbours that exist. -/
def diffuseError (newW newH : Int) (y x : Int) (errR errG errB : Int) (buf : Buf) :
    Option Buf := do
  let buf ← (if x + 1 < newW then diffuse buf y ((x + 1) * 3) errR errG errB 7 else some buf)
  let buf ← (if x > 0 ∧ y + 1 < newH then diffuse buf (y + 1) ((x - 1) * 3) errR errG errB 3
    else some buf)
  let buf ← (if y + 1 < newH then diffuse buf (y + 1) (x * 3) errR errG errB 5 else some buf)
  (if x + 1 < newW ∧ y + 1 < newH then diffuse buf (y + 1) ((x + 1) * 3) errR errG errB 1
    else some buf)

/-- The body of the inner dithering loop (lines 126-165) at pixel `(x, y)`. The
state is the buffer and the number of draws taken so far from the random stream
`rnd`; `amount` stands for the constant `noiseAmount`. -/
def ditherPixel (amount : ℚ) (rnd : Nat → ℚ) (newW newH : Int) (y x : Int)
    (st : Buf × Nat) : Option (Buf × Nat) := do
  let buf := st.1
  let n := st.2
  let i := x * 3
  let oldR := addNoise amount (← buf.get y i) (rnd n)
  let oldG := addNoise amount (← buf.get y (i + 1)) (rnd (n + 1))
  let oldB := addNoise amount (← buf.get y (i + 2)) (rnd (n + 2))
  let new := findClosestColor oldR oldG oldB
  let errR : Int := (oldR : Int) - (new.1 : Int)
  let errG : Int := (oldG : Int) - (new.2.1 : Int)
  let errB : Int := (oldB : Int) - (new.2.2 : Int)
  let buf ← buf.set y i new.1
  let buf ← buf.set y (i + 1) new.2.1
  let buf ← buf.set y (i + 2) new.2.2
  let buf ← diffuseError newW newH y x errR errG errB buf
  pure (buf, n + 3)

/-- The inner loop of lines 125-166 for row `y`. -/
def ditherRow (amount : ℚ) (rnd : Nat → ℚ) (newW newH : Int) (y : Int)
    (st : Buf × Nat) : Option (Buf × Nat) :=
  forLoop (ditherPixel amount rnd newW newH y) newW.toNat st

/-- The dithering pass, lines 124-167. -/
def ditherPass (amount : ℚ) (rnd : Nat → ℚ) (newW newH : Int)
    (st : Buf × Nat) : Option (Buf × Nat) :=
  forLoop (ditherRow amount rnd newW newH) newH.toNat st

/-- Lines 170-177: write the buffer back to the canvas. -/
def writeBack (canvas : Canvas) (borderX borderY newW newH : Int) (buf : Buf) :
    Option Canvas :=
  forLoop (fun y canvas =>
    forLoop (fun x canvas => do
      let i := x * 3
      let r ← buf.get y i
      let g ← buf.get y (i + 1)
      let b ← buf.get y (i + 2)
      pure (canvas.SetNRGBA (borderX + x) (borderY + y) ⟨r, g, b, 255⟩)) newW.toNat canvas)
    newH.toNat canvas

/-- The function `ditherImage` for a source of `srcW x srcH` pixels. `composited`
stands for the pixels produced by the external resampler and compositor (see
`drawCopy`), `rnd` for the stream of values returned by `rand.Float64`. The
result is `none` when the Go program has no defined result: an `int` conversion
of a non-finite value or a run-time panic. -/
def ditherImage (srcW srcH : Int) (composited : Int → Int → NRGBA) (rnd : Nat → ℚ) :
    Option Canvas := do
  let L ← layout srcW srcH
  let canvas ← fillCanvas
  let canvas := drawCopy canvas L.borderX L.borderY L.newW L.newH composited
  let buf ← initBuf canvas L.borderX L.borderY L.newW L.newH
  let st ← ditherPass noiseAmount rnd L.newW L.newH (buf, 0)
  writeBack canvas L.borderX L.borderY L.newW L.newH st.1

/-- The body of `ditherImage` with the constant `noiseAmount` replaced by the
parameter `amount`; `ditherImage` is the instance `amount = noiseAmount`. It is
used to state what happens when the noise amplitude is set to zero. -/
def ditherImageWith (amount : ℚ) (srcW srcH : Int) (composited : Int → Int → NRGBA)
    (rnd : Nat → ℚ) : Option Canvas := do
  let L ← layout srcW srcH
  let canvas ← fillCanvas
  let canvas := drawCopy canvas L.borderX L.borderY L.newW L.newH composited
  let buf ← initBuf canvas L.borderX L.borderY L.newW L.newH
  let st ← ditherPass amount rnd L.newW L.newH (buf, 0)
  writeBack canvas L.borderX L.borderY L.newW L.newH st.1

/-! ## The batch driver (main.go 182-253)

File names are lists of characters. The file system and the decoders are outside
the program, so they enter as the oracles of `Env`; what the driver does with them
is recorded in a log of events and in the contents of the output directory. -/

/-- A file name. -/
abbrev FileName := List Char

/-- The scan of `filepath.Ext` over the reversed path: it walks back from the last
character, stops at a path separator, and returns the suffix starting at the
first dot it meets. -/
def extScan : List Char → List Char → List Char
  | [], _ => []
  | c :: rest, acc =>
    if c = '/' then [] else if c = '.' then '.' :: acc else extScan rest (c :: acc)

/-- The library function `filepath.Ext`. -/
def Ext (path : FileName) : List Char := extScan path.reverse []

/-- The library function `strings.ToLower`, restricted to the ASCII letters (no
other character lower-cases to a letter of `.jpeg`, `.jpg` or `.png`). -/
def ToLower (s : List Char) : List Char := s.map Char.toLower

/-- The library function `strings.TrimSuffix`. -/
def TrimSuffix (s suffix : List Char) : List Char :=
  if suffix.isSuffixOf s then s.take (s.length - suffix.length) else s

/-- The test of lines 212-213 that selects the entries to process. -/
def accepted (name : FileName) : Bool :=
  let ext := ToLower (Ext name)
  ext == ".jpeg".toList || ext == ".jpg".toList || ext == ".png".toList

/-- The output name of lines 220-221: `"fm13_" + base + ".png"`. -/
def outputName (fname : FileName) : FileName :=
  let base := TrimSuffix fname (Ext fname)
  "fm13_".toList ++ base ++ ".png".toList

/-- What `ditherImage` needs of a decoded image: its size and the pixels that the
external resampler and compositor derive from it. -/
structure Decoded where
  srcW : Int
  srcH : Int
  composited : Int → Int → NRGBA

/-- The external collaborators of one run: `loadImage f` is the result of
`loadImage` for input `f` (`none` for an error), `rnd f` the part of the random
stream drawn while `f` is converted, `createOk f` and `encodeOk f` tell whether
`os.Create` and `png.Encode` succeed for the output of `f`. -/
structure Env where
  loadImage : FileName → Option Decoded
  rnd : FileName → Nat → ℚ
  createOk : FileName → Bool
  encodeOk : FileName → Bool

/-- The observable actions of the driver. -/
inductive Event where
  | inputDirError
  | skipped (fname : FileName)
  | loadTried (fname : FileName)
  | converted (fname : FileName)
  | created (outName : FileName)
  | encoded (outName : FileName)
  deriving DecidableEq

/-- The state of a run. `out name` is the file `name` of the output directory:
`none` when absent, `some none` when created or truncated without a complete
image, `some (some c)` when it holds the encoded canvas `c`. `panicked` is set
when `ditherImage` has no defined result, which ends the program. -/
structure Run where
  out : FileName → Option (Option Canvas)
  log : List Event
  panicked : Bool

/-- One iteration of the loop of lines 219-250 for the input `fname`; `existing`
is the map built from the listing of the output directory before the loop. -/
def processFile (env : Env) (existing : FileName → Bool) (s : Run) (fname : FileName) : Run :=
  if s.panicked then s
  else
    let outName := outputName fname
    if existing outName then { s with log := s.log ++ [Event.skipped fname] }
    else
      match env.loadImage fname with
      | none => { s with log := s.log ++ [Event.loadTried fname] }
      | some img =>
        match ditherImage img.srcW img.srcH img.composited (env.rnd fname) with
        | none => { s with log := s.log ++ [Event.loadTried fname], panicked := true }
        | some result =>
          if env.createOk fname then
            if env.encodeOk fname then
              { s with
                out := fun n => if n = outName then some (some result) else s.out n
                log := s.log ++ [Event.loadTried fname, Event.converted fname,
                  Event.created outName, Event.encoded outName] }
            else
              { s with
                out := fun n => if n = outName then some none else s.out n
                log := s.log ++ [Event.loadTried fname, Event.converted fname,
                  Event.created outName] }
          else
            { s with log := s.log ++ [Event.loadTried fname, Event.converted fname] }

/-- The function `main`. `entries` is the listing of the input directory (`none`
when `os.ReadDir` fails, which exits), `outEntries` the listing of the output
directory, read once before the loop, and `out0` the initial contents of the
output directory. -/
def main (env : Env) (entries : Option (List FileName)) (outEntries : List FileName)
    (out0 : FileName → Option (Option Canvas)) : Run :=
  match entries with
  | none => { out := out0, log := [Event.inputDirError], panicked := false }
  | some entries =>
    let existing : FileName → Bool := fun n => outEntries.contains n
    let files := entries.filter accepted
    files.foldl (processFile env existing) { out := out0, log := [], panicked := false }

/-! ## Notions used to state the properties -/

/-- Scan invariant of `findClosestColor`: either nothing has been scanned and the
state is the initial one, or the state holds an already scanned entry that is
strictly closer than everything before it and at least as close as everything
after it. -/
def ScanInv (r g b : Nat) (seen : List (Nat × Nat × Nat)) (st : Int × Nat × Nat × Nat) : Prop :=
  (seen = [] ∧ st = (maxFloat64, 0, 0, 0)) ∨
  ∃ l₁ c l₂, seen = l₁ ++ c :: l₂ ∧ st = (sqDist r g b c, c) ∧
    (∀ p ∈ l₁, sqDist r g b c < sqDist r g b p) ∧
    (∀ p ∈ l₂, sqDist r g b c ≤ sqDist r g b p)

/-- The buffer has `newH` rows of `newW * 3` bytes each. -/
def Buf.Shaped (b : Buf) (newW newH : Int) : Prop :=
  b.rows = newH ∧ ∀ y, 0 ≤ y → y < newH → b.rowLen y = newW * 3

/-- The values `(oldR, oldG, oldB)` that `ditherPixel` computes for pixel `(x, y)`
when it runs in state `st`: the buffer bytes with the noise of the next three draws. -/
def noisyAt (amount : ℚ) (rnd : Nat → ℚ) (st : Buf × Nat) (y x : Int) : Nat × Nat × Nat :=
  (addNoise amount (st.1.cell y (x * 3)) (rnd st.2),
    addNoise amount (st.1.cell y (x * 3 + 1)) (rnd (st.2 + 1)),
    addNoise amount (st.1.cell y (x * 3 + 2)) (rnd (st.2 + 2)))

/-- The palette colour `(newR, newG, newB)` that `ditherPixel` writes for pixel
`(x, y)` when it runs in state `st`: the nearest palette entry of the noisy values. -/
def quantizedAt (amount : ℚ) (rnd : Nat → ℚ) (st : Buf × Nat) (y x : Int) : Nat × Nat × Nat :=
  findClosestColor (noisyAt amount rnd st y x).1 (noisyAt amount rnd st y x).2.1
    (noisyAt amount rnd st y x).2.2

/-- The state of the dithering pass at the moment its loops reach pixel `(x, y)`:
rows `0 .. y-1` have been run completely and pixels `0 .. x-1` of row `y`. -/
def stateBefore (amount : ℚ) (rnd : Nat → ℚ) (newW newH : Int) (st : Buf × Nat)
    (y x : Nat) : Option (Buf × Nat) :=
  (forLoop (ditherRow amount rnd newW newH) y st).bind
    (forLoop (ditherPixel amount rnd newW newH (y : Int)) x)

/-- The point `(X, Y)` lies in the photo sub-rectangle of the layout. -/
def Layout.inPhoto (L : Layout) (X Y : Int) : Prop :=
  L.borderX ≤ X ∧ X < L.borderX + L.newW ∧ L.borderY ≤ Y ∧ Y < L.borderY + L.newH

/-- The RGB part of a pixel. -/
def NRGBA.rgb (c : NRGBA) : Nat × Nat × Nat := (c.R, c.G, c.B)

/-- A sample composited photo: solid gray `(128, 128, 128)`. -/
def grayPhoto : Int → Int → NRGBA := fun _ _ => ⟨128, 128, 128, 255⟩

/-- A sample random stream: every draw is `1/2`, so the noise term is zero. -/
def midStream : Nat → ℚ := fun _ => 1 / 2

/-- The signed error `(errR, errG, errB)` of pixel `(x, y)` in state `st`: the
noisy value minus the quantized value, per channel. -/
def errorAt (amount : ℚ) (rnd : Nat → ℚ) (st : Buf × Nat) (y x : Int) : Int × Int × Int :=
  (((noisyAt amount rnd st y x).1 : Int) - ((quantizedAt amount rnd st y x).1 : Int),
    ((noisyAt amount rnd st y x).2.1 : Int) - ((quantizedAt amount rnd st y x).2.1 : Int),
    ((noisyAt amount rnd st y x).2.2 : Int) - ((quantizedAt amount rnd st y x).2.2 : Int))

/-- The pixel `p` after the error `e` has been added with weight `w / 16`, each
channel through `clampU8`. -/
def addWeighted (p : Nat × Nat × Nat) (e : Int × Int × Int) (w : Int) : Nat × Nat × Nat :=
  (clampU8 ((p.1 : ℚ) + (e.1 : ℚ) * (w : ℚ) / 16),
    clampU8 ((p.2.1 : ℚ) + (e.2.1 : ℚ) * (w : ℚ) / 16),
    clampU8 ((p.2.2 : ℚ) + (e.2.2 : ℚ) * (w : ℚ) / 16))

/-- The clamp `clamp(v, 0, 255)` as the specification words it: it bounds a value
and does not round it. It is compared with `clampU8` of the source. -/
def clampSpec (v : ℚ) : ℚ := max 0 (min v 255)

/-- A working buffer of `newH` rows of `newW` pixels, all solid gray
`(128, 128, 128)`. -/
def grayBuf (newW newH : Int) : Buf := ⟨newH, fun _ => newW * 3, fun _ _ => 128⟩

/-- The cell `(Y, I)` belongs to pixel `X` of row `R`. -/
def inPixel (R X : Int) (Y I : Int) : Prop := Y = R ∧ X * 3 ≤ I ∧ I ≤ X * 3 + 2

/-- What a run never does for a name whose output file is in the listing: no
load, no conversion, no creation, no encoding, and the file keeps its contents. -/
def Untouched (existing : FileName → Bool) (out0 : FileName → Option (Option Canvas))
    (s : Run) : Prop :=
  (∀ g, existing (outputName g) = true →
    Event.loadTried g ∉ s.log ∧ Event.converted g ∉ s.log) ∧
  (∀ o, existing o = true →
    Event.created o ∉ s.log ∧ Event.encoded o ∉ s.log ∧ s.out o = out0 o)

/-- A sample environment in which every load, creation and encoding succeeds and
every input decodes to the same 3 x 1 image. -/
def sampleEnv : Env :=
  { loadImage := fun _ => some ⟨3, 1, grayPhoto⟩
    rnd := fun _ => midStream
    createOk := fun _ => true
    encodeOk := fun _ => true }

/-- The value of the local `scaleX` of `ditherImage` for a source width
`srcW ≠ 0`: the rounded quotient of `availW = 1128` by `float64(srcW)`. -/
def scaleXOf (srcW : Int) : ℚ := round53 (1128 / round53 (srcW : ℚ))

/-- The value of the local `scaleY` of `ditherImage` for a source height
`srcH ≠ 0`. -/
def scaleYOf (srcH : Int) : ℚ := round53 (752 / round53 (srcH : ℚ))

/-- The value of the local `scale` of `ditherImage` for a source with non-zero
dimensions: `scaleY` when `scaleY < scaleX`, else `scaleX`. -/
def scaleOf (srcW srcH : Int) : ℚ :=
  if scaleYOf srcH < scaleXOf srcW then scaleYOf srcH else scaleXOf srcW

/-! ## Properties of the colour matcher -/

theorem scanInv_step (r g b : Nat) (seen : List (Nat × Nat × Nat))
    (st : Int × Nat × Nat × Nat) (c : Nat × Nat × Nat)
    (hc : sqDist r g b c < maxFloat64) (h : ScanInv r g b seen st) :
    ScanInv r g b (seen ++ [c]) (closestStep r g b st c) := by
  rcases h with ⟨rfl, rfl⟩ | ⟨l₁, m, l₂, rfl, rfl, hlt, hle⟩
  · right
    refine ⟨[], c, [], by simp, ?_, by simp, by simp⟩
    simp [closestStep, hc]
  · right
    by_cases hd : sqDist r g b c < sqDist r g b m
    · refine ⟨l₁ ++ m :: l₂, c, [], by simp, ?_, ?_, by simp⟩
      · simp [closestStep, hd]
      · intro p hp
        rcases List.mem_append.1 hp with hp | hp
        · exact lt_trans hd (hlt p hp)
        · rcases List.mem_cons.1 hp with rfl | hp
          · exact hd
          · exact lt_of_lt_of_le hd (hle p hp)
    · refine ⟨l₁, m, l₂ ++ [c], by simp, ?_, hlt, ?_⟩
      · simp [closestStep, hd]
      · intro p hp
        rcases List.mem_append.1 hp with hp | hp
        · exact hle p hp
        · rcases List.mem_singleton.1 hp with rfl
          exact not_lt.1 hd

theorem scanInv_foldl (r g b : Nat) (l seen : List (Nat × Nat × Nat))
    (st : Int × Nat × Nat × Nat)
    (hl : ∀ c ∈ l, sqDist r g b c < maxFloat64) (h : ScanInv r g b seen st) :
    ScanInv r g b (seen ++ l) (l.foldl (closestStep r g b) st) := by
  induction l generalizing seen st with
  | nil => simpa using h
  | cons c l ih =>
    have h1 := scanInv_step r g b seen st c (hl c (List.mem_cons_self _ _)) h
    have h2 := ih (seen ++ [c]) (closestStep r g b st c)
      (fun p hp => hl p (List.mem_cons_of_mem _ hp)) h1
    simpa using h2

theorem palette_channels_le : ∀ c ∈ nordPalette, c.1 ≤ 255 ∧ c.2.1 ≤ 255 ∧ c.2.2 ≤ 255 := by
  decide

theorem sq_le_of_bounds (a c : Nat) (ha : a ≤ 255) (hc : c ≤ 255) :
    ((a : Int) - (c : Int)) * ((a : Int) - (c : Int)) ≤ 65025 := by
  have h1 : -255 ≤ (a : Int) - (c : Int) := by omega
  have h2 : (a : Int) - (c : Int) ≤ 255 := by omega
  nlinarith

theorem sqDist_le (r g b : Nat) (hr : r ≤ 255) (hg : g ≤ 255) (hb : b ≤ 255)
    (c : Nat × Nat × Nat) (hc : c ∈ nordPalette) : sqDist r g b c ≤ 195075 := by
  obtain ⟨h1, h2, h3⟩ := palette_channels_le c hc
  have e1 := sq_le_of_bounds r c.1 hr h1
  have e2 := sq_le_of_bounds g c.2.1 hg h2
  have e3 := sq_le_of_bounds b c.2.2 hb h3
  simp only [sqDist]
  omega

theorem sqDist_lt_max (r g b : Nat) (hr : r ≤ 255) (hg : g ≤ 255) (hb : b ≤ 255)
    (c : Nat × Nat × Nat) (hc : c ∈ nordPalette) : sqDist r g b c < maxFloat64 := by
  have h := sqDist_le r g b hr hg hb c hc
  have hm : (195075 : Int) < maxFloat64 := by decide
  omega

/-- The scan of the whole palette ends in a state that splits the palette around the
returned entry. -/
theorem findClosestColor_split (r g b : Nat) (hr : r ≤ 255) (hg : g ≤ 255) (hb : b ≤ 255) :
    ∃ l₁ l₂, nordPalette = l₁ ++ findClosestColor r g b :: l₂ ∧
      (∀ p ∈ l₁, sqDist r g b (findClosestColor r g b) < sqDist r g b p) ∧
      (∀ p ∈ l₂, sqDist r g b (findClosestColor r g b) ≤ sqDist r g b p) := by
  have h := scanInv_foldl r g b nordPalette [] (maxFloat64, 0, 0, 0)
    (sqDist_lt_max r g b hr hg hb) (Or.inl ⟨rfl, rfl⟩)
  rcases h with ⟨h, _⟩ | ⟨l₁, c, l₂, hs, hst, hlt, hle⟩
  · simp [nordPalette] at h
  · have hc : findClosestColor r g b = c := by
      simp only [findClosestColor, hst]
    rw [hc]
    exact ⟨l₁, l₂, by simpa using hs, hlt, hle⟩

theorem get?_append_mid {α : Type} (l₁ : List α) (c : α) (l₂ : List α) :
    (l₁ ++ c :: l₂).get? l₁.length = some c := by
  induction l₁ with
  | nil => rfl
  | cons a l ih => simpa using ih

theorem get?_append_before {α : Type} (l₁ : List α) (c : α) (l₂ : List α) (j : Nat)
    (hj : j < l₁.length) : (l₁ ++ c :: l₂).get? j = l₁.get? j := by
  induction l₁ generalizing j with
  | nil => simp at hj
  | cons a l ih =>
    cases j with
    | zero => rfl
    | succ j =>
      have := ih j (by simpa using hj)
      simpa using this

theorem nordPalette_nodup : nordPalette.Nodup := by decide

theorem findClosestColor_mem (r g b : Nat) (hr : r ≤ 255) (hg : g ≤ 255) (hb : b ≤ 255) :
    findClosestColor r g b ∈ nordPalette := by
  obtain ⟨l₁, l₂, hs, _, _⟩ := findClosestColor_split r g b hr hg hb
  rw [hs]
  simp

/-- C1. For every RGB triple with channels in 0..255, `findClosestColor` returns an
entry of `nordPalette` whose squared Euclidean distance to the input is at most that
of every palette entry; the result is never the initial `(0, 0, 0)` placeholder. -/
theorem findClosestColor_minimises (r g b : Nat)
    (hr : r ≤ 255) (hg : g ≤ 255) (hb : b ≤ 255) :
    findClosestColor r g b ∈ nordPalette ∧
    (∀ p ∈ nordPalette,
      sqDist r g b (findClosestColor r g b) ≤ sqDist r g b p) ∧
    findClosestColor r g b ≠ (0, 0, 0) := by
  obtain ⟨l₁, l₂, hs, hlt, hle⟩ := findClosestColor_split r g b hr hg hb
  have hmem := findClosestColor_mem r g b hr hg hb
  refine ⟨hmem, ?_, ?_⟩
  · intro p hp
    rw [hs] at hp
    rcases List.mem_append.1 hp with hp | hp
    · exact le_of_lt (hlt p hp)
    · rcases List.mem_cons.1 hp with rfl | hp
      · exact le_refl _
      · exact hle p hp
  · intro h0
    rw [h0] at hmem
    revert hmem
    decide

theorem findClosestColor_minimises_witness :
    findClosestColor 128 128 128 ∈ nordPalette ∧
    (∀ p ∈ nordPalette,
      sqDist 128 128 128 (findClosestColor 128 128 128) ≤ sqDist 128 128 128 p) ∧
    findClosestColor 128 128 128 ≠ (0, 0, 0) :=
  findClosestColor_minimises 128 128 128 (by decide) (by decide) (by decide)

/-- C2. Ties go to the first entry in palette order: if the returned entry sits at
index `i` of `nordPalette`, every entry at a smaller index `j` is strictly farther
from the input than the returned entry. -/
theorem findClosestColor_first_wins (r g b : Nat)
    (hr : r ≤ 255) (hg : g ≤ 255) (hb : b ≤ 255)
    (i j : Nat) (p : Nat × Nat × Nat)
    (hi : nordPalette.get? i = some (findClosestColor r g b))
    (hji : j < i) (hj : nordPalette.get? j = some p) :
    sqDist r g b (findClosestColor r g b) < sqDist r g b p := by
  obtain ⟨l₁, l₂, hs, hlt, _⟩ := findClosestColor_split r g b hr hg hb
  have hnd := nordPalette_nodup
  have hlen : l₁.length < nordPalette.length := by
    rw [hs]; simp
  have hi' : i < nordPalette.length := by
    rcases List.get?_eq_some.1 hi with ⟨h, _⟩
    exact h
  have hmid : nordPalette.get ⟨l₁.length, hlen⟩ = findClosestColor r g b := by
    have : nordPalette.get? l₁.length = some (findClosestColor r g b) := by
      have h := get?_append_mid l₁ (findClosestColor r g b) l₂
      rw [← hs] at h
      exact h
    rcases List.get?_eq_some.1 this with ⟨_, h⟩
    exact h
  have hiv : nordPalette.get ⟨i, hi'⟩ = findClosestColor r g b := by
    rcases List.get?_eq_some.1 hi with ⟨_, h⟩
    exact h
  have hEq : i = l₁.length := by
    have := (List.Nodup.get_inj_iff hnd).1 (hiv.trans hmid.symm)
    simpa using congrArg Fin.val this
  have hjl : j < l₁.length := by omega
  have hp : p ∈ l₁ := by
    have h1 : nordPalette.get? j = l₁.get? j := by
      have h := get?_append_before l₁ (findClosestColor r g b) l₂ j hjl
      rw [← hs] at h
      exact h
    rw [h1] at hj
    exact List.get?_mem hj
  exact hlt p hp

theorem findClosestColor_first_wins_witness :
    sqDist 128 128 128 (findClosestColor 128 128 128) < sqDist 128 128 128 (46, 52, 64) :=
  findClosestColor_first_wins 128 128 128 (by decide) (by decide) (by decide)
    10 0 (46, 52, 64) (by decide) (by decide) (by decide)

/-- C3. Every palette entry is matched to itself, and consequently
`findClosestColor` is idempotent on every input with channels in 0..255. -/
theorem findClosestColor_self_match :
    (∀ p ∈ nordPalette, findClosestColor p.1 p.2.1 p.2.2 = p ∧
        sqDist p.1 p.2.1 p.2.2 (findClosestColor p.1 p.2.1 p.2.2) = 0) ∧
    (∀ r g b : Nat, r ≤ 255 → g ≤ 255 → b ≤ 255 →
      findClosestColor (findClosestColor r g b).1 (findClosestColor r g b).2.1
        (findClosestColor r g b).2.2 = findClosestColor r g b) := by
  have hself : ∀ p ∈ nordPalette, findClosestColor p.1 p.2.1 p.2.2 = p ∧
      sqDist p.1 p.2.1 p.2.2 (findClosestColor p.1 p.2.1 p.2.2) = 0 := by
    decide
  refine ⟨hself, ?_⟩
  intro r g b hr hg hb
  exact (hself _ (findClosestColor_mem r g b hr hg hb)).1

theorem findClosestColor_self_match_witness :
    findClosestColor (findClosestColor 200 10 77).1 (findClosestColor 200 10 77).2.1
        (findClosestColor 200 10 77).2.2 = findClosestColor 200 10 77 :=
  findClosestColor_self_match.2 200 10 77 (by decide) (by decide) (by decide)

/-! ## Rounding to binary64 -/

theorem roundHalfEven_err (x : ℚ) : |((roundHalfEven x : Int) : ℚ) - x| ≤ 1 / 2 := by
  have h1 := Int.floor_le x
  have h2 := Int.lt_floor_add_one x
  unfold roundHalfEven
  split_ifs with a b c
  · rw [abs_le]; constructor <;> linarith
  · rw [abs_le]; push_cast; constructor <;> linarith
  · rw [abs_le]; constructor <;> linarith
  · rw [abs_le]; push_cast; constructor <;> linarith

theorem roundHalfEven_eq (x : ℚ) (m : Int) (h : |x - (m : ℚ)| < 1 / 2) :
    roundHalfEven x = m := by
  rw [abs_lt] at h
  obtain ⟨h1, h2⟩ := h
  by_cases hx : (m : ℚ) ≤ x
  · have hf : ⌊x⌋ = m := by
      rw [Int.floor_eq_iff]; constructor <;> linarith
    unfold roundHalfEven
    rw [hf, if_pos (by linarith)]
  · have hx' : x < m := not_le.1 hx
    have hf : ⌊x⌋ = m - 1 := by
      rw [Int.floor_eq_iff]; push_cast; constructor <;> linarith
    unfold roundHalfEven
    rw [hf]
    push_cast
    rw [if_neg (by linarith), if_pos (by linarith)]
    ring

theorem roundHalfEven_intCast (m : Int) : roundHalfEven (m : ℚ) = m :=
  roundHalfEven_eq _ m (by simp)

theorem round53_zero : round53 0 = 0 := by
  simp [round53]

/-- The absolute error of `round53` is at most half a unit in the last place, so
the relative error is at most `2^-53`. -/
theorem round53_err (q : ℚ) : |round53 q - q| ≤ |q| / 2 ^ 53 := by
  by_cases hq : q = 0
  · subst hq; simp [round53_zero]
  · have habs : 0 < |q| := abs_pos.2 hq
    have hlog : ((2 : ℕ) : ℚ) ^ Int.log 2 |q| ≤ |q| := Int.zpow_log_le_self (by norm_num) habs
    have hlog' : (2 : ℚ) ^ Int.log 2 |q| ≤ |q| := by exact_mod_cast hlog
    set e : Int := Int.log 2 |q| - 52 with he
    have hpos : (0 : ℚ) < (2 : ℚ) ^ e := zpow_pos (by norm_num) e
    have hr : round53 q = (roundHalfEven (q / (2 : ℚ) ^ e) : ℚ) * (2 : ℚ) ^ e := by
      simp only [round53, hq, if_false, he]
    have herr := roundHalfEven_err (q / (2 : ℚ) ^ e)
    have e1 : round53 q - q = ((roundHalfEven (q / (2 : ℚ) ^ e) : ℚ) - q / (2 : ℚ) ^ e)
        * (2 : ℚ) ^ e := by
      rw [hr]; field_simp
    rw [e1, abs_mul, abs_of_pos hpos]
    have e2 : (2 : ℚ) ^ Int.log 2 |q| = (2 : ℚ) ^ e * 2 ^ 52 := by
      have : Int.log 2 |q| = e + 52 := by omega
      rw [this, zpow_add₀ (by norm_num)]
      norm_num
    have h3 : |((roundHalfEven (q / (2 : ℚ) ^ e) : Int) : ℚ) - q / (2 : ℚ) ^ e| * (2 : ℚ) ^ e
        ≤ 1 / 2 * (2 : ℚ) ^ e := mul_le_mul_of_nonneg_right herr (le_of_lt hpos)
    have h4 : 1 / 2 * (2 : ℚ) ^ e ≤ |q| / 2 ^ 53 := by
      rw [le_div_iff₀ (by norm_num)]
      rw [e2] at hlog'
      nlinarith
    linarith

/-- With `2^52 ≤ |q| * 2^k < 2^53` the rounded value is `q * 2^k` rounded to an
integer, ties to even, divided by `2^k`. -/
theorem round53_scaled (q : ℚ) (k : ℕ)
    (hlo : (2 : ℚ) ^ 52 ≤ |q| * 2 ^ k) (hhi : |q| * 2 ^ k < 2 ^ 53) :
    round53 q = (roundHalfEven (q * 2 ^ k) : ℚ) / 2 ^ k := by
  have hq : q ≠ 0 := by
    rintro rfl
    simp at hlo
    linarith [show (0 : ℚ) < 2 ^ 52 by norm_num]
  have habs : 0 < |q| := abs_pos.2 hq
  have hlog : Int.log 2 |q| = 52 - (k : Int) := by
    apply le_antisymm
    · have : Int.log 2 |q| < 53 - (k : Int) := by
        rw [← Int.lt_zpow_iff_log_lt (by norm_num) habs]
        rw [zpow_sub₀ (by norm_num)]
        rw [lt_div_iff₀ (by positivity)]
        push_cast
        exact_mod_cast hhi
      omega
    · rw [← Int.zpow_le_iff_le_log (by norm_num) habs]
      rw [zpow_sub₀ (by norm_num)]
      rw [div_le_iff₀ (by positivity)]
      push_cast
      exact_mod_cast hlo
  have he : Int.log 2 |q| - 52 = -(k : Int) := by omega
  simp only [round53, hq, if_false, he]
  have e1 : (2 : ℚ) ^ (-(k : Int)) = 1 / 2 ^ k := by
    rw [zpow_neg, zpow_natCast]; simp
  rw [e1]
  have e2 : q / (1 / 2 ^ k) = q * 2 ^ k := by field_simp
  rw [e2]
  ring

/-- A tie is rounded to the even neighbour. -/
theorem roundHalfEven_tie (x : ℚ) (m : Int) (h : x = (m : ℚ) + 1 / 2) :
    roundHalfEven x = if m % 2 = 0 then m else m + 1 := by
  have hf : ⌊x⌋ = m := by
    rw [Int.floor_eq_iff, h]; constructor <;> linarith
  unfold roundHalfEven
  rw [hf, if_neg (by rw [h]; linarith), if_neg (by rw [h]; linarith)]

/-- Evaluation of `round53`: with `2^52 ≤ |q| * 2^k < 2^53`, the result is the
integer nearest to `q * 2^k`, divided by `2^k`. -/
theorem round53_eval (q : ℚ) (k : ℕ) (m : Int)
    (hlo : (2 : ℚ) ^ 52 ≤ |q| * 2 ^ k) (hhi : |q| * 2 ^ k < 2 ^ 53)
    (hm : |q * 2 ^ k - (m : ℚ)| < 1 / 2) : round53 q = (m : ℚ) / 2 ^ k := by
  rw [round53_scaled q k hlo hhi, roundHalfEven_eq _ m hm]

theorem round53_le (q : ℚ) (hq : 0 ≤ q) : round53 q ≤ q * (1 + 1 / 2 ^ 53) := by
  have h := round53_err q
  rw [abs_of_nonneg hq, abs_le] at h
  have : q * (1 + 1 / 2 ^ 53) = q + q / 2 ^ 53 := by ring
  linarith

theorem round53_ge (q : ℚ) (hq : 0 ≤ q) : q * (1 - 1 / 2 ^ 53) ≤ round53 q := by
  have h := round53_err q
  rw [abs_of_nonneg hq, abs_le] at h
  have : q * (1 - 1 / 2 ^ 53) = q - q / 2 ^ 53 := by ring
  linarith

theorem round53_nonneg (q : ℚ) (hq : 0 ≤ q) : 0 ≤ round53 q := by
  have h := round53_ge q hq
  have : 0 ≤ q * (1 - 1 / 2 ^ 53) := mul_nonneg hq (by norm_num)
  linarith

theorem round53_pos (q : ℚ) (hq : 0 < q) : 0 < round53 q := by
  have h := round53_ge q (le_of_lt hq)
  have : 0 < q * (1 - 1 / 2 ^ 53) := mul_pos hq (by norm_num)
  linarith

/-- Integers below `2^53` in absolute value are representable. -/
theorem round53_intCast (n : Int) (h : |n| < 2 ^ 53) : round53 (n : ℚ) = n := by
  by_cases hn : n = 0
  · subst hn; simp [round53_zero]
  · have hq : (n : ℚ) ≠ 0 := by exact_mod_cast hn
    have habs : 0 < |(n : ℚ)| := abs_pos.2 hq
    have hlt : Int.log 2 |(n : ℚ)| < 53 := by
      rw [← Int.lt_zpow_iff_log_lt (by norm_num) habs]
      have h1 : |(n : ℚ)| < 2 ^ 53 := by exact_mod_cast h
      have h2 : ((2 : ℕ) : ℚ) ^ (53 : Int) = (2 : ℚ) ^ (53 : ℕ) := by norm_num
      rw [h2]
      exact h1
    obtain ⟨j, hj⟩ : ∃ j : ℕ, Int.log 2 |(n : ℚ)| - 52 = -(j : Int) :=
      ⟨(52 - Int.log 2 |(n : ℚ)|).toNat, by omega⟩
    simp only [round53, hq, if_false, hj]
    have e1 : (2 : ℚ) ^ (-(j : Int)) = 1 / 2 ^ j := by
      rw [zpow_neg, zpow_natCast]; simp
    rw [e1]
    have e2 : (n : ℚ) / (1 / 2 ^ j) = ((n * 2 ^ j : Int) : ℚ) := by
      push_cast; field_simp
    rw [e2, roundHalfEven_intCast]
    push_cast
    field_simp

theorem round53_1128 : round53 ((1128 : Int) : ℚ) = 1128 := by
  have := round53_intCast 1128 (by norm_num)
  exact_mod_cast this

theorem round53_752 : round53 ((752 : Int) : ℚ) = 752 := by
  have := round53_intCast 752 (by norm_num)
  exact_mod_cast this

theorem round53_srcPos (n : Int) (h : 1 ≤ n) : 0 < round53 (n : ℚ) :=
  round53_pos _ (by exact_mod_cast (by omega : (0 : Int) < n))

/-! ## Resize geometry -/

theorem toInt_floor_fin (q : ℚ) : (F64.floor (F64.fin q)).toInt = some ⌊q⌋ := by
  simp only [F64.floor, F64.toInt]
  split
  · simp
  · simp

theorem availW_eq :
    (F64.floor (F64.mul (F64.ofInt screenW) (F64.fin scaleFactor))).toInt = some 1128 := by
  have h1 : round53 ((2256 : Int) : ℚ) = 2256 := by
    have := round53_intCast 2256 (by norm_num)
    exact_mod_cast this
  simp only [F64.ofInt, F64.mul, toInt_floor_fin, screenW, scaleFactor, h1]
  have : (2256 : ℚ) * (1 / 2) = ((1128 : Int) : ℚ) := by norm_num
  rw [this, round53_1128]
  have e : (1128 : ℚ) = ((1128 : Int) : ℚ) := by norm_num
  rw [e, Int.floor_intCast]

theorem availH_eq :
    (F64.floor (F64.mul (F64.ofInt screenH) (F64.fin scaleFactor))).toInt = some 752 := by
  have h1 : round53 ((1504 : Int) : ℚ) = 1504 := by
    have := round53_intCast 1504 (by norm_num)
    exact_mod_cast this
  simp only [F64.ofInt, F64.mul, toInt_floor_fin, screenH, scaleFactor, h1]
  have : (1504 : ℚ) * (1 / 2) = ((752 : Int) : ℚ) := by norm_num
  rw [this, round53_752]
  have e : (752 : ℚ) = ((752 : Int) : ℚ) := by norm_num
  rw [e, Int.floor_intCast]

/-- The function `layout` from the selected scale and the two converted products. -/
theorem layout_of_parts (srcW srcH : Int) (s : F64) (ow oh : Option Int)
    (hs : (if F64.lt (F64.div (F64.ofInt 752) (F64.ofInt srcH))
          (F64.div (F64.ofInt 1128) (F64.ofInt srcW)) = true
        then F64.div (F64.ofInt 752) (F64.ofInt srcH)
        else F64.div (F64.ofInt 1128) (F64.ofInt srcW)) = s)
    (hw : (F64.floor (F64.mul (F64.ofInt srcW) s)).toInt = ow)
    (hh : (F64.floor (F64.mul (F64.ofInt srcH) s)).toInt = oh) :
    layout srcW srcH = ow.bind (fun nw => oh.bind (fun nh =>
      some ⟨1128, 752, nw, nh, Int.tdiv (screenW - nw) 2, Int.tdiv (screenH - nh) 2⟩)) := by
  simp only [layout, availW_eq, availH_eq, Option.bind_eq_bind, Option.some_bind, hs, hw, hh]
  rfl

/-- Closed form of `layout` for a source with positive dimensions. -/
theorem layout_pos (srcW srcH : Int) (hw : 1 ≤ srcW) (hh : 1 ≤ srcH) :
    layout srcW srcH = some
      { availW := 1128
        availH := 752
        newW := ⌊round53 (round53 (srcW : ℚ) * scaleOf srcW srcH)⌋
        newH := ⌊round53 (round53 (srcH : ℚ) * scaleOf srcW srcH)⌋
        borderX := Int.tdiv (screenW - ⌊round53 (round53 (srcW : ℚ) * scaleOf srcW srcH)⌋) 2
        borderY :=
          Int.tdiv (screenH - ⌊round53 (round53 (srcH : ℚ) * scaleOf srcW srcH)⌋) 2 } := by
  have hw0 : round53 (srcW : ℚ) ≠ 0 := ne_of_gt (round53_srcPos srcW hw)
  have hh0 : round53 (srcH : ℚ) ≠ 0 := ne_of_gt (round53_srcPos srcH hh)
  have hx : F64.div (F64.ofInt 1128) (F64.ofInt srcW) = F64.fin (scaleXOf srcW) := by
    simp only [F64.ofInt, F64.div, hw0, if_false, round53_1128, scaleXOf]
  have hy : F64.div (F64.ofInt 752) (F64.ofInt srcH) = F64.fin (scaleYOf srcH) := by
    simp only [F64.ofInt, F64.div, hh0, if_false, round53_752, scaleYOf]
  have hmin : (if F64.lt (F64.div (F64.ofInt 752) (F64.ofInt srcH))
        (F64.div (F64.ofInt 1128) (F64.ofInt srcW)) = true
      then F64.div (F64.ofInt 752) (F64.ofInt srcH)
      else F64.div (F64.ofInt 1128) (F64.ofInt srcW)) = F64.fin (scaleOf srcW srcH) := by
    rw [hx, hy]
    simp only [F64.lt, decide_eq_true_eq, scaleOf]
    split <;> rfl
  simp only [layout, availW_eq, availH_eq, Option.bind_eq_bind, Option.some_bind, hmin]
  simp only [F64.ofInt, F64.mul, toInt_floor_fin, Option.some_bind]
  rfl

theorem scaleXOf_nonneg (srcW : Int) (hw : 1 ≤ srcW) : 0 ≤ scaleXOf srcW :=
  round53_nonneg _ (div_nonneg (by norm_num) (le_of_lt (round53_srcPos srcW hw)))

theorem scaleYOf_nonneg (srcH : Int) (hh : 1 ≤ srcH) : 0 ≤ scaleYOf srcH :=
  round53_nonneg _ (div_nonneg (by norm_num) (le_of_lt (round53_srcPos srcH hh)))

theorem scaleOf_facts (srcW srcH : Int) (hw : 1 ≤ srcW) (hh : 1 ≤ srcH) :
    0 ≤ scaleOf srcW srcH ∧ scaleOf srcW srcH ≤ scaleXOf srcW ∧
    scaleOf srcW srcH ≤ scaleYOf srcH ∧
    (scaleOf srcW srcH = scaleXOf srcW ∨ scaleOf srcW srcH = scaleYOf srcH) := by
  have hx := scaleXOf_nonneg srcW hw
  have hy := scaleYOf_nonneg srcH hh
  unfold scaleOf
  by_cases h : scaleYOf srcH < scaleXOf srcW
  · rw [if_pos h]
    exact ⟨hy, le_of_lt h, le_refl _, Or.inr rfl⟩
  · rw [if_neg h]
    exact ⟨hx, le_refl _, not_lt.1 h, Or.inl rfl⟩

/-- A product `X * s` with `s` at most the rounded quotient `a / X` rounds to less
than `a + 1`: two roundings cannot gain a whole unit on a value of at most 1128. -/
theorem fit_upper (a X s : ℚ) (ha0 : 0 < a) (ha : a ≤ 1128) (hX : 0 < X)
    (hs0 : 0 ≤ s) (hs : s ≤ round53 (a / X)) :
    0 ≤ round53 (X * s) ∧ round53 (X * s) < a + 1 ∧
    0 ≤ X * s ∧ X * s ≤ a * (1 + 1 / 2 ^ 53) := by
  have hq : 0 ≤ a / X := div_nonneg (le_of_lt ha0) (le_of_lt hX)
  have h1 := round53_le (a / X) hq
  have hxs0 : 0 ≤ X * s := mul_nonneg (le_of_lt hX) hs0
  have h2 : X * s ≤ a * (1 + 1 / 2 ^ 53) := by
    have : X * s ≤ X * (a / X * (1 + 1 / 2 ^ 53)) :=
      mul_le_mul_of_nonneg_left (le_trans hs h1) (le_of_lt hX)
    have e : X * (a / X * (1 + 1 / 2 ^ 53)) = a * (1 + 1 / 2 ^ 53) := by
      field_simp
      ring
    rw [e] at this
    exact this
  have h3 := round53_le (X * s) hxs0
  have h4 : X * s * (1 + 1 / 2 ^ 53) ≤ a * (1 + 1 / 2 ^ 53) * (1 + 1 / 2 ^ 53) :=
    mul_le_mul_of_nonneg_right h2 (by norm_num)
  have h5 : a * (1 + 1 / 2 ^ 53) * (1 + 1 / 2 ^ 53) < a + 1 := by
    have e : a * (1 + 1 / 2 ^ 53) * (1 + 1 / 2 ^ 53)
        = a + a * ((1 + 1 / 2 ^ 53) * (1 + 1 / 2 ^ 53) - 1) := by ring
    rw [e]
    have hc : (0 : ℚ) ≤ (1 + 1 / 2 ^ 53) * (1 + 1 / 2 ^ 53) - 1 := by norm_num
    have h6 : a * ((1 + 1 / 2 ^ 53) * (1 + 1 / 2 ^ 53) - 1)
        ≤ 1128 * ((1 + 1 / 2 ^ 53) * (1 + 1 / 2 ^ 53) - 1) :=
      mul_le_mul_of_nonneg_right ha hc
    have h7 : (1128 : ℚ) * ((1 + 1 / 2 ^ 53) * (1 + 1 / 2 ^ 53) - 1) < 1 := by norm_num
    linarith
  exact ⟨round53_nonneg _ hxs0, by linarith, hxs0, h2⟩

/-- The product of `X` with the rounded quotient `a / X` rounds to more than
`a - 1`. -/
theorem fit_lower (a X : ℚ) (ha0 : 0 < a) (ha : a ≤ 1128) (hX : 0 < X) :
    a - 1 < round53 (X * round53 (a / X)) := by
  have hq : 0 ≤ a / X := div_nonneg (le_of_lt ha0) (le_of_lt hX)
  have h1 := round53_ge (a / X) hq
  have hs0 := round53_nonneg (a / X) hq
  have hxs0 : 0 ≤ X * round53 (a / X) := mul_nonneg (le_of_lt hX) hs0
  have h2 : a * (1 - 1 / 2 ^ 53) ≤ X * round53 (a / X) := by
    have : X * (a / X * (1 - 1 / 2 ^ 53)) ≤ X * round53 (a / X) :=
      mul_le_mul_of_nonneg_left h1 (le_of_lt hX)
    have e : X * (a / X * (1 - 1 / 2 ^ 53)) = a * (1 - 1 / 2 ^ 53) := by
      field_simp
      ring
    rw [e] at this
    exact this
  have h3 := round53_ge (X * round53 (a / X)) hxs0
  have h4 : a * (1 - 1 / 2 ^ 53) * (1 - 1 / 2 ^ 53)
      ≤ X * round53 (a / X) * (1 - 1 / 2 ^ 53) :=
    mul_le_mul_of_nonneg_right h2 (by norm_num)
  have h5 : a - 1 < a * (1 - 1 / 2 ^ 53) * (1 - 1 / 2 ^ 53) := by
    have e : a * (1 - 1 / 2 ^ 53) * (1 - 1 / 2 ^ 53)
        = a - a * (1 - (1 - 1 / 2 ^ 53) * (1 - 1 / 2 ^ 53)) := by ring
    rw [e]
    have hc : (0 : ℚ) ≤ 1 - (1 - 1 / 2 ^ 53) * (1 - 1 / 2 ^ 53) := by norm_num
    have h6 : a * (1 - (1 - 1 / 2 ^ 53) * (1 - 1 / 2 ^ 53))
        ≤ 1128 * (1 - (1 - 1 / 2 ^ 53) * (1 - 1 / 2 ^ 53)) :=
      mul_le_mul_of_nonneg_right ha hc
    have h7 : (1128 : ℚ) * (1 - (1 - 1 / 2 ^ 53) * (1 - 1 / 2 ^ 53)) < 1 := by norm_num
    linarith
  linarith

/-- Bounds on the new size of a source with positive dimensions, with the
rounding of `float64`: the photo fits the available box, and the limiting axis
misses its available extent by at most one pixel. -/
theorem layout_bounds (srcW srcH : Int) (hw : 1 ≤ srcW) (hh : 1 ≤ srcH) :
    ∃ L, layout srcW srcH = some L ∧
      0 ≤ L.newW ∧ L.newW ≤ 1128 ∧ 0 ≤ L.newH ∧ L.newH ≤ 752 ∧
      (1127 ≤ L.newW ∨ 751 ≤ L.newH) ∧
      L.borderX = (screenW - L.newW) / 2 ∧ L.borderY = (screenH - L.newH) / 2 := by
  obtain ⟨hs0, hsx, hsy, hsel⟩ := scaleOf_facts srcW srcH hw hh
  have hW := round53_srcPos srcW hw
  have hH := round53_srcPos srcH hh
  obtain ⟨w0, w1, _, _⟩ := fit_upper 1128 (round53 (srcW : ℚ)) (scaleOf srcW srcH)
    (by norm_num) (le_refl _) hW hs0 hsx
  obtain ⟨h0, h1, _, _⟩ := fit_upper 752 (round53 (srcH : ℚ)) (scaleOf srcW srcH)
    (by norm_num) (by norm_num) hH hs0 hsy
  have k1 : 0 ≤ ⌊round53 (round53 (srcW : ℚ) * scaleOf srcW srcH)⌋ := Int.floor_nonneg.2 w0
  have k2 : ⌊round53 (round53 (srcW : ℚ) * scaleOf srcW srcH)⌋ ≤ 1128 := by
    have : ⌊round53 (round53 (srcW : ℚ) * scaleOf srcW srcH)⌋ < 1129 := by
      rw [Int.floor_lt]; push_cast; linarith
    omega
  have k3 : 0 ≤ ⌊round53 (round53 (srcH : ℚ) * scaleOf srcW srcH)⌋ := Int.floor_nonneg.2 h0
  have k4 : ⌊round53 (round53 (srcH : ℚ) * scaleOf srcW srcH)⌋ ≤ 752 := by
    have : ⌊round53 (round53 (srcH : ℚ) * scaleOf srcW srcH)⌋ < 753 := by
      rw [Int.floor_lt]; push_cast; linarith
    omega
  have k5 : 1127 ≤ ⌊round53 (round53 (srcW : ℚ) * scaleOf srcW srcH)⌋ ∨
      751 ≤ ⌊round53 (round53 (srcH : ℚ) * scaleOf srcW srcH)⌋ := by
    rcases hsel with e | e
    · left
      rw [e, Int.le_floor]
      have := fit_lower 1128 (round53 (srcW : ℚ)) (by norm_num) (le_refl _) hW
      unfold scaleXOf
      push_cast
      linarith
    · right
      rw [e, Int.le_floor]
      have := fit_lower 752 (round53 (srcH : ℚ)) (by norm_num) (by norm_num) hH
      unfold scaleYOf
      push_cast
      linarith
  refine ⟨_, layout_pos srcW srcH hw hh, k1, k2, k3, k4, k5, ?_, ?_⟩
  · show Int.tdiv _ 2 = _
    rw [Int.tdiv_eq_ediv (by simp only [screenW]; omega) (by decide)]
  · show Int.tdiv _ 2 = _
    rw [Int.tdiv_eq_ediv (by simp only [screenH]; omega) (by decide)]

/-! ## The layout of particular sources -/

/-- The floor of a rounded value from the rounded scaled significand `r`. -/
theorem floor_round53_of (q : ℚ) (k : ℕ) (r n : Int)
    (hlo : (2 : ℚ) ^ 52 ≤ |q| * 2 ^ k) (hhi : |q| * 2 ^ k < 2 ^ 53)
    (hr : roundHalfEven (q * 2 ^ k) = r)
    (hn1 : n * 2 ^ k ≤ r) (hn2 : r < (n + 1) * 2 ^ k) : ⌊round53 q⌋ = n := by
  rw [round53_scaled q k hlo hhi, hr, Int.floor_eq_iff]
  have hk : (0 : ℚ) < 2 ^ k := by positivity
  have h1 : ((n * 2 ^ k : Int) : ℚ) ≤ (r : ℚ) := by exact_mod_cast hn1
  have h2 : (r : ℚ) < (((n + 1) * 2 ^ k : Int) : ℚ) := by exact_mod_cast hn2
  push_cast at h1 h2
  constructor
  · rw [le_div_iff₀ hk]; exact h1
  · rw [div_lt_iff₀ hk]; exact h2

/-- The floor of a rounded value whose scaled significand falls on a tie between
`m` and `m + 1`; `r` is the even one of the two. -/
theorem floor_round53_tie (q : ℚ) (k : ℕ) (m r n : Int)
    (hlo : (2 : ℚ) ^ 52 ≤ |q| * 2 ^ k) (hhi : |q| * 2 ^ k < 2 ^ 53)
    (hm : q * 2 ^ k = (m : ℚ) + 1 / 2) (hr : (if m % 2 = 0 then m else m + 1) = r)
    (hn1 : n * 2 ^ k ≤ r) (hn2 : r < (n + 1) * 2 ^ k) : ⌊round53 q⌋ = n :=
  floor_round53_of q k r n hlo hhi ((roundHalfEven_tie _ m hm).trans hr) hn1 hn2

theorem floor_round53_eval (q : ℚ) (k : ℕ) (m n : Int)
    (hlo : (2 : ℚ) ^ 52 ≤ |q| * 2 ^ k) (hhi : |q| * 2 ^ k < 2 ^ 53)
    (hm : |q * 2 ^ k - (m : ℚ)| < 1 / 2)
    (hn1 : n * 2 ^ k ≤ m) (hn2 : m < (n + 1) * 2 ^ k) : ⌊round53 q⌋ = n :=
  floor_round53_of q k m n hlo hhi (roundHalfEven_eq _ m hm) hn1 hn2

/-- Evaluation of `layout` for a source that the height limits, from the rounded
scale and the two floors. -/
theorem layout_eval_height (srcW srcH : Int) (hw : 1 ≤ srcW) (hh : 1 ≤ srcH)
    (hW53 : |srcW| < 2 ^ 53) (hH53 : |srcH| < 2 ^ 53) (s : ℚ) (nw nh : Int)
    (hsy : round53 (752 / (srcH : ℚ)) = s) (hsx : s < round53 (1128 / (srcW : ℚ)))
    (hnw : ⌊round53 ((srcW : ℚ) * s)⌋ = nw) (hnh : ⌊round53 ((srcH : ℚ) * s)⌋ = nh) :
    layout srcW srcH =
      some ⟨1128, 752, nw, nh, Int.tdiv (screenW - nw) 2, Int.tdiv (screenH - nh) 2⟩ := by
  have hsc : scaleOf srcW srcH = s := by
    simp only [scaleOf, scaleXOf, scaleYOf, round53_intCast srcW hW53,
      round53_intCast srcH hH53, hsy]
    rw [if_pos hsx]
  rw [layout_pos srcW srcH hw hh, hsc, round53_intCast srcW hW53, round53_intCast srcH hH53,
    hnw, hnh]

/-- Evaluation of `layout` for a source that the width limits, from the rounded
scale and the two floors. -/
theorem layout_eval_width (srcW srcH : Int) (hw : 1 ≤ srcW) (hh : 1 ≤ srcH)
    (hW53 : |srcW| < 2 ^ 53) (hH53 : |srcH| < 2 ^ 53) (s : ℚ) (nw nh : Int)
    (hsx : round53 (1128 / (srcW : ℚ)) = s) (hsy : ¬ round53 (752 / (srcH : ℚ)) < s)
    (hnw : ⌊round53 ((srcW : ℚ) * s)⌋ = nw) (hnh : ⌊round53 ((srcH : ℚ) * s)⌋ = nh) :
    layout srcW srcH =
      some ⟨1128, 752, nw, nh, Int.tdiv (screenW - nw) 2, Int.tdiv (screenH - nh) 2⟩ := by
  have hsc : scaleOf srcW srcH = s := by
    simp only [scaleOf, scaleXOf, scaleYOf, round53_intCast srcW hW53,
      round53_intCast srcH hH53, hsx]
    rw [if_neg hsy]
  rw [layout_pos srcW srcH hw hh, hsc, round53_intCast srcW hW53, round53_intCast srcH hH53,
    hnw, hnh]

theorem layout_35_35 : layout 35 35 = some ⟨1128, 752, 751, 751, 752, 376⟩ := by
  have hs : round53 (752 / ((35 : Int) : ℚ)) = ((6047690928183237 : Int) : ℚ) / 2 ^ 48 :=
    round53_eval _ 48 6047690928183237 (by norm_num [abs_of_pos]) (by norm_num [abs_of_pos])
      (by norm_num [abs_lt])
  have hx : ((6047690928183237 : Int) : ℚ) / 2 ^ 48 < round53 (1128 / ((35 : Int) : ℚ)) := by
    have h := round53_ge (1128 / ((35 : Int) : ℚ)) (by norm_num)
    have h' : ((6047690928183237 : Int) : ℚ) / 2 ^ 48
        < 1128 / ((35 : Int) : ℚ) * (1 - 1 / 2 ^ 53) := by norm_num
    linarith
  have hnw : ⌊round53 (((35 : Int) : ℚ) * (((6047690928183237 : Int) : ℚ) / 2 ^ 48))⌋ = 751 :=
    floor_round53_eval _ 43 6614661952700415 751 (by norm_num [abs_of_pos])
      (by norm_num [abs_of_pos]) (by norm_num [abs_lt]) (by norm_num) (by norm_num)
  have hnh : ⌊round53 (((35 : Int) : ℚ) * (((6047690928183237 : Int) : ℚ) / 2 ^ 48))⌋ = 751 :=
    floor_round53_eval _ 43 6614661952700415 751 (by norm_num [abs_of_pos])
      (by norm_num [abs_of_pos]) (by norm_num [abs_lt]) (by norm_num) (by norm_num)
  exact layout_eval_height 35 35 (by decide) (by decide) (by norm_num) (by norm_num)
    _ 751 751 hs hx hnw hnh

theorem layout_1000_999 : layout 1000 999 = some ⟨1128, 752, 752, 752, 752, 376⟩ := by
  have hs : round53 (752 / ((999 : Int) : ℚ)) = ((6780194033598825 : Int) : ℚ) / 2 ^ 53 :=
    round53_eval _ 53 6780194033598825 (by norm_num [abs_of_pos]) (by norm_num [abs_of_pos])
      (by norm_num [abs_lt])
  have hx : ((6780194033598825 : Int) : ℚ) / 2 ^ 53 < round53 (1128 / ((1000 : Int) : ℚ)) := by
    have h := round53_ge (1128 / ((1000 : Int) : ℚ)) (by norm_num)
    have h' : ((6780194033598825 : Int) : ℚ) / 2 ^ 53
        < 1128 / ((1000 : Int) : ℚ) * (1 - 1 / 2 ^ 53) := by norm_num
    linarith
  have hnw : ⌊round53 (((1000 : Int) : ℚ) * (((6780194033598825 : Int) : ℚ) / 2 ^ 53))⌋ = 752 :=
    floor_round53_eval _ 43 6621283235936353 752 (by norm_num [abs_of_pos])
      (by norm_num [abs_of_pos]) (by norm_num [abs_lt]) (by norm_num) (by norm_num)
  have hnh : ⌊round53 (((999 : Int) : ℚ) * (((6780194033598825 : Int) : ℚ) / 2 ^ 53))⌋ = 752 :=
    floor_round53_eval _ 43 6614661952700416 752 (by norm_num [abs_of_pos])
      (by norm_num [abs_of_pos]) (by norm_num [abs_lt]) (by norm_num) (by norm_num)
  exact layout_eval_height 1000 999 (by decide) (by decide) (by norm_num) (by norm_num)
    _ 752 752 hs hx hnw hnh

theorem layout_tall_source : layout 1 10000 = some ⟨1128, 752, 0, 752, 1128, 376⟩ := by
  have hs : round53 (752 / ((10000 : Int) : ℚ)) = ((5418731071652181 : Int) : ℚ) / 2 ^ 56 :=
    round53_eval _ 56 5418731071652181 (by norm_num [abs_of_pos]) (by norm_num [abs_of_pos])
      (by norm_num [abs_lt])
  have hx : ((5418731071652181 : Int) : ℚ) / 2 ^ 56 < round53 (1128 / ((1 : Int) : ℚ)) := by
    have h := round53_ge (1128 / ((1 : Int) : ℚ)) (by norm_num)
    have h' : ((5418731071652181 : Int) : ℚ) / 2 ^ 56
        < 1128 / ((1 : Int) : ℚ) * (1 - 1 / 2 ^ 53) := by norm_num
    linarith
  have hnw : ⌊round53 (((1 : Int) : ℚ) * (((5418731071652181 : Int) : ℚ) / 2 ^ 56))⌋ = 0 :=
    floor_round53_eval _ 56 5418731071652181 0 (by norm_num [abs_of_pos])
      (by norm_num [abs_of_pos]) (by norm_num [abs_lt]) (by norm_num) (by norm_num)
  have hnh : ⌊round53 (((10000 : Int) : ℚ) * (((5418731071652181 : Int) : ℚ) / 2 ^ 56))⌋ = 752 :=
    floor_round53_eval _ 43 6614661952700416 752 (by norm_num [abs_of_pos])
      (by norm_num [abs_of_pos]) (by norm_num [abs_lt]) (by norm_num) (by norm_num)
  exact layout_eval_height 1 10000 (by decide) (by decide) (by norm_num) (by norm_num)
    _ 0 752 hs hx hnw hnh

theorem layout_4000_3000 : layout 4000 3000 = some ⟨1128, 752, 1002, 752, 627, 376⟩ := by
  have hs : round53 (752 / ((3000 : Int) : ℚ)) = ((4515609226376817 : Int) : ℚ) / 2 ^ 54 :=
    round53_eval _ 54 4515609226376817 (by norm_num [abs_of_pos]) (by norm_num [abs_of_pos])
      (by norm_num [abs_lt])
  have hx : ((4515609226376817 : Int) : ℚ) / 2 ^ 54 < round53 (1128 / ((4000 : Int) : ℚ)) := by
    have h := round53_ge (1128 / ((4000 : Int) : ℚ)) (by norm_num)
    have h' : ((4515609226376817 : Int) : ℚ) / 2 ^ 54
        < 1128 / ((4000 : Int) : ℚ) * (1 - 1 / 2 ^ 53) := by norm_num
    linarith
  have hnw : ⌊round53 (((4000 : Int) : ℚ) * (((4515609226376817 : Int) : ℚ) / 2 ^ 54))⌋ = 1002 :=
    floor_round53_eval _ 43 8819549270267221 1002 (by norm_num [abs_of_pos])
      (by norm_num [abs_of_pos]) (by norm_num [abs_lt]) (by norm_num) (by norm_num)
  have hnh : ⌊round53 (((3000 : Int) : ℚ) * (((4515609226376817 : Int) : ℚ) / 2 ^ 54))⌋ = 752 :=
    floor_round53_eval _ 43 6614661952700416 752 (by norm_num [abs_of_pos])
      (by norm_num [abs_of_pos]) (by norm_num [abs_lt]) (by norm_num) (by norm_num)
  exact layout_eval_height 4000 3000 (by decide) (by decide) (by norm_num) (by norm_num)
    _ 1002 752 hs hx hnw hnh

/-! Sources on which a rounding decides the result: in exact arithmetic the new
sizes would be 940 x 752, 55 x 752, 1128 x 12, 1128 x 423 and 1 x 752. The products
`148 * scale`, `3 * scale` (for 3 x 41 and for 271 x 3) fall on ties, which round to
the even significand. -/

theorem layout_185_148 : layout 185 148 = some ⟨1128, 752, 939, 752, 658, 376⟩ := by
  have hs : round53 (752 / ((148 : Int) : ℚ)) = ((5720788715849008 : Int) : ℚ) / 2 ^ 50 :=
    round53_eval _ 50 5720788715849008 (by norm_num [abs_of_pos]) (by norm_num [abs_of_pos])
      (by norm_num [abs_lt])
  have hx : ((5720788715849008 : Int) : ℚ) / 2 ^ 50 < round53 (1128 / ((185 : Int) : ℚ)) := by
    have h := round53_ge (1128 / ((185 : Int) : ℚ)) (by norm_num)
    have h' : ((5720788715849008 : Int) : ℚ) / 2 ^ 50
        < 1128 / ((185 : Int) : ℚ) * (1 - 1 / 2 ^ 53) := by norm_num
    linarith
  have hnw : ⌊round53 (((185 : Int) : ℚ) * (((5720788715849008 : Int) : ℚ) / 2 ^ 50))⌋ = 939 :=
    floor_round53_eval _ 43 8268327440875519 939 (by norm_num [abs_of_pos])
      (by norm_num [abs_of_pos]) (by norm_num [abs_lt]) (by norm_num) (by norm_num)
  have hnh : ⌊round53 (((148 : Int) : ℚ) * (((5720788715849008 : Int) : ℚ) / 2 ^ 50))⌋ = 752 :=
    floor_round53_tie _ 43 6614661952700415 6614661952700416 752 (by norm_num [abs_of_pos])
      (by norm_num [abs_of_pos]) (by norm_num) (by decide) (by norm_num) (by norm_num)
  exact layout_eval_height 185 148 (by decide) (by decide) (by norm_num) (by norm_num)
    _ 939 752 hs hx hnw hnh

theorem layout_3_41 : layout 3 41 = some ⟨1128, 752, 55, 751, 1100, 376⟩ := by
  have hs : round53 (752 / ((41 : Int) : ℚ)) = ((5162662987473495 : Int) : ℚ) / 2 ^ 48 :=
    round53_eval _ 48 5162662987473495 (by norm_num [abs_of_pos]) (by norm_num [abs_of_pos])
      (by norm_num [abs_lt])
  have hx : ((5162662987473495 : Int) : ℚ) / 2 ^ 48 < round53 (1128 / ((3 : Int) : ℚ)) := by
    have h := round53_ge (1128 / ((3 : Int) : ℚ)) (by norm_num)
    have h' : ((5162662987473495 : Int) : ℚ) / 2 ^ 48
        < 1128 / ((3 : Int) : ℚ) * (1 - 1 / 2 ^ 53) := by norm_num
    linarith
  have hnw : ⌊round53 (((3 : Int) : ℚ) * (((5162662987473495 : Int) : ℚ) / 2 ^ 48))⌋ = 55 :=
    floor_round53_tie _ 47 7743994481210242 7743994481210242 55 (by norm_num [abs_of_pos])
      (by norm_num [abs_of_pos]) (by norm_num) (by decide) (by norm_num) (by norm_num)
  have hnh : ⌊round53 (((41 : Int) : ℚ) * (((5162662987473495 : Int) : ℚ) / 2 ^ 48))⌋ = 751 :=
    floor_round53_eval _ 43 6614661952700415 751 (by norm_num [abs_of_pos])
      (by norm_num [abs_of_pos]) (by norm_num [abs_lt]) (by norm_num) (by norm_num)
  exact layout_eval_height 3 41 (by decide) (by decide) (by norm_num) (by norm_num)
    _ 55 751 hs hx hnw hnh

theorem layout_271_3 : layout 271 3 = some ⟨1128, 752, 1127, 12, 564, 746⟩ := by
  have hs : round53 (1128 / ((271 : Int) : ℚ)) = ((4686402564274833 : Int) : ℚ) / 2 ^ 50 :=
    round53_eval _ 50 4686402564274833 (by norm_num [abs_of_pos]) (by norm_num [abs_of_pos])
      (by norm_num [abs_lt])
  have hx : ¬ round53 (752 / ((3 : Int) : ℚ)) < ((4686402564274833 : Int) : ℚ) / 2 ^ 50 := by
    have h := round53_ge (752 / ((3 : Int) : ℚ)) (by norm_num)
    have h' : ((4686402564274833 : Int) : ℚ) / 2 ^ 50
        ≤ 752 / ((3 : Int) : ℚ) * (1 - 1 / 2 ^ 53) := by norm_num
    linarith
  have hnw : ⌊round53 (((271 : Int) : ℚ) * (((4686402564274833 : Int) : ℚ) / 2 ^ 50))⌋ = 1127 :=
    floor_round53_eval _ 42 4960996464525311 1127 (by norm_num [abs_of_pos])
      (by norm_num [abs_of_pos]) (by norm_num [abs_lt]) (by norm_num) (by norm_num)
  have hnh : ⌊round53 (((3 : Int) : ℚ) * (((4686402564274833 : Int) : ℚ) / 2 ^ 50))⌋ = 12 :=
    floor_round53_tie _ 49 7029603846412249 7029603846412250 12 (by norm_num [abs_of_pos])
      (by norm_num [abs_of_pos]) (by norm_num) (by decide) (by norm_num) (by norm_num)
  exact layout_eval_width 271 3 (by decide) (by decide) (by norm_num) (by norm_num)
    _ 1127 12 hs hx hnw hnh

theorem layout_520_195 : layout 520 195 = some ⟨1128, 752, 1128, 422, 564, 541⟩ := by
  have hs : round53 (1128 / ((520 : Int) : ℚ)) = ((4884673441994153 : Int) : ℚ) / 2 ^ 51 :=
    round53_eval _ 51 4884673441994153 (by norm_num [abs_of_pos]) (by norm_num [abs_of_pos])
      (by norm_num [abs_lt])
  have hx : ¬ round53 (752 / ((195 : Int) : ℚ)) < ((4884673441994153 : Int) : ℚ) / 2 ^ 51 := by
    have h := round53_ge (752 / ((195 : Int) : ℚ)) (by norm_num)
    have h' : ((4884673441994153 : Int) : ℚ) / 2 ^ 51
        ≤ 752 / ((195 : Int) : ℚ) * (1 - 1 / 2 ^ 53) := by norm_num
    linarith
  have hnw : ⌊round53 (((520 : Int) : ℚ) * (((4884673441994153 : Int) : ℚ) / 2 ^ 51))⌋ = 1128 :=
    floor_round53_eval _ 42 4960996464525312 1128 (by norm_num [abs_of_pos])
      (by norm_num [abs_of_pos]) (by norm_num [abs_lt]) (by norm_num) (by norm_num)
  have hnh : ⌊round53 (((195 : Int) : ℚ) * (((4884673441994153 : Int) : ℚ) / 2 ^ 51))⌋ = 422 :=
    floor_round53_eval _ 44 7441494696787967 422 (by norm_num [abs_of_pos])
      (by norm_num [abs_of_pos]) (by norm_num [abs_lt]) (by norm_num) (by norm_num)
  exact layout_eval_width 520 195 (by decide) (by decide) (by norm_num) (by norm_num)
    _ 1128 422 hs hx hnw hnh

theorem layout_49_36848 : layout 49 36848 = some ⟨1128, 752, 0, 751, 1128, 376⟩ := by
  have hs : round53 (752 / ((36848 : Int) : ℚ)) = ((5882252574524729 : Int) : ℚ) / 2 ^ 58 :=
    round53_eval _ 58 5882252574524729 (by norm_num [abs_of_pos]) (by norm_num [abs_of_pos])
      (by norm_num [abs_lt])
  have hx : ((5882252574524729 : Int) : ℚ) / 2 ^ 58 < round53 (1128 / ((49 : Int) : ℚ)) := by
    have h := round53_ge (1128 / ((49 : Int) : ℚ)) (by norm_num)
    have h' : ((5882252574524729 : Int) : ℚ) / 2 ^ 58
        < 1128 / ((49 : Int) : ℚ) * (1 - 1 / 2 ^ 53) := by norm_num
    linarith
  have hnw : ⌊round53 (((49 : Int) : ℚ) * (((5882252574524729 : Int) : ℚ) / 2 ^ 58))⌋ = 0 :=
    floor_round53_eval _ 53 9007199254740991 0 (by norm_num [abs_of_pos])
      (by norm_num [abs_of_pos]) (by norm_num [abs_lt]) (by norm_num) (by norm_num)
  have hnh : ⌊round53 (((36848 : Int) : ℚ) * (((5882252574524729 : Int) : ℚ) / 2 ^ 58))⌋ = 751 :=
    floor_round53_eval _ 43 6614661952700415 751 (by norm_num [abs_of_pos])
      (by norm_num [abs_of_pos]) (by norm_num [abs_lt]) (by norm_num) (by norm_num)
  exact layout_eval_height 49 36848 (by decide) (by decide) (by norm_num) (by norm_num)
    _ 0 751 hs hx hnw hnh

/-! ## Properties of the resize geometry -/

/-- C7, refuted as stated. For the 35 x 35 source the exact computation gives
`floor(35 * (752/35)) = 752`, but with the rounding of `float64` the quotient
`752/35` rounds down, the product `35 * scale` stays below 752, and both new
extents are 751: neither axis takes its whole available extent. -/
theorem limiting_axis_misses_by_one :
    ∃ L, layout 35 35 = some L ∧ L.availW = 1128 ∧ L.availH = 752 ∧
      L.newW = 751 ∧ L.newH = 751 ∧ L.newW ≠ L.availW ∧ L.newH ≠ L.availH ∧
      ⌊(35 : ℚ) * min ((1128 : ℚ) / 35) ((752 : ℚ) / 35)⌋ = 752 := by
  refine ⟨_, layout_35_35, rfl, rfl, rfl, rfl, by decide, by decide, ?_⟩
  rw [min_eq_right (by norm_num), Int.floor_eq_iff]
  constructor <;> norm_num

/-- C7, amended. For a source with `srcW ≥ 1` and `srcH ≥ 1`, with
`availW = ⌊2256 * 0.5⌋ = 1128`, `availH = ⌊1504 * 0.5⌋ = 752`, `scale` the smaller
of the rounded quotients `availW / srcW` and `availH / srcH`, `newW = ⌊srcW * scale⌋`
and `newH = ⌊srcH * scale⌋` (products rounded as `float64` does): `newW ≤ availW`,
`newH ≤ availH`, and on at least one axis the new extent is the available extent
or one pixel less. -/
theorem layout_fits_available_box (srcW srcH : Int) (hw : 1 ≤ srcW) (hh : 1 ≤ srcH) :
    ∃ L, layout srcW srcH = some L ∧
      L.availW = ⌊(screenW : ℚ) * scaleFactor⌋ ∧ L.availW = 1128 ∧
      L.availH = ⌊(screenH : ℚ) * scaleFactor⌋ ∧ L.availH = 752 ∧
      L.newW = ⌊round53 (round53 (srcW : ℚ) * scaleOf srcW srcH)⌋ ∧
      L.newH = ⌊round53 (round53 (srcH : ℚ) * scaleOf srcW srcH)⌋ ∧
      0 ≤ L.newW ∧ 0 ≤ L.newH ∧
      L.newW ≤ L.availW ∧ L.newH ≤ L.availH ∧
      (L.availW - 1 ≤ L.newW ∨ L.availH - 1 ≤ L.newH) := by
  obtain ⟨L, hL, h1, h2, h3, h4, h5, _, _⟩ := layout_bounds srcW srcH hw hh
  have hp := layout_pos srcW srcH hw hh
  rw [hL] at hp
  have hL' := Option.some.inj hp
  have ha : L.availW = 1128 := by rw [hL']
  have hb : L.availH = 752 := by rw [hL']
  have e1 : ⌊(screenW : ℚ) * scaleFactor⌋ = 1128 := by
    have : ((screenW : Int) : ℚ) * scaleFactor = ((1128 : Int) : ℚ) := by
      simp only [screenW, scaleFactor]; norm_num
    rw [this, Int.floor_intCast]
  have e2 : ⌊(screenH : ℚ) * scaleFactor⌋ = 752 := by
    have : ((screenH : Int) : ℚ) * scaleFactor = ((752 : Int) : ℚ) := by
      simp only [screenH, scaleFactor]; norm_num
    rw [this, Int.floor_intCast]
  refine ⟨L, hL, by rw [ha, e1], ha, by rw [hb, e2], hb, by rw [hL'], by rw [hL'],
    h1, h3, by omega, by omega, by omega⟩

theorem layout_fits_available_box_witness :
    ∃ L, layout 35 35 = some L ∧
      L.availW = ⌊(screenW : ℚ) * scaleFactor⌋ ∧ L.availW = 1128 ∧
      L.availH = ⌊(screenH : ℚ) * scaleFactor⌋ ∧ L.availH = 752 ∧
      L.newW = ⌊round53 (round53 ((35 : Int) : ℚ) * scaleOf 35 35)⌋ ∧
      L.newH = ⌊round53 (round53 ((35 : Int) : ℚ) * scaleOf 35 35)⌋ ∧
      0 ≤ L.newW ∧ 0 ≤ L.newH ∧
      L.newW ≤ L.availW ∧ L.newH ≤ L.availH ∧
      (L.availW - 1 ≤ L.newW ∨ L.availH - 1 ≤ L.newH) :=
  layout_fits_available_box 35 35 (by decide) (by decide)

/-- C8, refuted as stated. For the 1000 x 999 source the new size is 752 x 752, and
`newW * srcH = 751248` differs from `newH * srcW = 752000`. -/
theorem aspect_ratio_not_exact :
    ∃ L, layout 1000 999 = some L ∧ L.newW = 752 ∧ L.newH = 752 ∧
      L.newW * 999 ≠ L.newH * 1000 :=
  ⟨_, layout_1000_999, rfl, rfl, by decide⟩

/-- The new extent along one axis, as an integer, against the exact product
`X * s`: the rounding of the product and the floor lose less than `1 + 2^-42`
and gain at most `2^-42`. -/
theorem extent_near_product (a X s : ℚ) (ha0 : 0 < a) (ha : a ≤ 1128) (hX : 0 < X)
    (hs0 : 0 ≤ s) (hs : s ≤ round53 (a / X)) :
    X * s - 1 / 2 ^ 42 - 1 < (⌊round53 (X * s)⌋ : ℚ) ∧
    (⌊round53 (X * s)⌋ : ℚ) ≤ X * s + 1 / 2 ^ 42 := by
  obtain ⟨_, _, h0, h1⟩ := fit_upper a X s ha0 ha hX hs0 hs
  have herr := round53_err (X * s)
  rw [abs_of_nonneg h0, abs_le] at herr
  have hb : X * s / 2 ^ 53 ≤ 1 / 2 ^ 42 := by
    have : X * s ≤ 1128 * (1 + 1 / 2 ^ 53) :=
      le_trans h1 (mul_le_mul_of_nonneg_right ha (by norm_num))
    have h2 : X * s / 2 ^ 53 ≤ 1128 * (1 + 1 / 2 ^ 53) / 2 ^ 53 :=
      div_le_div_of_nonneg_right this (by norm_num)
    have h3 : (1128 : ℚ) * (1 + 1 / 2 ^ 53) / 2 ^ 53 ≤ 1 / 2 ^ 42 := by norm_num
    linarith
  have f1 := Int.floor_le (round53 (X * s))
  have f2 := Int.lt_floor_add_one (round53 (X * s))
  constructor <;> linarith

/-- C8, amended. For a source with `1 ≤ srcW, srcH < 2^31` the aspect ratio is
preserved up to the rounding of each new extent to a whole pixel:
`-srcH ≤ newW * srcH - newH * srcW ≤ srcW`. -/
theorem aspect_ratio_up_to_rounding (srcW srcH : Int) (hw : 1 ≤ srcW) (hh : 1 ≤ srcH)
    (hW : srcW < 2 ^ 31) (hH : srcH < 2 ^ 31) :
    ∃ L, layout srcW srcH = some L ∧
      -srcH ≤ L.newW * srcH - L.newH * srcW ∧ L.newW * srcH - L.newH * srcW ≤ srcW := by
  have hW53 : |srcW| < 2 ^ 53 := by
    rw [abs_lt]; constructor
    · have : (0 : Int) < 2 ^ 53 := by norm_num
      omega
    · have : (2 : Int) ^ 31 < 2 ^ 53 := by norm_num
      omega
  have hH53 : |srcH| < 2 ^ 53 := by
    rw [abs_lt]; constructor
    · have : (0 : Int) < 2 ^ 53 := by norm_num
      omega
    · have : (2 : Int) ^ 31 < 2 ^ 53 := by norm_num
      omega
  obtain ⟨hs0, hsx, hsy, _⟩ := scaleOf_facts srcW srcH hw hh
  have hWq : (0 : ℚ) < (srcW : ℚ) := by exact_mod_cast (by omega : (0 : Int) < srcW)
  have hHq : (0 : ℚ) < (srcH : ℚ) := by exact_mod_cast (by omega : (0 : Int) < srcH)
  have hsx' : scaleOf srcW srcH ≤ round53 (1128 / (srcW : ℚ)) := by
    have := hsx
    simp only [scaleXOf, round53_intCast srcW hW53] at this
    exact this
  have hsy' : scaleOf srcW srcH ≤ round53 (752 / (srcH : ℚ)) := by
    have := hsy
    simp only [scaleYOf, round53_intCast srcH hH53] at this
    exact this
  obtain ⟨w1, w2⟩ := extent_near_product 1128 (srcW : ℚ) (scaleOf srcW srcH)
    (by norm_num) (le_refl _) hWq hs0 hsx'
  obtain ⟨h1, h2⟩ := extent_near_product 752 (srcH : ℚ) (scaleOf srcW srcH)
    (by norm_num) (by norm_num) hHq hs0 hsy'
  have hp := layout_pos srcW srcH hw hh
  rw [round53_intCast srcW hW53, round53_intCast srcH hH53] at hp
  refine ⟨_, hp, ?_, ?_⟩
  all_goals simp only
  all_goals set nW : Int := ⌊round53 ((srcW : ℚ) * scaleOf srcW srcH)⌋ with hnW
  all_goals set nH : Int := ⌊round53 ((srcH : ℚ) * scaleOf srcW srcH)⌋ with hnH
  all_goals set s : ℚ := scaleOf srcW srcH with hs
  all_goals have hWb : (srcW : ℚ) < 2 ^ 31 := by exact_mod_cast hW
  all_goals have hHb : (srcH : ℚ) < 2 ^ 31 := by exact_mod_cast hH
  · have a1 : ((srcW : ℚ) * s - 1 / 2 ^ 42 - 1) * (srcH : ℚ) < (nW : ℚ) * (srcH : ℚ) :=
      mul_lt_mul_of_pos_right w1 hHq
    have a2 : (nH : ℚ) * (srcW : ℚ) ≤ ((srcH : ℚ) * s + 1 / 2 ^ 42) * (srcW : ℚ) :=
      mul_le_mul_of_nonneg_right h2 (le_of_lt hWq)
    have a3 : -(srcH : ℚ) - 1 < (nW : ℚ) * (srcH : ℚ) - (nH : ℚ) * (srcW : ℚ) := by
      nlinarith
    have a4 : -srcH - 1 < nW * srcH - nH * srcW := by exact_mod_cast a3
    linarith
  · have a1 : (nW : ℚ) * (srcH : ℚ) ≤ ((srcW : ℚ) * s + 1 / 2 ^ 42) * (srcH : ℚ) :=
      mul_le_mul_of_nonneg_right w2 (le_of_lt hHq)
    have a2 : ((srcH : ℚ) * s - 1 / 2 ^ 42 - 1) * (srcW : ℚ) < (nH : ℚ) * (srcW : ℚ) :=
      mul_lt_mul_of_pos_right h1 hWq
    have a3 : (nW : ℚ) * (srcH : ℚ) - (nH : ℚ) * (srcW : ℚ) < (srcW : ℚ) + 1 := by
      nlinarith
    have a4 : nW * srcH - nH * srcW < srcW + 1 := by exact_mod_cast a3
    linarith

theorem aspect_ratio_up_to_rounding_witness :
    ∃ L, layout 185 148 = some L ∧
      -(148 : Int) ≤ L.newW * 148 - L.newH * 185 ∧ L.newW * 148 - L.newH * 185 ≤ 185 :=
  aspect_ratio_up_to_rounding 185 148 (by decide) (by decide) (by norm_num) (by norm_num)

/-- C9. For a source with `srcW ≥ 1` and `srcH ≥ 1` the photo is centred:
`borderX = ⌊(screenW - newW) / 2⌋`, `borderY = ⌊(screenH - newH) / 2⌋`, the two
margins on each axis differ by at most one, and the sub-rectangle
`[borderX, borderX + newW) x [borderY, borderY + newH)` lies inside the canvas. -/
theorem layout_centred (srcW srcH : Int) (hw : 1 ≤ srcW) (hh : 1 ≤ srcH) :
    ∃ L, layout srcW srcH = some L ∧
      L.borderX = (screenW - L.newW) / 2 ∧ L.borderY = (screenH - L.newH) / 2 ∧
      (screenW - L.newW - L.borderX = L.borderX ∨
        screenW - L.newW - L.borderX = L.borderX + 1) ∧
      (screenH - L.newH - L.borderY = L.borderY ∨
        screenH - L.newH - L.borderY = L.borderY + 1) ∧
      0 ≤ L.newW ∧ 0 ≤ L.newH ∧
      0 ≤ L.borderX ∧ L.borderX + L.newW ≤ screenW ∧
      0 ≤ L.borderY ∧ L.borderY + L.newH ≤ screenH := by
  obtain ⟨L, hL, h1, h2, h3, h4, _, hbx, hby⟩ := layout_bounds srcW srcH hw hh
  simp only [screenW, screenH] at hbx hby ⊢
  exact ⟨L, hL, hbx, hby, by omega, by omega, h1, h3, by omega, by omega, by omega, by omega⟩

theorem layout_centred_witness :
    ∃ L, layout 1000 999 = some L ∧
      L.borderX = (screenW - L.newW) / 2 ∧ L.borderY = (screenH - L.newH) / 2 ∧
      (screenW - L.newW - L.borderX = L.borderX ∨
        screenW - L.newW - L.borderX = L.borderX + 1) ∧
      (screenH - L.newH - L.borderY = L.borderY ∨
        screenH - L.newH - L.borderY = L.borderY + 1) ∧
      0 ≤ L.newW ∧ 0 ≤ L.newH ∧
      0 ≤ L.borderX ∧ L.borderX + L.newW ≤ screenW ∧
      0 ≤ L.borderY ∧ L.borderY + L.newH ≤ screenH :=
  layout_centred 1000 999 (by decide) (by decide)

/-! ## Loops -/

theorem forLoop_induct {σ : Type} (body : Int → σ → Option σ) (P : Nat → σ → Prop)
    (n : Nat) (s0 : σ) (h0 : P 0 s0)
    (hstep : ∀ k s, k < n → forLoop body k s0 = some s → P k s →
      ∃ s', body (k : Int) s = some s' ∧ P (k + 1) s') :
    ∃ s', forLoop body n s0 = some s' ∧ P n s' := by
  induction n with
  | zero => exact ⟨s0, rfl, h0⟩
  | succ n ih =>
    obtain ⟨s, hs, hP⟩ := ih (fun k s hk => hstep k s (Nat.lt_succ_of_lt hk))
    obtain ⟨s', hs', hP'⟩ := hstep n s (Nat.lt_succ_self n) hs hP
    exact ⟨s', by simp only [forLoop, hs, Option.some_bind, hs'], hP'⟩

theorem forLoop_preserves {σ : Type} (body : Int → σ → Option σ) (Q : σ → Prop)
    (h : ∀ k s s', body k s = some s' → Q s → Q s') :
    ∀ (n : Nat) (s s' : σ), forLoop body n s = some s' → Q s → Q s' := by
  intro n
  induction n with
  | zero =>
    intro s s' hs hQ
    simp only [forLoop, Option.some.injEq] at hs
    exact hs ▸ hQ
  | succ n ih =>
    intro s s' hs hQ
    simp only [forLoop] at hs
    rcases Option.bind_eq_some.1 hs with ⟨m, hm, hb⟩
    exact h _ m s' hb (ih s m hm hQ)

/-! ## Canvas and buffer primitives -/

theorem SetNRGBA_w (c : Canvas) (x y : Int) (v : NRGBA) : (c.SetNRGBA x y v).w = c.w := by
  unfold Canvas.SetNRGBA; split <;> rfl

theorem SetNRGBA_h (c : Canvas) (x y : Int) (v : NRGBA) : (c.SetNRGBA x y v).h = c.h := by
  unfold Canvas.SetNRGBA; split <;> rfl

theorem inBounds_iff (c : Canvas) (x y : Int) :
    c.inBounds x y = true ↔ 0 ≤ x ∧ x < c.w ∧ 0 ≤ y ∧ y < c.h := by
  simp [Canvas.inBounds, and_assoc]

theorem SetNRGBA_pix (c : Canvas) (x y : Int) (v : NRGBA) (X Y : Int)
    (hb : c.inBounds X Y = true) :
    (c.SetNRGBA x y v).pix X Y = if X = x ∧ Y = y then v else c.pix X Y := by
  unfold Canvas.SetNRGBA
  by_cases h : c.inBounds x y = true
  · rw [if_pos h]
  · rw [if_neg h]
    by_cases hxy : X = x ∧ Y = y
    · exact absurd (hxy.1 ▸ hxy.2 ▸ hb) h
    · rw [if_neg hxy]

theorem put_rows (b : Buf) (y i : Int) (v : Nat) : (b.put y i v).rows = b.rows := rfl

theorem put_rowLen (b : Buf) (y i : Int) (v : Nat) : (b.put y i v).rowLen = b.rowLen := rfl

theorem put_cell (b : Buf) (y i : Int) (v : Nat) (Y I : Int) :
    (b.put y i v).cell Y I = if Y = y ∧ I = i then v else b.cell Y I := rfl

theorem put_inRange (b : Buf) (y i : Int) (v : Nat) (Y I : Int) :
    (b.put y i v).inRange Y I = b.inRange Y I := rfl

theorem put_shaped (b : Buf) (y i : Int) (v : Nat) (newW newH : Int)
    (h : b.Shaped newW newH) : (b.put y i v).Shaped newW newH := h

theorem inRange_of_shaped (b : Buf) (newW newH : Int) (h : b.Shaped newW newH) (y i : Int)
    (hy0 : 0 ≤ y) (hy : y < newH) (hi0 : 0 ≤ i) (hi : i < newW * 3) :
    b.inRange y i = true := by
  obtain ⟨hr, hl⟩ := h
  simp only [Buf.inRange, Bool.and_eq_true, decide_eq_true_eq]
  rw [hr, hl y hy0 hy]
  exact ⟨⟨⟨hy0, hy⟩, hi0⟩, hi⟩

theorem get_of_inRange (b : Buf) (y i : Int) (h : b.inRange y i = true) :
    b.get y i = some (b.cell y i) := by
  simp only [Buf.get, h, if_true]

theorem set_of_inRange (b : Buf) (y i : Int) (v : Nat) (h : b.inRange y i = true) :
    b.set y i v = some (b.put y i v) := by
  simp only [Buf.set, h, if_true]

/-! ## Filling the canvas and writing the buffer back -/

theorem fillCanvas_spec :
    ∃ c, fillCanvas = some c ∧ c.w = screenW ∧ c.h = screenH ∧
      ∀ X Y, 0 ≤ X → X < screenW → 0 ≤ Y → Y < screenH → c.pix X Y = bg := by
  have hrow : ∀ (k : Nat) (c : Canvas), (k : Int) < screenH → c.w = screenW → c.h = screenH →
      ∃ c', forLoop (fun x canvas => some (canvas.SetNRGBA x (k : Int) bg)) screenW.toNat c
          = some c' ∧ c'.w = screenW ∧ c'.h = screenH ∧
        ∀ X Y, 0 ≤ X → X < screenW → 0 ≤ Y → Y < screenH →
          c'.pix X Y = if Y = (k : Int) then bg else c.pix X Y := by
    intro k c hk hw hh
    obtain ⟨c', hc', hw', hh', hp⟩ := forLoop_induct
      (fun x canvas => some (canvas.SetNRGBA x (k : Int) bg))
      (fun j c' => c'.w = screenW ∧ c'.h = screenH ∧
        ∀ X Y, 0 ≤ X → X < screenW → 0 ≤ Y → Y < screenH →
          c'.pix X Y = if Y = (k : Int) ∧ X < (j : Int) then bg else c.pix X Y)
      screenW.toNat c
      ⟨hw, hh, by
        intro X Y hX0 _ _ _
        have : ¬ (Y = (k : Int) ∧ X < ((0 : Nat) : Int)) := by
          rintro ⟨_, h⟩; simp at h; omega
        rw [if_neg this]⟩
      (by
        intro j s _ _ ⟨hsw, hsh, hsp⟩
        refine ⟨_, rfl, by rw [SetNRGBA_w, hsw], by rw [SetNRGBA_h, hsh], ?_⟩
        intro X Y hX0 hX hY0 hY
        have hin : s.inBounds X Y = true := by
          rw [inBounds_iff, hsw, hsh]; exact ⟨hX0, hX, hY0, hY⟩
        rw [SetNRGBA_pix _ _ _ _ _ _ hin, hsp X Y hX0 hX hY0 hY]
        by_cases h1 : X = (j : Int) ∧ Y = (k : Int)
        · rw [if_pos h1, if_pos ⟨h1.2, by push_cast; omega⟩]
        · rw [if_neg h1]
          by_cases h2 : Y = (k : Int) ∧ X < (j : Int)
          · rw [if_pos h2, if_pos ⟨h2.1, by push_cast; omega⟩]
          · rw [if_neg h2, if_neg (by push_cast; omega)])
    refine ⟨c', hc', hw', hh', ?_⟩
    intro X Y hX0 hX hY0 hY
    rw [hp X Y hX0 hX hY0 hY]
    by_cases h1 : Y = (k : Int)
    · rw [if_pos h1, if_pos ⟨h1, by simp only [screenW] at hX ⊢; omega⟩]
    · rw [if_neg h1, if_neg (fun h => h1 h.1)]
  obtain ⟨c, hc, hw, hh, hp⟩ := forLoop_induct
    (fun y canvas =>
      forLoop (fun x canvas => some (canvas.SetNRGBA x y bg)) screenW.toNat canvas)
    (fun k c => c.w = screenW ∧ c.h = screenH ∧
      ∀ X Y, 0 ≤ X → X < screenW → 0 ≤ Y → Y < (k : Int) → c.pix X Y = bg)
    screenH.toNat (Canvas.new screenW screenH)
    ⟨rfl, rfl, by intro X Y _ _ h0 h1; simp at h1; omega⟩
    (by
      intro k s hk _ ⟨hsw, hsh, hsp⟩
      have hk' : (k : Int) < screenH := by simp only [screenH] at hk ⊢; omega
      obtain ⟨c', hc', hw', hh', hp'⟩ := hrow k s hk' hsw hsh
      refine ⟨c', hc', hw', hh', ?_⟩
      intro X Y hX0 hX hY0 hY
      rw [hp' X Y hX0 hX hY0 (by push_cast at hY; omega)]
      by_cases h1 : Y = (k : Int)
      · rw [if_pos h1]
      · rw [if_neg h1]
        exact hsp X Y hX0 hX hY0 (by push_cast at hY; omega))
  refine ⟨c, hc, hw, hh, ?_⟩
  intro X Y hX0 hX hY0 hY
  exact hp X Y hX0 hX hY0 (by simp only [screenH] at hY ⊢; omega)

theorem writeBack_spec (c : Canvas) (bx by' newW newH : Int) (buf : Buf)
    (hs : buf.Shaped newW newH) :
    ∃ c', writeBack c bx by' newW newH buf = some c' ∧ c'.w = c.w ∧ c'.h = c.h ∧
      ∀ X Y, c.inBounds X Y = true →
        c'.pix X Y =
          if bx ≤ X ∧ X < bx + newW ∧ by' ≤ Y ∧ Y < by' + newH then
            ⟨(buf.pixel (Y - by') (X - bx)).1, (buf.pixel (Y - by') (X - bx)).2.1,
              (buf.pixel (Y - by') (X - bx)).2.2, 255⟩
          else c.pix X Y := by
  have hrow : ∀ (k : Nat) (s : Canvas), (k : Int) < newH → s.w = c.w → s.h = c.h →
      ∃ c', forLoop (fun x canvas => do
          let i := x * 3
          let r ← buf.get (k : Int) i
          let g ← buf.get (k : Int) (i + 1)
          let b ← buf.get (k : Int) (i + 2)
          pure (canvas.SetNRGBA (bx + x) (by' + (k : Int)) ⟨r, g, b, 255⟩)) newW.toNat s
          = some c' ∧ c'.w = c.w ∧ c'.h = c.h ∧
        ∀ X Y, c.inBounds X Y = true →
          c'.pix X Y =
            if Y = by' + (k : Int) ∧ bx ≤ X ∧ X < bx + newW then
              ⟨(buf.pixel (Y - by') (X - bx)).1, (buf.pixel (Y - by') (X - bx)).2.1,
                (buf.pixel (Y - by') (X - bx)).2.2, 255⟩
            else s.pix X Y := by
    intro k s hk hw hh
    obtain ⟨c', hc', hw', hh', hp⟩ := forLoop_induct
      (fun x canvas => do
          let i := x * 3
          let r ← buf.get (k : Int) i
          let g ← buf.get (k : Int) (i + 1)
          let b ← buf.get (k : Int) (i + 2)
          pure (canvas.SetNRGBA (bx + x) (by' + (k : Int)) ⟨r, g, b, 255⟩))
      (fun j c' => c'.w = c.w ∧ c'.h = c.h ∧
        ∀ X Y, c.inBounds X Y = true →
          c'.pix X Y =
            if Y = by' + (k : Int) ∧ bx ≤ X ∧ X < bx + (j : Int) then
              ⟨(buf.pixel (Y - by') (X - bx)).1, (buf.pixel (Y - by') (X - bx)).2.1,
                (buf.pixel (Y - by') (X - bx)).2.2, 255⟩
            else s.pix X Y)
      newW.toNat s
      ⟨hw, hh, by
        intro X Y _
        rw [if_neg (by push_cast; omega)]⟩
      (by
        intro j t hj _ ⟨htw, hth, htp⟩
        have hj' : (j : Int) < newW := by omega
        have r0 := inRange_of_shaped buf newW newH hs (k : Int) ((j : Int) * 3)
          (by omega) hk (by omega) (by omega)
        have r1 := inRange_of_shaped buf newW newH hs (k : Int) ((j : Int) * 3 + 1)
          (by omega) hk (by omega) (by omega)
        have r2 := inRange_of_shaped buf newW newH hs (k : Int) ((j : Int) * 3 + 2)
          (by omega) hk (by omega) (by omega)
        refine ⟨t.SetNRGBA (bx + (j : Int)) (by' + (k : Int))
          ⟨buf.cell (k : Int) ((j : Int) * 3), buf.cell (k : Int) ((j : Int) * 3 + 1),
            buf.cell (k : Int) ((j : Int) * 3 + 2), 255⟩, ?_, ?_, ?_, ?_⟩
        · simp only [get_of_inRange _ _ _ r0, get_of_inRange _ _ _ r1,
            get_of_inRange _ _ _ r2, Option.bind_eq_bind, Option.some_bind, Option.pure_def]
        · rw [SetNRGBA_w, htw]
        · rw [SetNRGBA_h, hth]
        · intro X Y hin
          have hin' : t.inBounds X Y = true := by
            rw [inBounds_iff, htw, hth]; exact (inBounds_iff c X Y).1 hin
          rw [SetNRGBA_pix _ _ _ _ _ _ hin', htp X Y hin]
          by_cases h1 : X = bx + (j : Int) ∧ Y = by' + (k : Int)
          · rw [if_pos h1, if_pos ⟨h1.2, by push_cast; omega⟩]
            have e1 : X - bx = (j : Int) := by omega
            have e2 : Y - by' = (k : Int) := by omega
            rw [e1, e2]
            rfl
          · rw [if_neg h1]
            by_cases h2 : Y = by' + (k : Int) ∧ bx ≤ X ∧ X < bx + (j : Int)
            · rw [if_pos h2, if_pos ⟨h2.1, h2.2.1, by push_cast; omega⟩]
            · rw [if_neg h2, if_neg (by push_cast; omega)])
    refine ⟨c', hc', hw', hh', ?_⟩
    intro X Y hin
    rw [hp X Y hin]
    by_cases h1 : Y = by' + (k : Int) ∧ bx ≤ X ∧ X < bx + newW
    · rw [if_pos h1, if_pos ⟨h1.1, h1.2.1, by omega⟩]
    · rw [if_neg h1, if_neg (by omega)]
  obtain ⟨c', hc', hw', hh', hp⟩ := forLoop_induct
    (fun y canvas =>
      forLoop (fun x canvas => do
        let i := x * 3
        let r ← buf.get y i
        let g ← buf.get y (i + 1)
        let b ← buf.get y (i + 2)
        pure (canvas.SetNRGBA (bx + x) (by' + y) ⟨r, g, b, 255⟩)) newW.toNat canvas)
    (fun k c' => c'.w = c.w ∧ c'.h = c.h ∧
      ∀ X Y, c.inBounds X Y = true →
        c'.pix X Y =
          if bx ≤ X ∧ X < bx + newW ∧ by' ≤ Y ∧ Y < by' + (k : Int) then
            ⟨(buf.pixel (Y - by') (X - bx)).1, (buf.pixel (Y - by') (X - bx)).2.1,
              (buf.pixel (Y - by') (X - bx)).2.2, 255⟩
          else c.pix X Y)
    newH.toNat c
    ⟨rfl, rfl, by
      intro X Y _
      rw [if_neg (by push_cast; omega)]⟩
    (by
      intro k s hk _ ⟨hsw, hsh, hsp⟩
      have hk' : (k : Int) < newH := by omega
      obtain ⟨c', hc', hw', hh', hp'⟩ := hrow k s hk' hsw hsh
      refine ⟨c', hc', hw', hh', ?_⟩
      intro X Y hin
      rw [hp' X Y hin]
      by_cases h1 : Y = by' + (k : Int) ∧ bx ≤ X ∧ X < bx + newW
      · rw [if_pos h1, if_pos ⟨h1.2.1, h1.2.2, by omega, by push_cast; omega⟩]
      · rw [if_neg h1, hsp X Y hin]
        by_cases h2 : bx ≤ X ∧ X < bx + newW ∧ by' ≤ Y ∧ Y < by' + (k : Int)
        · rw [if_pos h2, if_pos ⟨h2.1, h2.2.1, h2.2.2.1, by push_cast; omega⟩]
        · rw [if_neg h2, if_neg (by push_cast; omega)])
  refine ⟨c', hc', hw', hh', ?_⟩
  intro X Y hin
  rw [hp X Y hin]
  by_cases h1 : bx ≤ X ∧ X < bx + newW ∧ by' ≤ Y ∧ Y < by' + newH
  · rw [if_pos h1, if_pos ⟨h1.1, h1.2.1, h1.2.2.1, by omega⟩]
  · rw [if_neg h1, if_neg (by omega)]

/-! ## Loading the working buffer -/

theorem inRange_of (b : Buf) (y i : Int) (hy0 : 0 ≤ y) (hy : y < b.rows) (hi0 : 0 ≤ i)
    (hi : i < b.rowLen y) : b.inRange y i = true := by
  simp only [Buf.inRange, Bool.and_eq_true, decide_eq_true_eq]
  exact ⟨⟨⟨hy0, hy⟩, hi0⟩, hi⟩

theorem pixel_put3 (b : Buf) (y x : Int) (r g bl : Nat) (Y X : Int) :
    (((b.put y (x * 3) r).put y (x * 3 + 1) g).put y (x * 3 + 2) bl).pixel Y X =
      if Y = y ∧ X = x then (r, g, bl) else b.pixel Y X := by
  by_cases h : Y = y ∧ X = x
  · obtain ⟨rfl, rfl⟩ := h
    simp [Buf.pixel, put_cell]
  · rw [if_neg h]
    simp only [Buf.pixel, put_cell]
    repeat rw [if_neg (by omega)]

theorem initBuf_spec (canvas : Canvas) (bx by' newW newH : Int)
    (hW : 0 ≤ newW) (hH : 0 ≤ newH) :
    ∃ buf, initBuf canvas bx by' newW newH = some buf ∧ buf.Shaped newW newH ∧
      ∀ y x, 0 ≤ y → y < newH → 0 ≤ x → x < newW →
        buf.pixel y x = (canvas.NRGBAAt (bx + x) (by' + y)).rgb := by
  have hrow : ∀ (k : Nat) (b : Buf), (k : Int) < newH → b.rows = newH →
      b.rowLen (k : Int) = newW * 3 →
      ∃ b', forLoop (fun x buf => do
          let c := canvas.NRGBAAt (bx + x) (by' + (k : Int))
          let buf ← buf.set (k : Int) (x * 3) c.R
          let buf ← buf.set (k : Int) (x * 3 + 1) c.G
          buf.set (k : Int) (x * 3 + 2) c.B) newW.toNat b = some b' ∧
        b'.rows = newH ∧ b'.rowLen = b.rowLen ∧
        ∀ y x, b'.pixel y x =
          if y = (k : Int) ∧ 0 ≤ x ∧ x < newW then
            (canvas.NRGBAAt (bx + x) (by' + y)).rgb
          else b.pixel y x := by
    intro k b hk hrows hlen
    obtain ⟨b', hb', h1, h2, h3⟩ := forLoop_induct
      (fun x buf => do
          let c := canvas.NRGBAAt (bx + x) (by' + (k : Int))
          let buf ← buf.set (k : Int) (x * 3) c.R
          let buf ← buf.set (k : Int) (x * 3 + 1) c.G
          buf.set (k : Int) (x * 3 + 2) c.B)
      (fun j b' => b'.rows = newH ∧ b'.rowLen = b.rowLen ∧
        ∀ y x, b'.pixel y x =
          if y = (k : Int) ∧ 0 ≤ x ∧ x < (j : Int) then
            (canvas.NRGBAAt (bx + x) (by' + y)).rgb
          else b.pixel y x)
      newW.toNat b
      ⟨hrows, rfl, by
        intro y x
        rw [if_neg (by push_cast; omega)]⟩
      (by
        intro j t hj _ ⟨ht1, ht2, ht3⟩
        have hj' : (j : Int) < newW := by omega
        have hl : t.rowLen (k : Int) = newW * 3 := by rw [ht2, hlen]
        have r0 : t.inRange (k : Int) ((j : Int) * 3) = true :=
          inRange_of t _ _ (by omega) (by omega) (by omega) (by omega)
        have r1 : (t.put (k : Int) ((j : Int) * 3)
            (canvas.NRGBAAt (bx + (j : Int)) (by' + (k : Int))).R).inRange (k : Int)
              ((j : Int) * 3 + 1) = true :=
          inRange_of t _ _ (by omega) (by omega) (by omega) (by omega)
        have r2 : ((t.put (k : Int) ((j : Int) * 3)
            (canvas.NRGBAAt (bx + (j : Int)) (by' + (k : Int))).R).put (k : Int)
              ((j : Int) * 3 + 1)
              (canvas.NRGBAAt (bx + (j : Int)) (by' + (k : Int))).G).inRange (k : Int)
              ((j : Int) * 3 + 2) = true :=
          inRange_of t _ _ (by omega) (by omega) (by omega) (by omega)
        refine ⟨((t.put (k : Int) ((j : Int) * 3)
            (canvas.NRGBAAt (bx + (j : Int)) (by' + (k : Int))).R).put (k : Int)
              ((j : Int) * 3 + 1)
              (canvas.NRGBAAt (bx + (j : Int)) (by' + (k : Int))).G).put (k : Int)
              ((j : Int) * 3 + 2)
              (canvas.NRGBAAt (bx + (j : Int)) (by' + (k : Int))).B, ?_, ?_, ?_, ?_⟩
        · simp only [set_of_inRange _ _ _ _ r0, set_of_inRange _ _ _ _ r1,
            set_of_inRange _ _ _ _ r2, Option.bind_eq_bind, Option.some_bind]
        · exact ht1
        · exact ht2
        · intro y x
          rw [pixel_put3, ht3 y x]
          by_cases h1 : y = (k : Int) ∧ x = (j : Int)
          · rw [if_pos h1, if_pos ⟨h1.1, by push_cast; omega⟩]
            obtain ⟨rfl, rfl⟩ := h1
            rfl
          · rw [if_neg h1]
            by_cases h2 : y = (k : Int) ∧ 0 ≤ x ∧ x < (j : Int)
            · rw [if_pos h2, if_pos ⟨h2.1, h2.2.1, by push_cast; omega⟩]
            · rw [if_neg h2, if_neg (by push_cast; omega)])
    refine ⟨b', hb', h1, h2, ?_⟩
    intro y x
    rw [h3 y x]
    by_cases h : y = (k : Int) ∧ 0 ≤ x ∧ x < newW
    · rw [if_pos h, if_pos ⟨h.1, h.2.1, by omega⟩]
    · rw [if_neg h, if_neg (by omega)]
  have hmake : Buf.make newH = some ⟨newH, fun _ => 0, fun _ _ => 0⟩ := by
    simp only [Buf.make, hH, if_true]
  obtain ⟨b', hb', h1, h2, h3⟩ := forLoop_induct
    (fun y (buf : Buf) => do
      let buf ← buf.setRow y (newW * 3)
      forLoop (fun x buf => do
        let c := canvas.NRGBAAt (bx + x) (by' + y)
        let buf ← buf.set y (x * 3) c.R
        let buf ← buf.set y (x * 3 + 1) c.G
        buf.set y (x * 3 + 2) c.B) newW.toNat buf)
    (fun k b => b.rows = newH ∧
      (∀ y, 0 ≤ y → y < (k : Int) → b.rowLen y = newW * 3) ∧
      ∀ y x, 0 ≤ y → y < (k : Int) → 0 ≤ x → x < newW →
        b.pixel y x = (canvas.NRGBAAt (bx + x) (by' + y)).rgb)
    newH.toNat (⟨newH, fun _ => 0, fun _ _ => 0⟩ : Buf)
    ⟨rfl, by intro y h0 h1; simp at h1; omega,
      by intro y x h0 h1; simp at h1; omega⟩
    (by
      intro k b hk _ ⟨hb1, hb2, hb3⟩
      have hk' : (k : Int) < newH := by omega
      have hset : b.setRow (k : Int) (newW * 3) = some
          { b with
            rowLen := fun Y => if Y = (k : Int) then newW * 3 else b.rowLen Y
            cell := fun Y I => if Y = (k : Int) then 0 else b.cell Y I } := by
        have : 0 ≤ (k : Int) ∧ (k : Int) < b.rows ∧ 0 ≤ newW * 3 :=
          ⟨by omega, by omega, by omega⟩
        simp only [Buf.setRow, this, and_self, if_true]
      obtain ⟨b', hb', h1, h2, h3⟩ := hrow k
        { b with
          rowLen := fun Y => if Y = (k : Int) then newW * 3 else b.rowLen Y
          cell := fun Y I => if Y = (k : Int) then 0 else b.cell Y I }
        hk' hb1 (by simp)
      refine ⟨b', ?_, h1, ?_, ?_⟩
      · simp only [hset, Option.bind_eq_bind, Option.some_bind]
        exact hb'
      · intro y h0 hy
        rw [h2]
        by_cases e : y = (k : Int)
        · simp only [e, if_true]
        · simp only [e, if_false]
          exact hb2 y h0 (by push_cast at hy; omega)
      · intro y x h0 hy hx0 hx
        rw [h3 y x]
        by_cases e : y = (k : Int)
        · rw [if_pos ⟨e, hx0, hx⟩]
        · rw [if_neg (fun h => e h.1)]
          have := hb3 y x h0 (by push_cast at hy; omega) hx0 hx
          simp only [Buf.pixel, e, if_false] at this ⊢
          exact this)
  refine ⟨b', ?_, ⟨h1, ?_⟩, ?_⟩
  · simp only [initBuf, hmake, Option.bind_eq_bind, Option.some_bind]
    exact hb'
  · intro y h0 hy
    exact h2 y h0 (by omega)
  · intro y x h0 hy hx0 hx
    exact h3 y x h0 (by omega) hx0 hx

/-! ## One dithering step -/

theorem accumulate_spec (b : Buf) (newW newH : Int) (hs : b.Shaped newW newH)
    (y i : Int) (err w : Int)
    (hy0 : 0 ≤ y) (hy : y < newH) (hi0 : 0 ≤ i) (hi : i < newW * 3) :
    ∃ b', accumulate b y i err w = some b' ∧ b'.Shaped newW newH ∧
      (∀ Y I, ¬ (Y = y ∧ I = i) → b'.cell Y I = b.cell Y I) ∧
      b'.cell y i = clampU8 ((b.cell y i : ℚ) + (err : ℚ) * (w : ℚ) / 16) := by
  have h := inRange_of_shaped b newW newH hs y i hy0 hy hi0 hi
  refine ⟨b.put y i (clampU8 ((b.cell y i : ℚ) + (err : ℚ) * (w : ℚ) / 16)), ?_, hs, ?_, ?_⟩
  · simp only [accumulate, get_of_inRange _ _ _ h, set_of_inRange _ _ _ _ h,
      Option.bind_eq_bind, Option.some_bind]
  · intro Y I hne
    rw [put_cell, if_neg hne]
  · rw [put_cell, if_pos ⟨rfl, rfl⟩]

theorem diffuse_spec (b : Buf) (newW newH : Int) (hs : b.Shaped newW newH)
    (y bi : Int) (eR eG eB w : Int)
    (hy0 : 0 ≤ y) (hy : y < newH) (hb0 : 0 ≤ bi) (hb : bi + 2 < newW * 3) :
    ∃ b', diffuse b y bi eR eG eB w = some b' ∧ b'.Shaped newW newH ∧
      (∀ Y I, ¬ (Y = y ∧ bi ≤ I ∧ I ≤ bi + 2) → b'.cell Y I = b.cell Y I) ∧
      b'.cell y bi = clampU8 ((b.cell y bi : ℚ) + (eR : ℚ) * (w : ℚ) / 16) ∧
      b'.cell y (bi + 1) = clampU8 ((b.cell y (bi + 1) : ℚ) + (eG : ℚ) * (w : ℚ) / 16) ∧
      b'.cell y (bi + 2) = clampU8 ((b.cell y (bi + 2) : ℚ) + (eB : ℚ) * (w : ℚ) / 16) := by
  obtain ⟨b1, e1, s1, f1, v1⟩ := accumulate_spec b newW newH hs y bi eR w hy0 hy hb0
    (by omega)
  obtain ⟨b2, e2, s2, f2, v2⟩ := accumulate_spec b1 newW newH s1 y (bi + 1) eG w hy0 hy
    (by omega) (by omega)
  obtain ⟨b3, e3, s3, f3, v3⟩ := accumulate_spec b2 newW newH s2 y (bi + 2) eB w hy0 hy
    (by omega) (by omega)
  refine ⟨b3, ?_, s3, ?_, ?_, ?_, ?_⟩
  · simp only [diffuse, e1, e2, Option.bind_eq_bind, Option.some_bind]
    exact e3
  · intro Y I h
    rw [f3 Y I (by omega), f2 Y I (by omega), f1 Y I (by omega)]
  · rw [f3 y bi (by omega), f2 y bi (by omega), v1]
  · rw [f3 y (bi + 1) (by omega), v2, f1 y (bi + 1) (by omega)]
  · rw [v3, f2 y (bi + 2) (by omega), f1 y (bi + 2) (by omega)]

theorem guarded_diffuse_spec (c : Prop) [Decidable c] (b : Buf) (newW newH : Int)
    (hs : b.Shaped newW newH) (y bi : Int) (eR eG eB w : Int)
    (hc : c → 0 ≤ y ∧ y < newH ∧ 0 ≤ bi ∧ bi + 2 < newW * 3) :
    ∃ b', (if c then diffuse b y bi eR eG eB w else some b) = some b' ∧
      b'.Shaped newW newH ∧
      (∀ Y I, ¬ (Y = y ∧ bi ≤ I ∧ I ≤ bi + 2) → b'.cell Y I = b.cell Y I) := by
  by_cases h : c
  · obtain ⟨h1, h2, h3, h4⟩ := hc h
    obtain ⟨b', hb', hs', hf, _⟩ := diffuse_spec b newW newH hs y bi eR eG eB w h1 h2 h3 h4
    exact ⟨b', by rw [if_pos h]; exact hb', hs', hf⟩
  · exact ⟨b, by rw [if_neg h], hs, fun _ _ _ => rfl⟩

/-- The four diffusion blocks never panic on a shaped buffer and write only to
pixel `x + 1` of row `y` and to pixels `x - 1 .. x + 1` of row `y + 1`. -/
theorem diffuseError_spec (b : Buf) (newW newH : Int) (hs : b.Shaped newW newH)
    (y x : Int) (eR eG eB : Int)
    (hy0 : 0 ≤ y) (hy : y < newH) (hx0 : 0 ≤ x) (hx : x < newW) :
    ∃ b', diffuseError newW newH y x eR eG eB b = some b' ∧ b'.Shaped newW newH ∧
      ∀ Y I, ¬ (Y = y ∧ (x + 1) * 3 ≤ I ∧ I ≤ (x + 1) * 3 + 2) →
        ¬ (Y = y + 1 ∧ (x - 1) * 3 ≤ I ∧ I ≤ (x + 1) * 3 + 2) →
        b'.cell Y I = b.cell Y I := by
  obtain ⟨b1, e1, s1, f1⟩ := guarded_diffuse_spec (x + 1 < newW) b newW newH hs
    y ((x + 1) * 3) eR eG eB 7 (fun h => ⟨hy0, hy, by omega, by omega⟩)
  obtain ⟨b2, e2, s2, f2⟩ := guarded_diffuse_spec (x > 0 ∧ y + 1 < newH) b1 newW newH s1
    (y + 1) ((x - 1) * 3) eR eG eB 3 (fun h => ⟨by omega, by omega, by omega, by omega⟩)
  obtain ⟨b3, e3, s3, f3⟩ := guarded_diffuse_spec (y + 1 < newH) b2 newW newH s2
    (y + 1) (x * 3) eR eG eB 5 (fun h => ⟨by omega, by omega, by omega, by omega⟩)
  obtain ⟨b4, e4, s4, f4⟩ := guarded_diffuse_spec (x + 1 < newW ∧ y + 1 < newH) b3 newW newH s3
    (y + 1) ((x + 1) * 3) eR eG eB 1 (fun h => ⟨by omega, by omega, by omega, by omega⟩)
  refine ⟨b4, ?_, s4, ?_⟩
  · simp only [diffuseError, e1, e2, e3, Option.bind_eq_bind, Option.some_bind]
    exact e4
  · intro Y I h1 h2
    rw [f4 Y I (by omega), f3 Y I (by omega), f2 Y I (by omega), f1 Y I (by omega)]

/-- One pixel step on a shaped buffer: it never panics, takes three draws, leaves
the quantized colour in pixel `(x, y)`, and changes no byte outside pixels
`x, x + 1` of row `y` and `x - 1 .. x + 1` of row `y + 1`. -/
theorem ditherPixel_spec (amount : ℚ) (rnd : Nat → ℚ) (newW newH : Int) (b : Buf) (n : Nat)
    (hs : b.Shaped newW newH) (y x : Int)
    (hy0 : 0 ≤ y) (hy : y < newH) (hx0 : 0 ≤ x) (hx : x < newW) :
    ∃ b', ditherPixel amount rnd newW newH y x (b, n) = some (b', n + 3) ∧
      b'.Shaped newW newH ∧
      b'.pixel y x = quantizedAt amount rnd (b, n) y x ∧
      ∀ Y I, ¬ (Y = y ∧ x * 3 ≤ I ∧ I ≤ (x + 1) * 3 + 2) →
        ¬ (Y = y + 1 ∧ (x - 1) * 3 ≤ I ∧ I ≤ (x + 1) * 3 + 2) →
        b'.cell Y I = b.cell Y I := by
  have r0 := inRange_of_shaped b newW newH hs y (x * 3) hy0 hy (by omega) (by omega)
  have r1 := inRange_of_shaped b newW newH hs y (x * 3 + 1) hy0 hy (by omega) (by omega)
  have r2 := inRange_of_shaped b newW newH hs y (x * 3 + 2) hy0 hy (by omega) (by omega)
  let q := quantizedAt amount rnd (b, n) y x
  let o := noisyAt amount rnd (b, n) y x
  have hs3 : (((b.put y (x * 3) q.1).put y (x * 3 + 1) q.2.1).put y (x * 3 + 2)
      q.2.2).Shaped newW newH := hs
  obtain ⟨b', hb', hs', hf⟩ := diffuseError_spec _ newW newH hs3 y x
    ((o.1 : Int) - (q.1 : Int)) ((o.2.1 : Int) - (q.2.1 : Int))
    ((o.2.2 : Int) - (q.2.2 : Int)) hy0 hy hx0 hx
  have q0 : (b.put y (x * 3) q.1).inRange y (x * 3 + 1) = true := r1
  have q1 : ((b.put y (x * 3) q.1).put y (x * 3 + 1) q.2.1).inRange y (x * 3 + 2) = true := r2
  refine ⟨b', ?_, hs', ?_, ?_⟩
  · simp only [ditherPixel, get_of_inRange _ _ _ r0, get_of_inRange _ _ _ r1,
      get_of_inRange _ _ _ r2, Option.bind_eq_bind, Option.some_bind]
    have e0 := set_of_inRange b y (x * 3) q.1 r0
    have e1 := set_of_inRange _ y (x * 3 + 1) q.2.1 q0
    have e2 := set_of_inRange _ y (x * 3 + 2) q.2.2 q1
    simp only [q, quantizedAt, noisyAt] at e0 e1 e2
    simp only [e0, e1, e2, Option.some_bind]
    simp only [q, o, quantizedAt, noisyAt] at hb'
    simp only [hb', Option.some_bind, Option.pure_def]
  · have h0 := hf y (x * 3) (by omega) (by omega)
    have h1 := hf y (x * 3 + 1) (by omega) (by omega)
    have h2 := hf y (x * 3 + 2) (by omega) (by omega)
    have hp := pixel_put3 b y x q.1 q.2.1 q.2.2 y x
    rw [if_pos ⟨rfl, rfl⟩] at hp
    simp only [Buf.pixel] at hp ⊢
    rw [h0, h1, h2, hp]
  · intro Y I h1 h2
    rw [hf Y I (by omega) h2]
    simp only [put_cell]
    repeat rw [if_neg (by omega)]

/-! ## The dithering pass -/

/-- One row of the pass on a shaped buffer: it never panics, takes `3 * newW`
draws, leaves the rows above untouched, and pixel `x` of the row ends up holding
the colour quantized when the loop reached it. -/
theorem ditherRow_spec (amount : ℚ) (rnd : Nat → ℚ) (newW newH : Int) (st0 : Buf × Nat)
    (hs : st0.1.Shaped newW newH) (k : Nat) (hk : (k : Int) < newH) :
    ∃ st', ditherRow amount rnd newW newH (k : Int) st0 = some st' ∧
      st'.1.Shaped newW newH ∧ st'.2 = st0.2 + 3 * newW.toNat ∧
      (∀ Y I, Y < (k : Int) → st'.1.cell Y I = st0.1.cell Y I) ∧
      ∀ x : Nat, (x : Int) < newW →
        ∃ sx, forLoop (ditherPixel amount rnd newW newH (k : Int)) x st0 = some sx ∧
          sx.2 = st0.2 + 3 * x ∧
          st'.1.pixel (k : Int) (x : Int) = quantizedAt amount rnd sx (k : Int) (x : Int) := by
  obtain ⟨st', h1, h2, h3, h4, h5⟩ := forLoop_induct
    (ditherPixel amount rnd newW newH (k : Int))
    (fun j st => st.1.Shaped newW newH ∧ st.2 = st0.2 + 3 * j ∧
      (∀ Y I, Y < (k : Int) → st.1.cell Y I = st0.1.cell Y I) ∧
      ∀ x : Nat, x < j →
        ∃ sx, forLoop (ditherPixel amount rnd newW newH (k : Int)) x st0 = some sx ∧
          sx.2 = st0.2 + 3 * x ∧
          st.1.pixel (k : Int) (x : Int) = quantizedAt amount rnd sx (k : Int) (x : Int))
    newW.toNat st0
    ⟨hs, by omega, fun _ _ _ => rfl, fun x hx => absurd hx (Nat.not_lt_zero x)⟩
    (by
      intro j s hj hrun ⟨hsh, hn, hfr, hq⟩
      obtain ⟨b, n⟩ := s
      have hj' : (j : Int) < newW := by omega
      obtain ⟨b', e, s', hpx, hf⟩ := ditherPixel_spec amount rnd newW newH b n hsh
        (k : Int) (j : Int) (by omega) hk (by omega) hj'
      refine ⟨(b', n + 3), e, s', ?_, ?_, ?_⟩
      · simp only at hn ⊢
        omega
      · intro Y I hY
        simp only at hfr ⊢
        rw [hf Y I (by omega) (by omega)]
        exact hfr Y I hY
      · intro x hx
        by_cases hxj : x = j
        · subst hxj
          exact ⟨(b, n), hrun, hn, hpx⟩
        · obtain ⟨sx, hsx, hsn, hsq⟩ := hq x (by omega)
          refine ⟨sx, hsx, hsn, ?_⟩
          rw [← hsq]
          have hxlt : (x : Int) < (j : Int) := by omega
          simp only [Buf.pixel]
          rw [hf _ _ (by omega) (by omega), hf _ _ (by omega) (by omega),
            hf _ _ (by omega) (by omega)])
  refine ⟨st', h1, h2, h3, h4, ?_⟩
  intro x hx
  exact h5 x (by omega)

/-- The whole pass on a shaped buffer: it never panics, takes `3 * newW * newH`
draws, and every pixel `(x, y)` ends up holding the colour quantized in the state
in which the loops reached it (`stateBefore`), at draw number `3 * (y * newW + x)`. -/
theorem ditherPass_spec (amount : ℚ) (rnd : Nat → ℚ) (newW newH : Int) (st0 : Buf × Nat)
    (hs : st0.1.Shaped newW newH) :
    ∃ st', ditherPass amount rnd newW newH st0 = some st' ∧
      st'.1.Shaped newW newH ∧ st'.2 = st0.2 + 3 * newW.toNat * newH.toNat ∧
      ∀ y x : Nat, (y : Int) < newH → (x : Int) < newW →
        ∃ sx, stateBefore amount rnd newW newH st0 y x = some sx ∧
          sx.2 = st0.2 + 3 * (y * newW.toNat + x) ∧
          st'.1.pixel (y : Int) (x : Int) = quantizedAt amount rnd sx (y : Int) (x : Int) := by
  obtain ⟨st', h1, h2, h3, h4⟩ := forLoop_induct
    (ditherRow amount rnd newW newH)
    (fun k st => st.1.Shaped newW newH ∧ st.2 = st0.2 + 3 * newW.toNat * k ∧
      ∀ y x : Nat, y < k → (x : Int) < newW →
        ∃ sx, stateBefore amount rnd newW newH st0 y x = some sx ∧
          sx.2 = st0.2 + 3 * (y * newW.toNat + x) ∧
          st.1.pixel (y : Int) (x : Int) = quantizedAt amount rnd sx (y : Int) (x : Int))
    newH.toNat st0
    ⟨hs, by omega, fun y x hy _ => absurd hy (Nat.not_lt_zero y)⟩
    (by
      intro k s hk hrun ⟨hsh, hn, hq⟩
      have hk' : (k : Int) < newH := by omega
      obtain ⟨st', e, s', hn', hfr, hrow⟩ := ditherRow_spec amount rnd newW newH s hsh k hk'
      refine ⟨st', e, s', ?_, ?_⟩
      · rw [hn', hn]
        ring
      · intro y x hy hx
        by_cases hyk : y = k
        · subst hyk
          obtain ⟨sx, hsx, hsn, hsq⟩ := hrow x hx
          refine ⟨sx, ?_, ?_, hsq⟩
          · simp only [stateBefore, hrun, Option.some_bind]
            exact hsx
          · rw [hsn, hn]
            ring
        · obtain ⟨sx, hsx, hsn, hsq⟩ := hq y x (by omega) hx
          refine ⟨sx, hsx, hsn, ?_⟩
          rw [← hsq]
          have hlt : (y : Int) < (k : Int) := by omega
          simp only [Buf.pixel]
          rw [hfr _ _ hlt, hfr _ _ hlt, hfr _ _ hlt])
  refine ⟨st', h1, h2, h3, ?_⟩
  intro y x hy hx
  exact h4 y x (by omega) hx

theorem clampU8_le (v : ℚ) : clampU8 v ≤ 255 := by
  unfold clampU8
  split
  · omega
  · split
    · omega
    · rename_i h1 h2
      have h : v ≤ ((255 : Nat) : ℚ) := by
        push_cast
        exact not_lt.1 h2
      exact Nat.floor_le_of_le h

theorem quantizedAt_mem (amount : ℚ) (rnd : Nat → ℚ) (st : Buf × Nat) (y x : Int) :
    quantizedAt amount rnd st y x ∈ nordPalette :=
  findClosestColor_mem _ _ _ (clampU8_le _) (clampU8_le _) (clampU8_le _)

theorem bg_mem : bg.rgb ∈ nordPalette := by decide

/-! ## The whole of `ditherImage` -/

theorem writeBack_dims (c : Canvas) (bx by' newW newH : Int) (buf : Buf) (c' : Canvas)
    (h : writeBack c bx by' newW newH buf = some c') : c'.w = c.w ∧ c'.h = c.h := by
  have inner : ∀ (y : Int) (n : Nat) (s s' : Canvas),
      forLoop (fun x canvas => do
        let i := x * 3
        let r ← buf.get y i
        let g ← buf.get y (i + 1)
        let b ← buf.get y (i + 2)
        pure (canvas.SetNRGBA (bx + x) (by' + y) ⟨r, g, b, 255⟩)) n s = some s' →
      (s.w = c.w ∧ s.h = c.h) → (s'.w = c.w ∧ s'.h = c.h) := by
    intro y
    apply forLoop_preserves
    intro k s s' hb hQ
    simp only [Option.bind_eq_bind, Option.pure_def] at hb
    rcases Option.bind_eq_some.1 hb with ⟨r, _, hb⟩
    rcases Option.bind_eq_some.1 hb with ⟨g, _, hb⟩
    rcases Option.bind_eq_some.1 hb with ⟨b, _, hb⟩
    simp only [Option.some.injEq] at hb
    rw [← hb, SetNRGBA_w, SetNRGBA_h]
    exact hQ
  have outer := forLoop_preserves
    (fun y canvas =>
      forLoop (fun x canvas => do
        let i := x * 3
        let r ← buf.get y i
        let g ← buf.get y (i + 1)
        let b ← buf.get y (i + 2)
        pure (canvas.SetNRGBA (bx + x) (by' + y) ⟨r, g, b, 255⟩)) newW.toNat canvas)
    (fun s => s.w = c.w ∧ s.h = c.h)
    (fun k s s' hb hQ => inner k newW.toNat s s' hb hQ)
  exact outer newH.toNat c c' h ⟨rfl, rfl⟩

/-- Whatever the source, a canvas returned by `ditherImage` has the screen size. -/
theorem ditherImage_dims (srcW srcH : Int) (composited : Int → Int → NRGBA)
    (rnd : Nat → ℚ) (c : Canvas) (h : ditherImage srcW srcH composited rnd = some c) :
    c.w = screenW ∧ c.h = screenH := by
  obtain ⟨c0, hc0, hw0, hh0, _⟩ := fillCanvas_spec
  simp only [ditherImage, Option.bind_eq_bind, hc0, Option.some_bind] at h
  rcases Option.bind_eq_some.1 h with ⟨L, _, h⟩
  rcases Option.bind_eq_some.1 h with ⟨buf, _, h⟩
  rcases Option.bind_eq_some.1 h with ⟨st, _, h⟩
  obtain ⟨e1, e2⟩ := writeBack_dims _ _ _ _ _ _ _ h
  exact ⟨by rw [e1]; exact hw0, by rw [e2]; exact hh0⟩

/-- Main description of `ditherImage` once the geometry is defined and the new
size is non-negative: every stage returns, and each canvas pixel is either the
final buffer pixel (inside the photo sub-rectangle) or the background. -/
theorem ditherImage_spec (srcW srcH : Int) (composited : Int → Int → NRGBA)
    (rnd : Nat → ℚ) (L : Layout) (hL : layout srcW srcH = some L)
    (hW : 0 ≤ L.newW) (hH : 0 ≤ L.newH) :
    ∃ c0 buf0 stF c, fillCanvas = some c0 ∧
      initBuf (drawCopy c0 L.borderX L.borderY L.newW L.newH composited)
        L.borderX L.borderY L.newW L.newH = some buf0 ∧
      buf0.Shaped L.newW L.newH ∧
      ditherPass noiseAmount rnd L.newW L.newH (buf0, 0) = some stF ∧
      ditherImage srcW srcH composited rnd = some c ∧
      c.w = screenW ∧ c.h = screenH ∧
      ∀ X Y, 0 ≤ X → X < screenW → 0 ≤ Y → Y < screenH →
        (L.inPhoto X Y →
          c.pix X Y =
            ⟨(stF.1.pixel (Y - L.borderY) (X - L.borderX)).1,
              (stF.1.pixel (Y - L.borderY) (X - L.borderX)).2.1,
              (stF.1.pixel (Y - L.borderY) (X - L.borderX)).2.2, 255⟩) ∧
        (¬ L.inPhoto X Y → c.pix X Y = bg) := by
  obtain ⟨c0, hc0, hw0, hh0, hbg⟩ := fillCanvas_spec
  obtain ⟨buf0, hb0, hs0, _⟩ := initBuf_spec
    (drawCopy c0 L.borderX L.borderY L.newW L.newH composited)
    L.borderX L.borderY L.newW L.newH hW hH
  obtain ⟨stF, hp, hsF, _, _⟩ := ditherPass_spec noiseAmount rnd L.newW L.newH (buf0, 0) hs0
  obtain ⟨c, hc, hw, hh, hpix⟩ := writeBack_spec
    (drawCopy c0 L.borderX L.borderY L.newW L.newH composited)
    L.borderX L.borderY L.newW L.newH stF.1 hsF
  refine ⟨c0, buf0, stF, c, hc0, hb0, hs0, hp, ?_, ?_, ?_, ?_⟩
  · simp only [ditherImage, Option.bind_eq_bind, hL, hc0, hb0, hp, Option.some_bind]
    exact hc
  · rw [hw]; exact hw0
  · rw [hh]; exact hh0
  · intro X Y hX0 hX hY0 hY
    have hin : (drawCopy c0 L.borderX L.borderY L.newW L.newH composited).inBounds X Y
        = true := by
      rw [inBounds_iff]
      exact ⟨hX0, by rw [show (drawCopy c0 L.borderX L.borderY L.newW L.newH composited).w
        = c0.w from rfl, hw0]; exact hX, hY0, by
          rw [show (drawCopy c0 L.borderX L.borderY L.newW L.newH composited).h
            = c0.h from rfl, hh0]; exact hY⟩
    have hp' := hpix X Y hin
    constructor
    · intro hph
      have hph' : L.borderX ≤ X ∧ X < L.borderX + L.newW ∧ L.borderY ≤ Y ∧
          Y < L.borderY + L.newH := hph
      rw [hp', if_pos hph']
    · intro hph
      have hph' : ¬ (L.borderX ≤ X ∧ X < L.borderX + L.newW ∧ L.borderY ≤ Y ∧
          Y < L.borderY + L.newH) := hph
      rw [hp', if_neg hph']
      simp only [drawCopy]
      rw [if_neg (fun h => hph' ⟨h.1, h.2.1, h.2.2.1, h.2.2.2.1⟩)]
      exact hbg X Y hX0 hX hY0 hY

/-- Facts about the result of `ditherImage` for a source with positive
dimensions, in the form shared by the canvas properties below. -/
theorem ditherImage_pos (srcW srcH : Int) (hw : 1 ≤ srcW) (hh : 1 ≤ srcH)
    (composited : Int → Int → NRGBA) (rnd : Nat → ℚ) :
    ∃ L c0 buf0 c, layout srcW srcH = some L ∧ fillCanvas = some c0 ∧
      initBuf (drawCopy c0 L.borderX L.borderY L.newW L.newH composited)
        L.borderX L.borderY L.newW L.newH = some buf0 ∧
      ditherImage srcW srcH composited rnd = some c ∧
      c.w = screenW ∧ c.h = screenH ∧
      (∀ X Y, 0 ≤ X → X < screenW → 0 ≤ Y → Y < screenH → ¬ L.inPhoto X Y →
        c.pix X Y = bg) ∧
      (∀ y x : Nat, (x : Int) < L.newW → (y : Int) < L.newH →
        0 ≤ L.borderX + (x : Int) ∧ L.borderX + (x : Int) < screenW ∧
        0 ≤ L.borderY + (y : Int) ∧ L.borderY + (y : Int) < screenH ∧
        ∃ sx, stateBefore noiseAmount rnd L.newW L.newH (buf0, 0) y x = some sx ∧
          sx.2 = 3 * (y * L.newW.toNat + x) ∧
          c.pix (L.borderX + (x : Int)) (L.borderY + (y : Int)) =
            ⟨(quantizedAt noiseAmount rnd sx (y : Int) (x : Int)).1,
              (quantizedAt noiseAmount rnd sx (y : Int) (x : Int)).2.1,
              (quantizedAt noiseAmount rnd sx (y : Int) (x : Int)).2.2, 255⟩) := by
  obtain ⟨L, hL, n1, n2, n3, n4, _, hbx, hby⟩ := layout_bounds srcW srcH hw hh
  obtain ⟨c0, buf0, stF, c, hc0, hb0, hs0, hp, hc, hcw, hch, hpix⟩ :=
    ditherImage_spec srcW srcH composited rnd L hL n1 n3
  obtain ⟨stF', hp', _, _, hq⟩ := ditherPass_spec noiseAmount rnd L.newW L.newH (buf0, 0) hs0
  rw [hp] at hp'
  have hst : stF = stF' := Option.some.inj hp'
  subst hst
  refine ⟨L, c0, buf0, c, hL, hc0, hb0, hc, hcw, hch, ?_, ?_⟩
  · intro X Y hX0 hX hY0 hY hn
    exact (hpix X Y hX0 hX hY0 hY).2 hn
  · intro y x hx hy
    simp only [screenW, screenH] at hbx hby hpix ⊢
    have b1 : 0 ≤ L.borderX + (x : Int) := by omega
    have b2 : L.borderX + (x : Int) < 2256 := by omega
    have b3 : 0 ≤ L.borderY + (y : Int) := by omega
    have b4 : L.borderY + (y : Int) < 1504 := by omega
    refine ⟨b1, b2, b3, b4, ?_⟩
    obtain ⟨sx, hsx, hsn, hsq⟩ := hq y x hy hx
    refine ⟨sx, hsx, by simpa using hsn, ?_⟩
    have hph : L.inPhoto (L.borderX + (x : Int)) (L.borderY + (y : Int)) :=
      ⟨by omega, by omega, by omega, by omega⟩
    have h := (hpix _ _ b1 b2 b3 b4).1 hph
    have e1 : L.borderX + (x : Int) - L.borderX = (x : Int) := by omega
    have e2 : L.borderY + (y : Int) - L.borderY = (y : Int) := by omega
    rw [e1, e2, hsq] at h
    exact h

/-- C4. For every source with positive width and height, every composited photo
and every random stream, `ditherImage` returns a canvas all of whose pixels have
an RGB value in `nordPalette`: pixels outside the photo sub-rectangle are the
background entry, and pixel `(x, y)` of the sub-rectangle holds the colour that was
quantized in the state in which the dithering loops reached it; later diffusion
writes do not change it. -/
theorem ditherImage_palette_only (srcW srcH : Int) (hw : 1 ≤ srcW) (hh : 1 ≤ srcH)
    (composited : Int → Int → NRGBA) (rnd : Nat → ℚ) :
    ∃ L c0 buf0 c, layout srcW srcH = some L ∧ fillCanvas = some c0 ∧
      initBuf (drawCopy c0 L.borderX L.borderY L.newW L.newH composited)
        L.borderX L.borderY L.newW L.newH = some buf0 ∧
      ditherImage srcW srcH composited rnd = some c ∧
      (∀ X Y, 0 ≤ X → X < c.w → 0 ≤ Y → Y < c.h → (c.pix X Y).rgb ∈ nordPalette) ∧
      (∀ X Y, 0 ≤ X → X < c.w → 0 ≤ Y → Y < c.h → ¬ L.inPhoto X Y →
        c.pix X Y = bg ∧ bg.rgb ∈ nordPalette) ∧
      (∀ y x : Nat, (x : Int) < L.newW → (y : Int) < L.newH →
        ∃ sx, stateBefore noiseAmount rnd L.newW L.newH (buf0, 0) y x = some sx ∧
          (c.pix (L.borderX + (x : Int)) (L.borderY + (y : Int))).rgb =
            quantizedAt noiseAmount rnd sx (y : Int) (x : Int) ∧
          quantizedAt noiseAmount rnd sx (y : Int) (x : Int) ∈ nordPalette) := by
  obtain ⟨L, c0, buf0, c, hL, hc0, hb0, hc, hcw, hch, hbord, hphoto⟩ :=
    ditherImage_pos srcW srcH hw hh composited rnd
  refine ⟨L, c0, buf0, c, hL, hc0, hb0, hc, ?_, ?_, ?_⟩
  · intro X Y hX0 hX hY0 hY
    rw [hcw] at hX
    rw [hch] at hY
    by_cases hph : L.inPhoto X Y
    · obtain ⟨p1, p2, p3, p4⟩ := hph
      have hx : ((X - L.borderX).toNat : Int) = X - L.borderX := Int.toNat_of_nonneg (by omega)
      have hy : ((Y - L.borderY).toNat : Int) = Y - L.borderY := Int.toNat_of_nonneg (by omega)
      obtain ⟨_, _, _, _, sx, _, _, hpx⟩ := hphoto (Y - L.borderY).toNat (X - L.borderX).toNat
        (by omega) (by omega)
      rw [hx, hy] at hpx
      have eX : L.borderX + (X - L.borderX) = X := by omega
      have eY : L.borderY + (Y - L.borderY) = Y := by omega
      rw [eX, eY] at hpx
      rw [hpx]
      exact quantizedAt_mem noiseAmount rnd sx _ _
    · rw [hbord X Y hX0 hX hY0 hY hph]
      exact bg_mem
  · intro X Y hX0 hX hY0 hY hph
    rw [hcw] at hX
    rw [hch] at hY
    exact ⟨hbord X Y hX0 hX hY0 hY hph, bg_mem⟩
  · intro y x hx hy
    obtain ⟨_, _, _, _, sx, hsx, _, hpx⟩ := hphoto y x hx hy
    refine ⟨sx, hsx, ?_, quantizedAt_mem noiseAmount rnd sx _ _⟩
    rw [hpx]
    rfl

/-- C5. For every source with positive width and height, every pixel of the
returned canvas outside `[borderX, borderX+newW) x [borderY, borderY+newH)` equals
the background colour `(46, 52, 64)`, the first entry of `nordPalette`. -/
theorem ditherImage_border_is_background (srcW srcH : Int) (hw : 1 ≤ srcW) (hh : 1 ≤ srcH)
    (composited : Int → Int → NRGBA) (rnd : Nat → ℚ) :
    ∃ L c, layout srcW srcH = some L ∧ ditherImage srcW srcH composited rnd = some c ∧
      nordPalette.head? = some bg.rgb ∧ bg.rgb = (46, 52, 64) ∧
      ∀ X Y, 0 ≤ X → X < c.w → 0 ≤ Y → Y < c.h →
        ¬ (L.borderX ≤ X ∧ X < L.borderX + L.newW ∧
            L.borderY ≤ Y ∧ Y < L.borderY + L.newH) →
        c.pix X Y = bg := by
  obtain ⟨L, c0, buf0, c, hL, _, _, hc, hcw, hch, hbord, _⟩ :=
    ditherImage_pos srcW srcH hw hh composited rnd
  refine ⟨L, c, hL, hc, rfl, rfl, ?_⟩
  intro X Y hX0 hX hY0 hY hph
  rw [hcw] at hX
  rw [hch] at hY
  exact hbord X Y hX0 hX hY0 hY hph

/-- C6. Whatever the source, a canvas returned by `ditherImage` has exactly
`screenW x screenH = 2256 x 1504` pixels; and a canvas is returned for every
source with positive width and height. -/
theorem ditherImage_canvas_size (srcW srcH : Int) (composited : Int → Int → NRGBA)
    (rnd : Nat → ℚ) :
    (∀ c, ditherImage srcW srcH composited rnd = some c →
      c.w = screenW ∧ c.h = screenH ∧ screenW = 2256 ∧ screenH = 1504) ∧
    (1 ≤ srcW → 1 ≤ srcH → ∃ c, ditherImage srcW srcH composited rnd = some c) := by
  constructor
  · intro c hc
    obtain ⟨h1, h2⟩ := ditherImage_dims srcW srcH composited rnd c hc
    exact ⟨h1, h2, rfl, rfl⟩
  · intro hw hh
    obtain ⟨_, _, _, c, _, _, _, hc, _⟩ := ditherImage_pos srcW srcH hw hh composited rnd
    exact ⟨c, hc⟩

theorem ditherImage_palette_only_witness :
    ∃ L c0 buf0 c, layout 4000 3000 = some L ∧ fillCanvas = some c0 ∧
      initBuf (drawCopy c0 L.borderX L.borderY L.newW L.newH grayPhoto)
        L.borderX L.borderY L.newW L.newH = some buf0 ∧
      ditherImage 4000 3000 grayPhoto midStream = some c ∧
      (∀ X Y, 0 ≤ X → X < c.w → 0 ≤ Y → Y < c.h → (c.pix X Y).rgb ∈ nordPalette) ∧
      (∀ X Y, 0 ≤ X → X < c.w → 0 ≤ Y → Y < c.h → ¬ L.inPhoto X Y →
        c.pix X Y = bg ∧ bg.rgb ∈ nordPalette) ∧
      (∀ y x : Nat, (x : Int) < L.newW → (y : Int) < L.newH →
        ∃ sx, stateBefore noiseAmount midStream L.newW L.newH (buf0, 0) y x = some sx ∧
          (c.pix (L.borderX + (x : Int)) (L.borderY + (y : Int))).rgb =
            quantizedAt noiseAmount midStream sx (y : Int) (x : Int) ∧
          quantizedAt noiseAmount midStream sx (y : Int) (x : Int) ∈ nordPalette) :=
  ditherImage_palette_only 4000 3000 (by decide) (by decide) grayPhoto midStream

theorem ditherImage_border_is_background_witness :
    ∃ L c, layout 1000 999 = some L ∧ ditherImage 1000 999 grayPhoto midStream = some c ∧
      nordPalette.head? = some bg.rgb ∧ bg.rgb = (46, 52, 64) ∧
      ∀ X Y, 0 ≤ X → X < c.w → 0 ≤ Y → Y < c.h →
        ¬ (L.borderX ≤ X ∧ X < L.borderX + L.newW ∧
            L.borderY ≤ Y ∧ Y < L.borderY + L.newH) →
        c.pix X Y = bg :=
  ditherImage_border_is_background 1000 999 (by decide) (by decide) grayPhoto midStream

theorem ditherImage_canvas_size_witness :
    ∃ c, ditherImage 3 1 grayPhoto midStream = some c ∧
      c.w = screenW ∧ c.h = screenH ∧ screenW = 2256 ∧ screenH = 1504 :=
  ((ditherImage_canvas_size 3 1 grayPhoto midStream).2 (by decide) (by decide)).imp
    (fun c hc => ⟨hc, (ditherImage_canvas_size 3 1 grayPhoto midStream).1 c hc⟩)

/-! ## Sources with a zero dimension -/

theorem round53_intCast_zero : round53 ((0 : Int) : ℚ) = 0 := by
  rw [Int.cast_zero, round53_zero]

theorem div_by_zero_width : F64.div (F64.ofInt 1128) (F64.ofInt 0) = F64.inf false := by
  simp only [F64.ofInt, F64.div, round53_intCast_zero, round53_1128]
  norm_num

theorem div_by_zero_height : F64.div (F64.ofInt 752) (F64.ofInt 0) = F64.inf false := by
  simp only [F64.ofInt, F64.div, round53_intCast_zero, round53_752]
  norm_num

theorem mul_zero_inf : F64.mul (F64.ofInt 0) (F64.inf false) = F64.nan := by
  simp only [F64.ofInt, round53_intCast_zero, F64.mul, if_true]

theorem mul_zero_fin (x : ℚ) : F64.mul (F64.ofInt 0) (F64.fin x) = F64.fin 0 := by
  simp only [F64.ofInt, round53_intCast_zero, F64.mul, zero_mul, round53_zero]

theorem layout_zero_width (srcH : Int) (hh : 1 ≤ srcH) :
    layout 0 srcH = some
      { availW := 1128
        availH := 752
        newW := 0
        newH := ⌊round53 (round53 (srcH : ℚ) * scaleYOf srcH)⌋
        borderX := 1128
        borderY := Int.tdiv (screenH - ⌊round53 (round53 (srcH : ℚ) * scaleYOf srcH)⌋) 2 } := by
  have hh0 : round53 (srcH : ℚ) ≠ 0 := ne_of_gt (round53_srcPos srcH hh)
  have hy : F64.div (F64.ofInt 752) (F64.ofInt srcH) = F64.fin (scaleYOf srcH) := by
    simp only [F64.ofInt, F64.div, hh0, if_false, round53_752, scaleYOf]
  have hs : (if F64.lt (F64.div (F64.ofInt 752) (F64.ofInt srcH))
        (F64.div (F64.ofInt 1128) (F64.ofInt 0)) = true
      then F64.div (F64.ofInt 752) (F64.ofInt srcH)
      else F64.div (F64.ofInt 1128) (F64.ofInt 0)) = F64.fin (scaleYOf srcH) := by
    rw [div_by_zero_width, hy]
    simp only [F64.lt, Bool.not_false, if_true]
  have hnw : (F64.floor (F64.mul (F64.ofInt 0) (F64.fin (scaleYOf srcH)))).toInt = some 0 := by
    rw [mul_zero_fin, toInt_floor_fin, Int.floor_zero]
  have hnh : (F64.floor (F64.mul (F64.ofInt srcH) (F64.fin (scaleYOf srcH)))).toInt =
      some ⌊round53 (round53 (srcH : ℚ) * scaleYOf srcH)⌋ := by
    simp only [F64.ofInt, F64.mul, toInt_floor_fin]
  rw [layout_of_parts 0 srcH _ _ _ hs hnw hnh]
  rfl

theorem layout_zero_height (srcW : Int) (hw : 1 ≤ srcW) :
    layout srcW 0 = some
      { availW := 1128
        availH := 752
        newW := ⌊round53 (round53 (srcW : ℚ) * scaleXOf srcW)⌋
        newH := 0
        borderX := Int.tdiv (screenW - ⌊round53 (round53 (srcW : ℚ) * scaleXOf srcW)⌋) 2
        borderY := 752 } := by
  have hw0 : round53 (srcW : ℚ) ≠ 0 := ne_of_gt (round53_srcPos srcW hw)
  have hx : F64.div (F64.ofInt 1128) (F64.ofInt srcW) = F64.fin (scaleXOf srcW) := by
    simp only [F64.ofInt, F64.div, hw0, if_false, round53_1128, scaleXOf]
  have hs : (if F64.lt (F64.div (F64.ofInt 752) (F64.ofInt 0))
        (F64.div (F64.ofInt 1128) (F64.ofInt srcW)) = true
      then F64.div (F64.ofInt 752) (F64.ofInt 0)
      else F64.div (F64.ofInt 1128) (F64.ofInt srcW)) = F64.fin (scaleXOf srcW) := by
    rw [div_by_zero_height, hx]
    simp only [F64.lt, Bool.false_eq_true, if_false]
  have hnh : (F64.floor (F64.mul (F64.ofInt 0) (F64.fin (scaleXOf srcW)))).toInt = some 0 := by
    rw [mul_zero_fin, toInt_floor_fin, Int.floor_zero]
  have hnw : (F64.floor (F64.mul (F64.ofInt srcW) (F64.fin (scaleXOf srcW)))).toInt =
      some ⌊round53 (round53 (srcW : ℚ) * scaleXOf srcW)⌋ := by
    simp only [F64.ofInt, F64.mul, toInt_floor_fin]
  rw [layout_of_parts srcW 0 _ _ _ hs hnw hnh]
  rfl

theorem zero_width_newH_nonneg (srcH : Int) (hh : 1 ≤ srcH) :
    0 ≤ ⌊round53 (round53 (srcH : ℚ) * scaleYOf srcH)⌋ :=
  Int.floor_nonneg.2 (round53_nonneg _
    (mul_nonneg (le_of_lt (round53_srcPos srcH hh)) (scaleYOf_nonneg srcH hh)))

theorem zero_height_newW_nonneg (srcW : Int) (hw : 1 ≤ srcW) :
    0 ≤ ⌊round53 (round53 (srcW : ℚ) * scaleXOf srcW)⌋ :=
  Int.floor_nonneg.2 (round53_nonneg _
    (mul_nonneg (le_of_lt (round53_srcPos srcW hw)) (scaleXOf_nonneg srcW hw)))

theorem layout_0_5 : layout 0 5 = some ⟨1128, 752, 0, 752, 1128, 376⟩ := by
  have h5 : round53 ((5 : Int) : ℚ) = ((5 : Int) : ℚ) := round53_intCast 5 (by norm_num)
  have hs : round53 (752 / ((5 : Int) : ℚ)) = ((5291729562160333 : Int) : ℚ) / 2 ^ 45 :=
    round53_eval _ 45 5291729562160333 (by norm_num [abs_of_pos]) (by norm_num [abs_of_pos])
      (by norm_num [abs_lt])
  have hnh : ⌊round53 (((5 : Int) : ℚ) * (((5291729562160333 : Int) : ℚ) / 2 ^ 45))⌋ = 752 :=
    floor_round53_eval _ 43 6614661952700416 752 (by norm_num [abs_of_pos])
      (by norm_num [abs_of_pos]) (by norm_num [abs_lt]) (by norm_num) (by norm_num)
  rw [layout_zero_width 5 (by decide)]
  simp only [scaleYOf, h5, hs, hnh]
  rfl

/-- For a 0 x 0 source the scale is `+Inf`, the products `0 * Inf` are NaN, and the
conversions `int(NaN)` leave the new size implementation-dependent. -/
theorem layout_zero_both : layout 0 0 = none := by
  have hs : (if F64.lt (F64.div (F64.ofInt 752) (F64.ofInt 0))
        (F64.div (F64.ofInt 1128) (F64.ofInt 0)) = true
      then F64.div (F64.ofInt 752) (F64.ofInt 0)
      else F64.div (F64.ofInt 1128) (F64.ofInt 0)) = F64.inf false := by
    rw [div_by_zero_width, div_by_zero_height]
    simp only [F64.lt, ite_self]
  have hn : (F64.floor (F64.mul (F64.ofInt 0) (F64.inf false))).toInt = none := by
    rw [mul_zero_inf]
    rfl
  rw [layout_of_parts 0 0 _ _ _ hs hn hn]
  rfl

/-- A layout with an empty photo sub-rectangle yields the all-background canvas. -/
theorem ditherImage_empty_photo (srcW srcH : Int) (composited : Int → Int → NRGBA)
    (rnd : Nat → ℚ) (L : Layout) (hL : layout srcW srcH = some L)
    (hW : 0 ≤ L.newW) (hH : 0 ≤ L.newH) (h0 : L.newW = 0 ∨ L.newH = 0) :
    ∃ c, ditherImage srcW srcH composited rnd = some c ∧ c.w = screenW ∧ c.h = screenH ∧
      ∀ X Y, 0 ≤ X → X < screenW → 0 ≤ Y → Y < screenH → c.pix X Y = bg := by
  obtain ⟨_, _, _, c, _, _, _, _, hc, hcw, hch, hpix⟩ :=
    ditherImage_spec srcW srcH composited rnd L hL hW hH
  refine ⟨c, hc, hcw, hch, ?_⟩
  intro X Y hX0 hX hY0 hY
  apply (hpix X Y hX0 hX hY0 hY).2
  rintro ⟨p1, p2, p3, p4⟩
  rcases h0 with h | h
  · rw [h] at p2; omega
  · rw [h] at p4; omega

/-- C10, refuted as stated. A source of width 0 and height 5 is not rejected:
`ditherImage` returns a canvas, and the scale computation has divided by
`float64(0)` (giving `+Inf`) on the way. -/
theorem zero_width_source_not_rejected :
    F64.div (F64.ofInt 1128) (F64.ofInt 0) = F64.inf false ∧
    layout 0 5 = some ⟨1128, 752, 0, 752, 1128, 376⟩ ∧
    ∃ c, ditherImage 0 5 grayPhoto midStream = some c := by
  refine ⟨div_by_zero_width, layout_0_5, ?_⟩
  obtain ⟨c, hc, _⟩ := ditherImage_empty_photo 0 5 grayPhoto midStream _
    layout_0_5 (by decide) (by decide) (Or.inl rfl)
  exact ⟨c, hc⟩

/-- C10, amended. For a source with exactly one zero dimension `ditherImage`
raises no error: the division by zero yields `+Inf`, the photo sub-rectangle is
empty, and the canvas returned is the `screenW x screenH` canvas filled with the
background colour. -/
theorem zero_dimension_gives_background (srcW srcH : Int)
    (h : (srcW = 0 ∧ 1 ≤ srcH) ∨ (srcH = 0 ∧ 1 ≤ srcW))
    (composited : Int → Int → NRGBA) (rnd : Nat → ℚ) :
    ∃ L c, layout srcW srcH = some L ∧ (L.newW = 0 ∨ L.newH = 0) ∧
      ditherImage srcW srcH composited rnd = some c ∧
      c.w = screenW ∧ c.h = screenH ∧
      ∀ X Y, 0 ≤ X → X < c.w → 0 ≤ Y → Y < c.h → c.pix X Y = bg := by
  rcases h with ⟨rfl, hh⟩ | ⟨rfl, hw⟩
  · obtain ⟨c, hc, hcw, hch, hp⟩ := ditherImage_empty_photo 0 srcH composited rnd _
      (layout_zero_width srcH hh) (le_refl _) (zero_width_newH_nonneg srcH hh) (Or.inl rfl)
    refine ⟨_, c, layout_zero_width srcH hh, Or.inl rfl, hc, hcw, hch, ?_⟩
    intro X Y hX0 hX hY0 hY
    rw [hcw] at hX
    rw [hch] at hY
    exact hp X Y hX0 hX hY0 hY
  · obtain ⟨c, hc, hcw, hch, hp⟩ := ditherImage_empty_photo srcW 0 composited rnd _
      (layout_zero_height srcW hw) (zero_height_newW_nonneg srcW hw) (le_refl _) (Or.inr rfl)
    refine ⟨_, c, layout_zero_height srcW hw, Or.inr rfl, hc, hcw, hch, ?_⟩
    intro X Y hX0 hX hY0 hY
    rw [hcw] at hX
    rw [hch] at hY
    exact hp X Y hX0 hX hY0 hY

theorem zero_dimension_gives_background_witness :
    ∃ L c, layout 640 0 = some L ∧ (L.newW = 0 ∨ L.newH = 0) ∧
      ditherImage 640 0 grayPhoto midStream = some c ∧
      c.w = screenW ∧ c.h = screenH ∧
      ∀ X Y, 0 ≤ X → X < c.w → 0 ≤ Y → Y < c.h → c.pix X Y = bg :=
  zero_dimension_gives_background 640 0 (Or.inr ⟨rfl, by decide⟩) grayPhoto midStream

/-! ## The diffusion step in detail -/

theorem guarded_diffuse_vals (c : Prop) [Decidable c] (b : Buf) (newW newH : Int)
    (hs : b.Shaped newW newH) (y bi : Int) (eR eG eB w : Int)
    (hc : c → 0 ≤ y ∧ y < newH ∧ 0 ≤ bi ∧ bi + 2 < newW * 3) :
    ∃ b', (if c then diffuse b y bi eR eG eB w else some b) = some b' ∧
      b'.Shaped newW newH ∧
      (∀ Y I, ¬ (c ∧ Y = y ∧ bi ≤ I ∧ I ≤ bi + 2) → b'.cell Y I = b.cell Y I) ∧
      (c → b'.cell y bi = clampU8 ((b.cell y bi : ℚ) + (eR : ℚ) * (w : ℚ) / 16) ∧
        b'.cell y (bi + 1) = clampU8 ((b.cell y (bi + 1) : ℚ) + (eG : ℚ) * (w : ℚ) / 16) ∧
        b'.cell y (bi + 2) = clampU8 ((b.cell y (bi + 2) : ℚ) + (eB : ℚ) * (w : ℚ) / 16)) := by
  by_cases h : c
  · obtain ⟨h1, h2, h3, h4⟩ := hc h
    obtain ⟨b', hb', hs', hf, v1, v2, v3⟩ :=
      diffuse_spec b newW newH hs y bi eR eG eB w h1 h2 h3 h4
    refine ⟨b', by rw [if_pos h]; exact hb', hs', ?_, fun _ => ⟨v1, v2, v3⟩⟩
    intro Y I hn
    exact hf Y I (fun hh => hn ⟨h, hh⟩)
  · exact ⟨b, by rw [if_neg h], hs, fun _ _ _ => rfl, fun hh => absurd hh h⟩

/-- The four diffusion blocks on a shaped buffer, with the values they leave: each
neighbour that exists receives the error with its weight through `clampU8`, and
no other byte changes. -/
theorem diffuseError_vals (b : Buf) (newW newH : Int) (hs : b.Shaped newW newH)
    (y x : Int) (eR eG eB : Int)
    (hy0 : 0 ≤ y) (hy : y < newH) (hx0 : 0 ≤ x) (hx : x < newW) :
    ∃ b', diffuseError newW newH y x eR eG eB b = some b' ∧ b'.Shaped newW newH ∧
      (x + 1 < newW →
        b'.pixel y (x + 1) = addWeighted (b.pixel y (x + 1)) (eR, eG, eB) 7) ∧
      (x > 0 ∧ y + 1 < newH →
        b'.pixel (y + 1) (x - 1) = addWeighted (b.pixel (y + 1) (x - 1)) (eR, eG, eB) 3) ∧
      (y + 1 < newH →
        b'.pixel (y + 1) x = addWeighted (b.pixel (y + 1) x) (eR, eG, eB) 5) ∧
      (x + 1 < newW ∧ y + 1 < newH →
        b'.pixel (y + 1) (x + 1) = addWeighted (b.pixel (y + 1) (x + 1)) (eR, eG, eB) 1) ∧
      ∀ Y I, ¬ (x + 1 < newW ∧ inPixel y (x + 1) Y I) →
        ¬ (x > 0 ∧ y + 1 < newH ∧ inPixel (y + 1) (x - 1) Y I) →
        ¬ (y + 1 < newH ∧ inPixel (y + 1) x Y I) →
        ¬ (x + 1 < newW ∧ y + 1 < newH ∧ inPixel (y + 1) (x + 1) Y I) →
        b'.cell Y I = b.cell Y I := by
  obtain ⟨b1, e1, s1, f1, v1⟩ := guarded_diffuse_vals (x + 1 < newW) b newW newH hs
    y ((x + 1) * 3) eR eG eB 7 (fun h => ⟨hy0, hy, by omega, by omega⟩)
  obtain ⟨b2, e2, s2, f2, v2⟩ := guarded_diffuse_vals (x > 0 ∧ y + 1 < newH) b1 newW newH s1
    (y + 1) ((x - 1) * 3) eR eG eB 3 (fun h => ⟨by omega, by omega, by omega, by omega⟩)
  obtain ⟨b3, e3, s3, f3, v3⟩ := guarded_diffuse_vals (y + 1 < newH) b2 newW newH s2
    (y + 1) (x * 3) eR eG eB 5 (fun h => ⟨by omega, by omega, by omega, by omega⟩)
  obtain ⟨b4, e4, s4, f4, v4⟩ := guarded_diffuse_vals (x + 1 < newW ∧ y + 1 < newH) b3
    newW newH s3 (y + 1) ((x + 1) * 3) eR eG eB 1
    (fun h => ⟨by omega, by omega, by omega, by omega⟩)
  refine ⟨b4, ?_, s4, ?_, ?_, ?_, ?_, ?_⟩
  · simp only [diffuseError, e1, e2, e3, Option.bind_eq_bind, Option.some_bind]
    exact e4
  · intro h
    obtain ⟨w1, w2, w3⟩ := v1 h
    simp only [Buf.pixel, addWeighted]
    rw [f4 _ _ (by omega), f3 _ _ (by omega), f2 _ _ (by omega), w1,
      f4 _ _ (by omega), f3 _ _ (by omega), f2 _ _ (by omega), w2,
      f4 _ _ (by omega), f3 _ _ (by omega), f2 _ _ (by omega), w3]
  · intro h
    obtain ⟨w1, w2, w3⟩ := v2 h
    simp only [Buf.pixel, addWeighted]
    rw [f4 _ _ (by omega), f3 _ _ (by omega), w1, f1 _ _ (by omega),
      f4 _ _ (by omega), f3 _ _ (by omega), w2, f1 _ _ (by omega),
      f4 _ _ (by omega), f3 _ _ (by omega), w3, f1 _ _ (by omega)]
  · intro h
    obtain ⟨w1, w2, w3⟩ := v3 h
    simp only [Buf.pixel, addWeighted]
    rw [f4 _ _ (by omega), w1, f2 _ _ (by omega), f1 _ _ (by omega),
      f4 _ _ (by omega), w2, f2 _ _ (by omega), f1 _ _ (by omega),
      f4 _ _ (by omega), w3, f2 _ _ (by omega), f1 _ _ (by omega)]
  · intro h
    obtain ⟨w1, w2, w3⟩ := v4 h
    simp only [Buf.pixel, addWeighted]
    rw [w1, f3 _ _ (by omega), f2 _ _ (by omega), f1 _ _ (by omega),
      w2, f3 _ _ (by omega), f2 _ _ (by omega), f1 _ _ (by omega),
      w3, f3 _ _ (by omega), f2 _ _ (by omega), f1 _ _ (by omega)]
  · intro Y I h1 h2 h3 h4
    simp only [inPixel] at h1 h2 h3 h4
    rw [f4 Y I (by omega), f3 Y I (by omega), f2 Y I (by omega), f1 Y I (by omega)]

/-- One pixel step on a shaped buffer, with every value it leaves. -/
theorem ditherPixel_vals (amount : ℚ) (rnd : Nat → ℚ) (newW newH : Int) (b : Buf) (n : Nat)
    (hs : b.Shaped newW newH) (y x : Int)
    (hy0 : 0 ≤ y) (hy : y < newH) (hx0 : 0 ≤ x) (hx : x < newW) :
    ∃ b', ditherPixel amount rnd newW newH y x (b, n) = some (b', n + 3) ∧
      b'.Shaped newW newH ∧
      b'.pixel y x = quantizedAt amount rnd (b, n) y x ∧
      (x + 1 < newW →
        b'.pixel y (x + 1) =
          addWeighted (b.pixel y (x + 1)) (errorAt amount rnd (b, n) y x) 7) ∧
      (x > 0 ∧ y + 1 < newH →
        b'.pixel (y + 1) (x - 1) =
          addWeighted (b.pixel (y + 1) (x - 1)) (errorAt amount rnd (b, n) y x) 3) ∧
      (y + 1 < newH →
        b'.pixel (y + 1) x =
          addWeighted (b.pixel (y + 1) x) (errorAt amount rnd (b, n) y x) 5) ∧
      (x + 1 < newW ∧ y + 1 < newH →
        b'.pixel (y + 1) (x + 1) =
          addWeighted (b.pixel (y + 1) (x + 1)) (errorAt amount rnd (b, n) y x) 1) ∧
      ∀ Y I, ¬ inPixel y x Y I →
        ¬ (x + 1 < newW ∧ inPixel y (x + 1) Y I) →
        ¬ (x > 0 ∧ y + 1 < newH ∧ inPixel (y + 1) (x - 1) Y I) →
        ¬ (y + 1 < newH ∧ inPixel (y + 1) x Y I) →
        ¬ (x + 1 < newW ∧ y + 1 < newH ∧ inPixel (y + 1) (x + 1) Y I) →
        b'.cell Y I = b.cell Y I := by
  have r0 := inRange_of_shaped b newW newH hs y (x * 3) hy0 hy (by omega) (by omega)
  have r1 := inRange_of_shaped b newW newH hs y (x * 3 + 1) hy0 hy (by omega) (by omega)
  have r2 := inRange_of_shaped b newW newH hs y (x * 3 + 2) hy0 hy (by omega) (by omega)
  let q := quantizedAt amount rnd (b, n) y x
  let e := errorAt amount rnd (b, n) y x
  have hs3 : (((b.put y (x * 3) q.1).put y (x * 3 + 1) q.2.1).put y (x * 3 + 2)
      q.2.2).Shaped newW newH := hs
  obtain ⟨b', hb', hs', w1, w2, w3, w4, hf⟩ := diffuseError_vals _ newW newH hs3 y x
    e.1 e.2.1 e.2.2 hy0 hy hx0 hx
  have q0 : (b.put y (x * 3) q.1).inRange y (x * 3 + 1) = true := r1
  have q1 : ((b.put y (x * 3) q.1).put y (x * 3 + 1) q.2.1).inRange y (x * 3 + 2) = true := r2
  have hput : ∀ Y X, ¬ (Y = y ∧ X = x) →
      (((b.put y (x * 3) q.1).put y (x * 3 + 1) q.2.1).put y (x * 3 + 2) q.2.2).pixel Y X
        = b.pixel Y X := by
    intro Y X hne
    rw [pixel_put3, if_neg hne]
  refine ⟨b', ?_, hs', ?_, ?_, ?_, ?_, ?_, ?_⟩
  · simp only [ditherPixel, get_of_inRange _ _ _ r0, get_of_inRange _ _ _ r1,
      get_of_inRange _ _ _ r2, Option.bind_eq_bind, Option.some_bind]
    have e0 := set_of_inRange b y (x * 3) q.1 r0
    have e1 := set_of_inRange _ y (x * 3 + 1) q.2.1 q0
    have e2 := set_of_inRange _ y (x * 3 + 2) q.2.2 q1
    simp only [q, quantizedAt, noisyAt] at e0 e1 e2
    simp only [e0, e1, e2, Option.some_bind]
    simp only [q, e, errorAt, quantizedAt, noisyAt] at hb'
    simp only [hb', Option.some_bind, Option.pure_def]
  · have h0 := hf y (x * 3) (by simp only [inPixel]; omega) (by simp only [inPixel]; omega)
      (by simp only [inPixel]; omega) (by simp only [inPixel]; omega)
    have h1 := hf y (x * 3 + 1) (by simp only [inPixel]; omega)
      (by simp only [inPixel]; omega) (by simp only [inPixel]; omega)
      (by simp only [inPixel]; omega)
    have h2 := hf y (x * 3 + 2) (by simp only [inPixel]; omega)
      (by simp only [inPixel]; omega) (by simp only [inPixel]; omega)
      (by simp only [inPixel]; omega)
    have hp := pixel_put3 b y x q.1 q.2.1 q.2.2 y x
    rw [if_pos ⟨rfl, rfl⟩] at hp
    simp only [Buf.pixel] at hp ⊢
    rw [h0, h1, h2, hp]
  · intro h
    rw [w1 h, hput y (x + 1) (by omega)]
  · intro h
    rw [w2 h, hput (y + 1) (x - 1) (by omega)]
  · intro h
    rw [w3 h, hput (y + 1) x (by omega)]
  · intro h
    rw [w4 h, hput (y + 1) (x + 1) (by omega)]
  · intro Y I h0 h1 h2 h3 h4
    rw [hf Y I h1 h2 h3 h4]
    simp only [inPixel] at h0
    simp only [put_cell]
    repeat rw [if_neg (by omega)]

theorem clampU8_eq_floor_clampSpec (v : ℚ) : clampU8 v = ⌊clampSpec v⌋₊ := by
  unfold clampU8 clampSpec
  by_cases h1 : v < 0
  · rw [if_pos h1]
    have : min v 255 = v := min_eq_left (by linarith)
    rw [this, max_eq_left (le_of_lt h1)]
    simp
  · rw [if_neg h1]
    by_cases h2 : v > 255
    · rw [if_pos h2]
      have : min v 255 = 255 := min_eq_right (le_of_lt h2)
      rw [this, max_eq_right (by norm_num)]
      have e : (255 : ℚ) = ((255 : Nat) : ℚ) := by norm_num
      rw [e, Nat.floor_natCast]
    · rw [if_neg h2]
      have : min v 255 = v := min_eq_left (not_lt.1 h2)
      rw [this, max_eq_right (not_lt.1 h1)]

theorem clampU8_of_floor (v : ℚ) (k : Nat) (hk : k ≤ 255) (h1 : (k : ℚ) ≤ v)
    (h2 : v < (k : ℚ) + 1) : clampU8 v = k := by
  have h0 : (0 : ℚ) ≤ v := le_trans (Nat.cast_nonneg k) h1
  unfold clampU8
  rw [if_neg (not_lt.2 h0)]
  by_cases h255 : v > 255
  · rw [if_pos h255]
    have hk' : (255 : ℚ) < (k : ℚ) + 1 := lt_trans h255 h2
    have : (255 : Nat) < k + 1 := by exact_mod_cast hk'
    omega
  · rw [if_neg h255]
    exact (Nat.floor_eq_iff h0).2 ⟨h1, h2⟩

theorem clampU8_natCast (v : Nat) (h : v ≤ 255) : clampU8 (v : ℚ) = v :=
  clampU8_of_floor (v : ℚ) v h (le_refl _) (by linarith)

theorem addNoise_zero (v : Nat) (u : ℚ) (h : v ≤ 255) : addNoise 0 v u = v := by
  unfold addNoise
  rw [mul_zero, add_zero]
  exact clampU8_natCast v h

theorem grayBuf_shaped (newW newH : Int) : (grayBuf newW newH).Shaped newW newH :=
  ⟨rfl, fun _ _ _ => rfl⟩

theorem gray_first_pixel (rnd : Nat → ℚ) (b : Buf) (n : Nat)
    (h : b.pixel 0 0 = (128, 128, 128)) :
    noisyAt 0 rnd (b, n) 0 0 = (128, 128, 128) ∧
    quantizedAt 0 rnd (b, n) 0 0 = (94, 129, 172) ∧
    errorAt 0 rnd (b, n) 0 0 = (34, -1, -44) := by
  simp only [Buf.pixel, Prod.mk.injEq] at h
  obtain ⟨h1, h2, h3⟩ := h
  have hn : noisyAt 0 rnd (b, n) 0 0 = (128, 128, 128) := by
    simp only [noisyAt, h1, h2, h3]
    rw [addNoise_zero _ _ (by decide), addNoise_zero _ _ (by decide),
      addNoise_zero _ _ (by decide)]
  have hq : quantizedAt 0 rnd (b, n) 0 0 = (94, 129, 172) := by
    simp only [quantizedAt, hn]
    decide
  refine ⟨hn, hq, ?_⟩
  simp only [errorAt, hn, hq]
  decide

theorem gray_second_pixel :
    addWeighted (128, 128, 128) (34, -1, -44) 7 = (142, 127, 108) := by
  simp only [addWeighted, Prod.mk.injEq]
  refine ⟨?_, ?_, ?_⟩
  · exact clampU8_of_floor _ 142 (by decide) (by norm_num) (by norm_num)
  · exact clampU8_of_floor _ 127 (by decide) (by norm_num) (by norm_num)
  · exact clampU8_of_floor _ 108 (by decide) (by norm_num) (by norm_num)

/-- C15, refuted as stated. On a 2 x 1 solid-gray buffer with zero noise, the step
at pixel `(0, 0)` has error `e = (34, -1, -44)`; the red byte of the right
neighbour was `v = 128`, and `clamp(v + e * 7/16, 0, 255) = 1143/8 = 142.875`,
but the buffer holds `142` after the update. -/
theorem diffused_value_is_truncated :
    ∃ b', ditherPixel 0 midStream 2 1 0 0 (grayBuf 2 1, 0) = some (b', 3) ∧
      errorAt 0 midStream (grayBuf 2 1, 0) 0 0 = (34, -1, -44) ∧
      (grayBuf 2 1).cell 0 3 = 128 ∧ b'.cell 0 3 = 142 ∧
      clampSpec ((128 : ℚ) + 34 * (7 / 16)) = 1143 / 8 ∧
      (b'.cell 0 3 : ℚ) ≠ clampSpec ((128 : ℚ) + 34 * (7 / 16)) := by
  obtain ⟨b', hb', _, _, w1, _⟩ := ditherPixel_vals 0 midStream 2 1 (grayBuf 2 1) 0
    (grayBuf_shaped 2 1) 0 0 (by decide) (by decide) (by decide) (by decide)
  obtain ⟨_, _, he⟩ := gray_first_pixel midStream (grayBuf 2 1) 0 rfl
  have hpx := w1 (by decide)
  rw [he] at hpx
  have hg : (grayBuf 2 1).pixel 0 (0 + 1) = (128, 128, 128) := rfl
  rw [hg, gray_second_pixel] at hpx
  have hcell : b'.cell 0 3 = 142 := by
    have := congrArg Prod.fst hpx
    simpa [Buf.pixel] using this
  have hspec : clampSpec ((128 : ℚ) + 34 * (7 / 16)) = 1143 / 8 := by
    have e : (128 : ℚ) + 34 * (7 / 16) = 1143 / 8 := by norm_num
    rw [e]
    unfold clampSpec
    rw [min_eq_left (by norm_num), max_eq_right (by norm_num)]
  refine ⟨b', hb', he, rfl, hcell, hspec, ?_⟩
  rw [hcell, hspec]
  norm_num

/-- C15, amended. For a pixel `(x, y)` of the sub-rectangle with error
`e = noisy - quantized`, the step leaves the quantized colour in `(x, y)`, updates
exactly the neighbours among `(x+1, y)`, `(x-1, y+1)`, `(x, y+1)`, `(x+1, y+1)` that
lie inside the sub-rectangle, each channel becoming `clampU8 (v + e * w / 16)` for
its previous value `v` and `w = 7, 3, 5, 1`, where `clampU8` is the clamp to
`[0, 255]` followed by truncation to an integer; no other byte changes. -/
theorem ditherPixel_diffuses (amount : ℚ) (rnd : Nat → ℚ) (newW newH : Int) (b : Buf)
    (n : Nat) (hs : b.Shaped newW newH) (y x : Int)
    (hy0 : 0 ≤ y) (hy : y < newH) (hx0 : 0 ≤ x) (hx : x < newW) :
    (∀ v : ℚ, clampU8 v = ⌊clampSpec v⌋₊) ∧
    ∃ b', ditherPixel amount rnd newW newH y x (b, n) = some (b', n + 3) ∧
      b'.pixel y x = quantizedAt amount rnd (b, n) y x ∧
      (x + 1 < newW →
        b'.pixel y (x + 1) =
          addWeighted (b.pixel y (x + 1)) (errorAt amount rnd (b, n) y x) 7) ∧
      (x > 0 ∧ y + 1 < newH →
        b'.pixel (y + 1) (x - 1) =
          addWeighted (b.pixel (y + 1) (x - 1)) (errorAt amount rnd (b, n) y x) 3) ∧
      (y + 1 < newH →
        b'.pixel (y + 1) x =
          addWeighted (b.pixel (y + 1) x) (errorAt amount rnd (b, n) y x) 5) ∧
      (x + 1 < newW ∧ y + 1 < newH →
        b'.pixel (y + 1) (x + 1) =
          addWeighted (b.pixel (y + 1) (x + 1)) (errorAt amount rnd (b, n) y x) 1) ∧
      ∀ Y I, ¬ inPixel y x Y I →
        ¬ (x + 1 < newW ∧ inPixel y (x + 1) Y I) →
        ¬ (x > 0 ∧ y + 1 < newH ∧ inPixel (y + 1) (x - 1) Y I) →
        ¬ (y + 1 < newH ∧ inPixel (y + 1) x Y I) →
        ¬ (x + 1 < newW ∧ y + 1 < newH ∧ inPixel (y + 1) (x + 1) Y I) →
        b'.cell Y I = b.cell Y I := by
  obtain ⟨b', hb', _, h0, h1, h2, h3, h4, hf⟩ :=
    ditherPixel_vals amount rnd newW newH b n hs y x hy0 hy hx0 hx
  exact ⟨clampU8_eq_floor_clampSpec, b', hb', h0, h1, h2, h3, h4, hf⟩

theorem ditherPixel_diffuses_witness :
    (∀ v : ℚ, clampU8 v = ⌊clampSpec v⌋₊) ∧
    ∃ b', ditherPixel noiseAmount midStream 3 2 0 1 (grayBuf 3 2, 0) = some (b', 0 + 3) ∧
      b'.pixel 0 1 = quantizedAt noiseAmount midStream (grayBuf 3 2, 0) 0 1 ∧
      ((1 : Int) + 1 < 3 →
        b'.pixel 0 (1 + 1) =
          addWeighted ((grayBuf 3 2).pixel 0 (1 + 1))
            (errorAt noiseAmount midStream (grayBuf 3 2, 0) 0 1) 7) ∧
      ((1 : Int) > 0 ∧ (0 : Int) + 1 < 2 →
        b'.pixel (0 + 1) (1 - 1) =
          addWeighted ((grayBuf 3 2).pixel (0 + 1) (1 - 1))
            (errorAt noiseAmount midStream (grayBuf 3 2, 0) 0 1) 3) ∧
      ((0 : Int) + 1 < 2 →
        b'.pixel (0 + 1) 1 =
          addWeighted ((grayBuf 3 2).pixel (0 + 1) 1)
            (errorAt noiseAmount midStream (grayBuf 3 2, 0) 0 1) 5) ∧
      ((1 : Int) + 1 < 3 ∧ (0 : Int) + 1 < 2 →
        b'.pixel (0 + 1) (1 + 1) =
          addWeighted ((grayBuf 3 2).pixel (0 + 1) (1 + 1))
            (errorAt noiseAmount midStream (grayBuf 3 2, 0) 0 1) 1) ∧
      ∀ Y I, ¬ inPixel 0 1 Y I →
        ¬ ((1 : Int) + 1 < 3 ∧ inPixel 0 (1 + 1) Y I) →
        ¬ ((1 : Int) > 0 ∧ (0 : Int) + 1 < 2 ∧ inPixel (0 + 1) (1 - 1) Y I) →
        ¬ ((0 : Int) + 1 < 2 ∧ inPixel (0 + 1) 1 Y I) →
        ¬ ((1 : Int) + 1 < 3 ∧ (0 : Int) + 1 < 2 ∧ inPixel (0 + 1) (1 + 1) Y I) →
        b'.cell Y I = (grayBuf 3 2).cell Y I :=
  ditherPixel_diffuses noiseAmount midStream 3 2 (grayBuf 3 2) 0 (grayBuf_shaped 3 2) 0 1
    (by decide) (by decide) (by decide) (by decide)

/-! ## The random stream -/

theorem draw_index_unique (W y x k y' x' k' : Nat) (hx : x < W) (hx' : x' < W)
    (hk : k < 3) (hk' : k' < 3)
    (h : 3 * (y * W + x) + k = 3 * (y' * W + x') + k') : y = y' ∧ x = x' ∧ k = k' := by
  have hkk : k = k' := by omega
  have hm : y * W + x = y' * W + x' := by omega
  have hy : y = y' := by
    have h1 : (x + y * W) / W = y := by
      rw [Nat.add_mul_div_right _ _ (by omega), Nat.div_eq_of_lt hx, Nat.zero_add]
    have h2 : (x' + y' * W) / W = y' := by
      rw [Nat.add_mul_div_right _ _ (by omega), Nat.div_eq_of_lt hx', Nat.zero_add]
    have hm' : x + y * W = x' + y' * W := by omega
    rw [hm'] at h1
    omega
  subst hy
  exact ⟨rfl, by omega, hkk⟩

theorem draw_index_exists (W H d : Nat) (hd : d < 3 * W * H) :
    ∃ y x k, y < H ∧ x < W ∧ k < 3 ∧ d = 3 * (y * W + x) + k := by
  have hW : 0 < W := by
    rcases Nat.eq_zero_or_pos W with h | h
    · subst h; simp at hd
    · exact h
  have hm : d / 3 < W * H := by
    apply Nat.div_lt_of_lt_mul
    calc d < 3 * W * H := hd
      _ = 3 * (W * H) := by ring
  refine ⟨d / 3 / W, d / 3 % W, d % 3, ?_, Nat.mod_lt _ hW, Nat.mod_lt _ (by decide), ?_⟩
  · exact Nat.div_lt_of_lt_mul hm
  · have e1 : d / 3 / W * W + d / 3 % W = d / 3 := by
      rw [Nat.mul_comm]; exact Nat.div_add_mod _ _
    rw [e1]
    omega

/-- C16. On a shaped buffer the pass takes exactly `3 * newW * newH` draws: when
the loops reach pixel `(x, y)` the draw counter is `3 * (y * newW + x)`, the noisy
channels R, G, B of that pixel are computed from the draws `3 * (y * newW + x) + k`
for `k = 0, 1, 2`, and every draw below the total belongs to exactly one channel
of one pixel. -/
theorem ditherPass_draw_order (amount : ℚ) (rnd : Nat → ℚ) (newW newH : Int) (b0 : Buf)
    (hs : b0.Shaped newW newH) :
    ∃ st', ditherPass amount rnd newW newH (b0, 0) = some st' ∧
      st'.2 = 3 * newW.toNat * newH.toNat ∧
      (∀ y x : Nat, (y : Int) < newH → (x : Int) < newW →
        ∃ sx, stateBefore amount rnd newW newH (b0, 0) y x = some sx ∧
          sx.2 = 3 * (y * newW.toNat + x) ∧
          noisyAt amount rnd sx (y : Int) (x : Int) =
            (addNoise amount (sx.1.cell (y : Int) ((x : Int) * 3))
                (rnd (3 * (y * newW.toNat + x))),
              addNoise amount (sx.1.cell (y : Int) ((x : Int) * 3 + 1))
                (rnd (3 * (y * newW.toNat + x) + 1)),
              addNoise amount (sx.1.cell (y : Int) ((x : Int) * 3 + 2))
                (rnd (3 * (y * newW.toNat + x) + 2))) ∧
          st'.1.pixel (y : Int) (x : Int) =
            findClosestColor (noisyAt amount rnd sx (y : Int) (x : Int)).1
              (noisyAt amount rnd sx (y : Int) (x : Int)).2.1
              (noisyAt amount rnd sx (y : Int) (x : Int)).2.2) ∧
      (∀ y x k y' x' k' : Nat, x < newW.toNat → x' < newW.toNat → k < 3 → k' < 3 →
        3 * (y * newW.toNat + x) + k = 3 * (y' * newW.toNat + x') + k' →
        y = y' ∧ x = x' ∧ k = k') ∧
      (∀ d : Nat, d < 3 * newW.toNat * newH.toNat →
        ∃ y x k, y < newH.toNat ∧ x < newW.toNat ∧ k < 3 ∧
          d = 3 * (y * newW.toNat + x) + k) := by
  obtain ⟨st', h1, _, h3, h4⟩ := ditherPass_spec amount rnd newW newH (b0, 0) hs
  refine ⟨st', h1, by simpa using h3, ?_, ?_, ?_⟩
  · intro y x hy hx
    obtain ⟨sx, e1, e2, e3⟩ := h4 y x hy hx
    have e2' : sx.2 = 3 * (y * newW.toNat + x) := by simpa using e2
    refine ⟨sx, e1, e2', ?_, e3⟩
    simp only [noisyAt, e2']
  · intro y x k y' x' k' hx hx' hk hk' h
    exact draw_index_unique newW.toNat y x k y' x' k' hx hx' hk hk' h
  · intro d hd
    exact draw_index_exists newW.toNat newH.toNat d hd

theorem ditherPass_draw_order_witness :
    ∃ st', ditherPass noiseAmount midStream 3 2 (grayBuf 3 2, 0) = some st' ∧
      st'.2 = 3 * (3 : Int).toNat * (2 : Int).toNat ∧
      (∀ y x : Nat, (y : Int) < 2 → (x : Int) < 3 →
        ∃ sx, stateBefore noiseAmount midStream 3 2 (grayBuf 3 2, 0) y x = some sx ∧
          sx.2 = 3 * (y * (3 : Int).toNat + x) ∧
          noisyAt noiseAmount midStream sx (y : Int) (x : Int) =
            (addNoise noiseAmount (sx.1.cell (y : Int) ((x : Int) * 3))
                (midStream (3 * (y * (3 : Int).toNat + x))),
              addNoise noiseAmount (sx.1.cell (y : Int) ((x : Int) * 3 + 1))
                (midStream (3 * (y * (3 : Int).toNat + x) + 1)),
              addNoise noiseAmount (sx.1.cell (y : Int) ((x : Int) * 3 + 2))
                (midStream (3 * (y * (3 : Int).toNat + x) + 2))) ∧
          st'.1.pixel (y : Int) (x : Int) =
            findClosestColor (noisyAt noiseAmount midStream sx (y : Int) (x : Int)).1
              (noisyAt noiseAmount midStream sx (y : Int) (x : Int)).2.1
              (noisyAt noiseAmount midStream sx (y : Int) (x : Int)).2.2) ∧
      (∀ y x k y' x' k' : Nat, x < (3 : Int).toNat → x' < (3 : Int).toNat → k < 3 → k' < 3 →
        3 * (y * (3 : Int).toNat + x) + k = 3 * (y' * (3 : Int).toNat + x') + k' →
        y = y' ∧ x = x' ∧ k = k') ∧
      (∀ d : Nat, d < 3 * (3 : Int).toNat * (2 : Int).toNat →
        ∃ y x k, y < (2 : Int).toNat ∧ x < (3 : Int).toNat ∧ k < 3 ∧
          d = 3 * (y * (3 : Int).toNat + x) + k) :=
  ditherPass_draw_order noiseAmount midStream 3 2 (grayBuf 3 2) (grayBuf_shaped 3 2)

/-! ## Index safety and the empty sub-rectangle -/

theorem inRange_iff_of_shaped (b : Buf) (newW newH : Int) (hs : b.Shaped newW newH)
    (y i : Int) :
    b.inRange y i = true ↔ 0 ≤ y ∧ y < newH ∧ 0 ≤ i ∧ i < newW * 3 := by
  obtain ⟨hr, hl⟩ := hs
  simp only [Buf.inRange, Bool.and_eq_true, decide_eq_true_eq, hr]
  constructor
  · rintro ⟨⟨⟨h1, h2⟩, h3⟩, h4⟩
    rw [hl y h1 h2] at h4
    exact ⟨h1, h2, h3, h4⟩
  · rintro ⟨h1, h2, h3, h4⟩
    rw [hl y h1 h2]
    exact ⟨⟨⟨h1, h2⟩, h3⟩, h4⟩

/-- C17. For a source with `srcW ≥ 1` and `srcH ≥ 1` every index used by
`ditherImage` is in bounds: every stage of the bounds-checked model returns (a
buffer access outside `0 ≤ row < newH`, `0 ≤ column < 3 * newW` would make it
`none`), the buffer has exactly `newH` rows of `3 * newW` bytes throughout, the
byte ranges of pixel `(x, y)` and of its guarded neighbours lie inside it, and each
canvas point `(borderX + x, borderY + y)` read or written lies inside the canvas. -/
theorem ditherImage_indices_in_bounds (srcW srcH : Int) (hw : 1 ≤ srcW) (hh : 1 ≤ srcH)
    (composited : Int → Int → NRGBA) (rnd : Nat → ℚ) :
    ∃ L c0 buf0 stF c, layout srcW srcH = some L ∧ fillCanvas = some c0 ∧
      initBuf (drawCopy c0 L.borderX L.borderY L.newW L.newH composited)
        L.borderX L.borderY L.newW L.newH = some buf0 ∧
      ditherPass noiseAmount rnd L.newW L.newH (buf0, 0) = some stF ∧
      writeBack (drawCopy c0 L.borderX L.borderY L.newW L.newH composited)
        L.borderX L.borderY L.newW L.newH stF.1 = some c ∧
      ditherImage srcW srcH composited rnd = some c ∧
      (∀ y i, buf0.inRange y i = true ↔ 0 ≤ y ∧ y < L.newH ∧ 0 ≤ i ∧ i < L.newW * 3) ∧
      (∀ y i, stF.1.inRange y i = true ↔ 0 ≤ y ∧ y < L.newH ∧ 0 ≤ i ∧ i < L.newW * 3) ∧
      ∀ x y : Int, 0 ≤ x → x < L.newW → 0 ≤ y → y < L.newH →
        (buf0.inRange y (x * 3) = true ∧ buf0.inRange y (x * 3 + 2) = true) ∧
        (x + 1 < L.newW → buf0.inRange y ((x + 1) * 3 + 2) = true) ∧
        (x > 0 ∧ y + 1 < L.newH → buf0.inRange (y + 1) ((x - 1) * 3) = true) ∧
        (y + 1 < L.newH → buf0.inRange (y + 1) (x * 3 + 2) = true) ∧
        (x + 1 < L.newW ∧ y + 1 < L.newH →
          buf0.inRange (y + 1) ((x + 1) * 3 + 2) = true) ∧
        0 ≤ L.borderX + x ∧ L.borderX + x < screenW ∧
        0 ≤ L.borderY + y ∧ L.borderY + y < screenH ∧
        (drawCopy c0 L.borderX L.borderY L.newW L.newH composited).inBounds
          (L.borderX + x) (L.borderY + y) = true := by
  obtain ⟨L, hL, n1, n2, n3, n4, _, hbx, hby⟩ := layout_bounds srcW srcH hw hh
  obtain ⟨c0, hc0, hw0, hh0, _⟩ := fillCanvas_spec
  obtain ⟨buf0, hb0, hs0, _⟩ := initBuf_spec
    (drawCopy c0 L.borderX L.borderY L.newW L.newH composited)
    L.borderX L.borderY L.newW L.newH n1 n3
  obtain ⟨stF, hp, hsF, _, _⟩ := ditherPass_spec noiseAmount rnd L.newW L.newH (buf0, 0) hs0
  obtain ⟨c, hc, _, _, _⟩ := writeBack_spec
    (drawCopy c0 L.borderX L.borderY L.newW L.newH composited)
    L.borderX L.borderY L.newW L.newH stF.1 hsF
  have hd : ditherImage srcW srcH composited rnd = some c := by
    simp only [ditherImage, Option.bind_eq_bind, hL, hc0, hb0, hp, Option.some_bind]
    exact hc
  refine ⟨L, c0, buf0, stF, c, hL, hc0, hb0, hp, hc, hd,
    inRange_iff_of_shaped buf0 L.newW L.newH hs0,
    inRange_iff_of_shaped stF.1 L.newW L.newH hsF, ?_⟩
  intro x y hx0 hx hy0 hy
  have hr := inRange_iff_of_shaped buf0 L.newW L.newH hs0
  simp only [screenW, screenH] at hbx hby ⊢
  have b1 : 0 ≤ L.borderX + x := by omega
  have b2 : L.borderX + x < 2256 := by omega
  have b3 : 0 ≤ L.borderY + y := by omega
  have b4 : L.borderY + y < 1504 := by omega
  refine ⟨⟨(hr _ _).2 ⟨hy0, hy, by omega, by omega⟩, (hr _ _).2 ⟨hy0, hy, by omega, by omega⟩⟩,
    fun h => (hr _ _).2 ⟨hy0, hy, by omega, by omega⟩,
    fun h => (hr _ _).2 ⟨by omega, by omega, by omega, by omega⟩,
    fun h => (hr _ _).2 ⟨by omega, by omega, by omega, by omega⟩,
    fun h => (hr _ _).2 ⟨by omega, by omega, by omega, by omega⟩,
    b1, b2, b3, b4, ?_⟩
  rw [inBounds_iff]
  have e1 : (drawCopy c0 L.borderX L.borderY L.newW L.newH composited).w = 2256 := hw0
  have e2 : (drawCopy c0 L.borderX L.borderY L.newW L.newH composited).h = 1504 := hh0
  rw [e1, e2]
  exact ⟨b1, b2, b3, b4⟩

theorem ditherImage_indices_in_bounds_witness :
    ∃ L c0 buf0 stF c, layout 4000 3000 = some L ∧ fillCanvas = some c0 ∧
      initBuf (drawCopy c0 L.borderX L.borderY L.newW L.newH grayPhoto)
        L.borderX L.borderY L.newW L.newH = some buf0 ∧
      ditherPass noiseAmount midStream L.newW L.newH (buf0, 0) = some stF ∧
      writeBack (drawCopy c0 L.borderX L.borderY L.newW L.newH grayPhoto)
        L.borderX L.borderY L.newW L.newH stF.1 = some c ∧
      ditherImage 4000 3000 grayPhoto midStream = some c ∧
      (∀ y i, buf0.inRange y i = true ↔ 0 ≤ y ∧ y < L.newH ∧ 0 ≤ i ∧ i < L.newW * 3) ∧
      (∀ y i, stF.1.inRange y i = true ↔ 0 ≤ y ∧ y < L.newH ∧ 0 ≤ i ∧ i < L.newW * 3) ∧
      ∀ x y : Int, 0 ≤ x → x < L.newW → 0 ≤ y → y < L.newH →
        (buf0.inRange y (x * 3) = true ∧ buf0.inRange y (x * 3 + 2) = true) ∧
        (x + 1 < L.newW → buf0.inRange y ((x + 1) * 3 + 2) = true) ∧
        (x > 0 ∧ y + 1 < L.newH → buf0.inRange (y + 1) ((x - 1) * 3) = true) ∧
        (y + 1 < L.newH → buf0.inRange (y + 1) (x * 3 + 2) = true) ∧
        (x + 1 < L.newW ∧ y + 1 < L.newH →
          buf0.inRange (y + 1) ((x + 1) * 3 + 2) = true) ∧
        0 ≤ L.borderX + x ∧ L.borderX + x < screenW ∧
        0 ≤ L.borderY + y ∧ L.borderY + y < screenH ∧
        (drawCopy c0 L.borderX L.borderY L.newW L.newH grayPhoto).inBounds
          (L.borderX + x) (L.borderY + y) = true :=
  ditherImage_indices_in_bounds 4000 3000 (by decide) (by decide) grayPhoto midStream

theorem forLoop_id {σ : Type} (body : Int → σ → Option σ) (h : ∀ k s, body k s = some s)
    (n : Nat) (s : σ) : forLoop body n s = some s := by
  induction n with
  | zero => rfl
  | succ n ih => simp only [forLoop, ih, Option.some_bind, h]

/-- With an empty sub-rectangle the pass runs no pixel step: it returns its state
unchanged. -/
theorem ditherPass_empty (amount : ℚ) (rnd : Nat → ℚ) (newW newH : Int) (st : Buf × Nat)
    (h : newW = 0 ∨ newH = 0) : ditherPass amount rnd newW newH st = some st := by
  rcases h with h | h
  · subst h
    exact forLoop_id _ (fun k s => rfl) _ st
  · subst h
    rfl

/-- C18. The 1 x 10000 source has positive dimensions and an empty photo
sub-rectangle (`newW = 0`); and for every source with positive dimensions whose
sub-rectangle is empty (`newW = 0` or `newH = 0`), the dithering pass runs no pixel
step (buffer and draw counter are returned unchanged) and the canvas returned
consists entirely of the background colour `(46, 52, 64)`. -/
theorem empty_photo_gives_background (srcW srcH : Int) (hw : 1 ≤ srcW) (hh : 1 ≤ srcH)
    (L : Layout) (hL : layout srcW srcH = some L) (h0 : L.newW = 0 ∨ L.newH = 0)
    (composited : Int → Int → NRGBA) (rnd : Nat → ℚ) :
    (∃ T, layout 1 10000 = some T ∧ T.newW = 0) ∧
    ∃ c0 buf0 c, fillCanvas = some c0 ∧
      initBuf (drawCopy c0 L.borderX L.borderY L.newW L.newH composited)
        L.borderX L.borderY L.newW L.newH = some buf0 ∧
      ditherPass noiseAmount rnd L.newW L.newH (buf0, 0) = some (buf0, 0) ∧
      ditherImage srcW srcH composited rnd = some c ∧
      bg.rgb = (46, 52, 64) ∧
      ∀ X Y, 0 ≤ X → X < c.w → 0 ≤ Y → Y < c.h → c.pix X Y = bg := by
  refine ⟨⟨_, layout_tall_source, rfl⟩, ?_⟩
  obtain ⟨L', hL', n1, _, n3, _, _, _, _⟩ := layout_bounds srcW srcH hw hh
  rw [hL] at hL'
  have hLL : L = L' := Option.some.inj hL'
  subst hLL
  obtain ⟨c0, buf0, stF, c, hc0, hb0, _, hp, hc, hcw, hch, hpix⟩ :=
    ditherImage_spec srcW srcH composited rnd L hL n1 n3
  refine ⟨c0, buf0, c, hc0, hb0, ditherPass_empty noiseAmount rnd L.newW L.newH (buf0, 0) h0,
    hc, rfl, ?_⟩
  intro X Y hX0 hX hY0 hY
  rw [hcw] at hX
  rw [hch] at hY
  apply (hpix X Y hX0 hX hY0 hY).2
  rintro ⟨p1, p2, p3, p4⟩
  rcases h0 with h | h
  · rw [h] at p2; omega
  · rw [h] at p4; omega

theorem empty_photo_gives_background_witness :
    (∃ T, layout 1 10000 = some T ∧ T.newW = 0) ∧
    ∃ c0 buf0 c, fillCanvas = some c0 ∧
      initBuf (drawCopy c0 1128 376 0 752 grayPhoto) 1128 376 0 752 = some buf0 ∧
      ditherPass noiseAmount midStream 0 752 (buf0, 0) = some (buf0, 0) ∧
      ditherImage 1 10000 grayPhoto midStream = some c ∧
      bg.rgb = (46, 52, 64) ∧
      ∀ X Y, 0 ≤ X → X < c.w → 0 ≤ Y → Y < c.h → c.pix X Y = bg :=
  empty_photo_gives_background 1 10000 (by decide) (by decide)
    ⟨1128, 752, 0, 752, 1128, 376⟩ layout_tall_source (Or.inl rfl) grayPhoto midStream

/-! ## Zero noise amplitude -/

theorem ditherImage_eq_with (srcW srcH : Int) (composited : Int → Int → NRGBA)
    (rnd : Nat → ℚ) :
    ditherImage srcW srcH composited rnd =
      ditherImageWith noiseAmount srcW srcH composited rnd := rfl

/-- The description of `ditherImage_spec` for an arbitrary noise amplitude,
together with the initial contents of the buffer and the palette membership of
the final buffer. -/
theorem ditherImageWith_spec (amount : ℚ) (srcW srcH : Int)
    (composited : Int → Int → NRGBA) (rnd : Nat → ℚ) (L : Layout)
    (hL : layout srcW srcH = some L) (hW : 0 ≤ L.newW) (hH : 0 ≤ L.newH) :
    ∃ c0 buf0 stF c, fillCanvas = some c0 ∧ c0.w = screenW ∧ c0.h = screenH ∧
      initBuf (drawCopy c0 L.borderX L.borderY L.newW L.newH composited)
        L.borderX L.borderY L.newW L.newH = some buf0 ∧
      buf0.Shaped L.newW L.newH ∧
      (∀ y x, 0 ≤ y → y < L.newH → 0 ≤ x → x < L.newW →
        buf0.pixel y x =
          ((drawCopy c0 L.borderX L.borderY L.newW L.newH composited).NRGBAAt
            (L.borderX + x) (L.borderY + y)).rgb) ∧
      ditherPass amount rnd L.newW L.newH (buf0, 0) = some stF ∧
      ditherImageWith amount srcW srcH composited rnd = some c ∧
      c.w = screenW ∧ c.h = screenH ∧
      ∀ X Y, 0 ≤ X → X < screenW → 0 ≤ Y → Y < screenH →
        (L.inPhoto X Y →
          (c.pix X Y).rgb = stF.1.pixel (Y - L.borderY) (X - L.borderX)) ∧
        (¬ L.inPhoto X Y → c.pix X Y = bg) := by
  obtain ⟨c0, hc0, hw0, hh0, hbg⟩ := fillCanvas_spec
  obtain ⟨buf0, hb0, hs0, hinit⟩ := initBuf_spec
    (drawCopy c0 L.borderX L.borderY L.newW L.newH composited)
    L.borderX L.borderY L.newW L.newH hW hH
  obtain ⟨stF, hp, hsF, _, _⟩ := ditherPass_spec amount rnd L.newW L.newH (buf0, 0) hs0
  obtain ⟨c, hc, hw, hh, hpix⟩ := writeBack_spec
    (drawCopy c0 L.borderX L.borderY L.newW L.newH composited)
    L.borderX L.borderY L.newW L.newH stF.1 hsF
  refine ⟨c0, buf0, stF, c, hc0, hw0, hh0, hb0, hs0, hinit, hp, ?_, ?_, ?_, ?_⟩
  · simp only [ditherImageWith, Option.bind_eq_bind, hL, hc0, hb0, hp, Option.some_bind]
    exact hc
  · rw [hw]; exact hw0
  · rw [hh]; exact hh0
  · intro X Y hX0 hX hY0 hY
    have hin : (drawCopy c0 L.borderX L.borderY L.newW L.newH composited).inBounds X Y
        = true := by
      rw [inBounds_iff]
      have e1 : (drawCopy c0 L.borderX L.borderY L.newW L.newH composited).w = screenW := hw0
      have e2 : (drawCopy c0 L.borderX L.borderY L.newW L.newH composited).h = screenH := hh0
      rw [e1, e2]
      exact ⟨hX0, hX, hY0, hY⟩
    have hp' := hpix X Y hin
    constructor
    · intro hph
      have hph' : L.borderX ≤ X ∧ X < L.borderX + L.newW ∧ L.borderY ≤ Y ∧
          Y < L.borderY + L.newH := hph
      rw [hp', if_pos hph']
      rfl
    · intro hph
      have hph' : ¬ (L.borderX ≤ X ∧ X < L.borderX + L.newW ∧ L.borderY ≤ Y ∧
          Y < L.borderY + L.newH) := hph
      rw [hp', if_neg hph']
      simp only [drawCopy]
      rw [if_neg (fun h => hph' ⟨h.1, h.2.1, h.2.2.1, h.2.2.2.1⟩)]
      exact hbg X Y hX0 hX hY0 hY

theorem addNoise_zero_amount (v : Nat) (u : ℚ) : addNoise 0 v u = clampU8 (v : ℚ) := by
  unfold addNoise
  rw [mul_zero, add_zero]

theorem ditherPixel_zero_noise (rnd rnd' : Nat → ℚ) :
    ditherPixel 0 rnd = ditherPixel 0 rnd' := by
  funext newW newH y x st
  simp only [ditherPixel, addNoise_zero_amount]

theorem ditherPass_zero_noise (rnd rnd' : Nat → ℚ) :
    ditherPass 0 rnd = ditherPass 0 rnd' := by
  have hrow : ditherRow 0 rnd = ditherRow 0 rnd' := by
    funext newW newH y st
    simp only [ditherRow, ditherPixel_zero_noise rnd rnd']
  funext newW newH st
  simp only [ditherPass, hrow]

/-- C13. With the noise amplitude set to zero the dithering pass does not depend
on the random source: for any two random streams the pass returns the same
buffer, `ditherImage` with zero amplitude returns the same canvas, and for a
source with positive dimensions that canvas exists. -/
theorem zero_noise_ignores_random_source (srcW srcH : Int)
    (composited : Int → Int → NRGBA) (rnd rnd' : Nat → ℚ) :
    (∀ newW newH st, ditherPass 0 rnd newW newH st = ditherPass 0 rnd' newW newH st) ∧
    ditherImageWith 0 srcW srcH composited rnd =
      ditherImageWith 0 srcW srcH composited rnd' ∧
    (1 ≤ srcW → 1 ≤ srcH →
      ∃ c, ditherImageWith 0 srcW srcH composited rnd = some c ∧
        ditherImageWith 0 srcW srcH composited rnd' = some c) := by
  have hpass := ditherPass_zero_noise rnd rnd'
  have himg : ditherImageWith 0 srcW srcH composited rnd =
      ditherImageWith 0 srcW srcH composited rnd' := by
    simp only [ditherImageWith, hpass]
  refine ⟨fun newW newH st => by rw [hpass], himg, ?_⟩
  intro hw hh
  obtain ⟨L, hL, n1, _, n3, _⟩ := layout_bounds srcW srcH hw hh
  obtain ⟨_, _, _, c, _, _, _, _, _, _, _, hc, _⟩ :=
    ditherImageWith_spec 0 srcW srcH composited rnd L hL n1 n3
  exact ⟨c, hc, himg ▸ hc⟩

theorem zero_noise_ignores_random_source_witness :
    ∃ c, ditherImageWith 0 4000 3000 grayPhoto midStream = some c ∧
      ditherImageWith 0 4000 3000 grayPhoto (fun n => (n % 7 : ℚ) / 7) = some c :=
  (zero_noise_ignores_random_source 4000 3000 grayPhoto midStream
    (fun n => (n % 7 : ℚ) / 7)).2.2 (by decide) (by decide)

/-! ## The 4000 x 3000 solid-gray scenario -/

/-- The quotient of two converted integers of at most 53 bits, the divisor not
zero, is the rounded exact quotient. -/
theorem div_ofInt (a b : Int) (ha : |a| < 2 ^ 53) (hb : |b| < 2 ^ 53) (hb0 : b ≠ 0) :
    F64.div (F64.ofInt a) (F64.ofInt b) = F64.fin (round53 ((a : ℚ) / (b : ℚ))) := by
  have hq : (b : ℚ) ≠ 0 := by exact_mod_cast hb0
  simp only [F64.ofInt, F64.div, round53_intCast a ha, round53_intCast b hb]
  rw [if_neg hq]

theorem lt_fin (x y : ℚ) (h : x < y) : F64.lt (F64.fin x) (F64.fin y) = true := by
  simp only [F64.lt, decide_eq_true_eq]
  exact h

/-- C12, refuted as stated. For the 4000 x 3000 source the new width is 1002, not
`floor(screenW * 0.5) = 1128`. -/
theorem width_not_limiting_4000_3000 :
    ∃ L, layout 4000 3000 = some L ∧ L.availW = 1128 ∧ L.newW = 1002 ∧
      L.newW ≠ L.availW :=
  ⟨_, layout_4000_3000, rfl, rfl, by decide⟩

/-- C12, amended. For a 4000 x 3000 source the height is the limiting axis under
the `min(scaleX, scaleY)` rule (`scaleY = 752/3000 < 1128/4000 = scaleX`): the
sub-rectangle height equals `floor(screenH * 0.5) = 752` and the width is
`floor(4000 * 752 / 3000) = 1002`. -/
theorem height_limiting_4000_3000 :
    layout 4000 3000 = some ⟨1128, 752, 1002, 752, 627, 376⟩ ∧
    F64.lt (F64.div (F64.ofInt 752) (F64.ofInt 3000))
      (F64.div (F64.ofInt 1128) (F64.ofInt 4000)) = true ∧
    (752 : Int) = ⌊(screenH : ℚ) * scaleFactor⌋ ∧
    (1002 : Int) = ⌊((4000 : Int) : ℚ) * ((752 : ℚ) / 3000)⌋ := by
  refine ⟨layout_4000_3000, ?_, ?_, ?_⟩
  · rw [div_ofInt 752 3000 (by norm_num) (by norm_num) (by decide),
      div_ofInt 1128 4000 (by norm_num) (by norm_num) (by decide)]
    apply lt_fin
    have h1 := round53_le (((752 : Int) : ℚ) / ((3000 : Int) : ℚ)) (by norm_num)
    have h2 := round53_ge (((1128 : Int) : ℚ) / ((4000 : Int) : ℚ)) (by norm_num)
    have h3 : ((752 : Int) : ℚ) / ((3000 : Int) : ℚ) * (1 + 1 / 2 ^ 53)
        < ((1128 : Int) : ℚ) / ((4000 : Int) : ℚ) * (1 - 1 / 2 ^ 53) := by norm_num
    linarith
  · have : ((screenH : Int) : ℚ) * scaleFactor = ((752 : Int) : ℚ) := by
      simp only [screenH, scaleFactor]; norm_num
    rw [this, Int.floor_intCast]
  · symm
    rw [Int.floor_eq_iff]
    constructor <;> norm_num

theorem quantizedAt_zero_noise (rnd : Nat → ℚ) (b : Buf) (n : Nat) (y x : Int)
    (r g bl : Nat) (h : b.pixel y x = (r, g, bl))
    (hr : r ≤ 255) (hg : g ≤ 255) (hb : bl ≤ 255) :
    quantizedAt 0 rnd (b, n) y x = findClosestColor r g bl := by
  simp only [Buf.pixel, Prod.mk.injEq] at h
  obtain ⟨h1, h2, h3⟩ := h
  simp only [quantizedAt, noisyAt, h1, h2, h3]
  rw [addNoise_zero _ _ hr, addNoise_zero _ _ hg, addNoise_zero _ _ hb]

/-- The zero-noise pass on a buffer whose first two pixels are solid gray: the
first pixel becomes `(94, 129, 172)`, its error `(34, -1, -44)` turns the second
pixel into `(142, 127, 108)` before it is quantized, and the second pixel becomes
`(191, 97, 106)`. -/
theorem gray_pass_first_two (rnd : Nat → ℚ) (newW newH : Int) (b0 : Buf)
    (hs : b0.Shaped newW newH) (hW : 2 ≤ newW) (hH : 1 ≤ newH)
    (hg0 : b0.pixel 0 0 = (128, 128, 128)) (hg1 : b0.pixel 0 1 = (128, 128, 128)) :
    ∃ st', ditherPass 0 rnd newW newH (b0, 0) = some st' ∧
      (∀ y x : Nat, (y : Int) < newH → (x : Int) < newW →
        st'.1.pixel (y : Int) (x : Int) ∈ nordPalette) ∧
      st'.1.pixel 0 0 = (94, 129, 172) ∧ st'.1.pixel 0 1 = (191, 97, 106) := by
  obtain ⟨st', h1, _, _, h4⟩ := ditherPass_spec 0 rnd newW newH (b0, 0) hs
  refine ⟨st', h1, ?_, ?_, ?_⟩
  · intro y x hy hx
    obtain ⟨sx, _, _, e⟩ := h4 y x hy hx
    rw [e]
    exact quantizedAt_mem 0 rnd sx _ _
  · obtain ⟨sx, e1, _, e3⟩ := h4 0 0 (by omega) (by omega)
    have hsx : stateBefore 0 rnd newW newH (b0, 0) 0 0 = some (b0, 0) := rfl
    rw [hsx] at e1
    have : sx = (b0, 0) := (Option.some.inj e1).symm
    subst this
    simp only [Nat.cast_zero] at e3
    rw [e3]
    exact (gray_first_pixel rnd b0 0 hg0).2.1
  · obtain ⟨sx, e1, _, e3⟩ := h4 0 1 (by omega) (by omega)
    obtain ⟨b', hb', _, _, w1, _⟩ := ditherPixel_vals 0 rnd newW newH b0 0 hs 0 0
      (by omega) (by omega) (by omega) (by omega)
    have hsx : stateBefore 0 rnd newW newH (b0, 0) 0 1 =
        ditherPixel 0 rnd newW newH 0 0 (b0, 0) := rfl
    rw [hsx, hb'] at e1
    have : sx = (b', 0 + 3) := (Option.some.inj e1).symm
    subst this
    have hpx := w1 (by omega)
    rw [(gray_first_pixel rnd b0 0 hg0).2.2] at hpx
    have e01 : (0 : Int) + 1 = 1 := rfl
    rw [e01, hg1, gray_second_pixel] at hpx
    simp only [Nat.cast_zero, Nat.cast_one] at e3
    rw [e3, quantizedAt_zero_noise rnd b' (0 + 3) 0 1 142 127 108 hpx
      (by decide) (by decide) (by decide)]
    decide

/-- The result of the zero-noise `ditherImage` on the 4000 x 3000 solid-gray
source, at the first two pixels of the photo sub-rectangle. -/
theorem gray_scenario (rnd : Nat → ℚ) :
    ∃ c, ditherImageWith 0 4000 3000 grayPhoto rnd = some c ∧
      (∀ x y : Nat, x < 1002 → y < 752 →
        (c.pix (627 + (x : Int)) (376 + (y : Int))).rgb ∈ nordPalette) ∧
      (c.pix 627 376).rgb = (94, 129, 172) ∧ (c.pix 628 376).rgb = (191, 97, 106) := by
  obtain ⟨c0, buf0, stF, c, _, hw0, hh0, _, hs0, hinit, hp, hc, _, _, hpix⟩ :=
    ditherImageWith_spec 0 4000 3000 grayPhoto rnd ⟨1128, 752, 1002, 752, 627, 376⟩
      layout_4000_3000 (by decide) (by decide)
  have hgray : ∀ x : Int, 0 ≤ x → x < 1002 → buf0.pixel 0 x = (128, 128, 128) := by
    intro x hx0 hx
    have h := hinit 0 x (by decide) (by decide) hx0 hx
    rw [h]
    have hin : (drawCopy c0 627 376 1002 752 grayPhoto).inBounds (627 + x) (376 + 0)
        = true := by
      rw [inBounds_iff]
      have e1 : (drawCopy c0 627 376 1002 752 grayPhoto).w = screenW := hw0
      have e2 : (drawCopy c0 627 376 1002 752 grayPhoto).h = screenH := hh0
      rw [e1, e2]
      simp only [screenW, screenH]
      omega
    simp only [Canvas.NRGBAAt, hin, if_true]
    have hin' : c0.inBounds (627 + x) (376 + 0) = true := hin
    simp only [drawCopy, hin']
    rw [if_pos ⟨by omega, by omega, by omega, by omega, trivial⟩]
    rfl
  obtain ⟨st', hp', hmem, hq0, hq1⟩ := gray_pass_first_two rnd 1002 752 buf0 hs0
    (by decide) (by decide) (hgray 0 (by decide) (by decide))
    (hgray 1 (by decide) (by decide))
  rw [hp] at hp'
  have : stF = st' := Option.some.inj hp'
  subst this
  refine ⟨c, hc, ?_, ?_, ?_⟩
  · intro x y hx hy
    have hph : Layout.inPhoto ⟨1128, 752, 1002, 752, 627, 376⟩ (627 + (x : Int))
        (376 + (y : Int)) := by
      simp only [Layout.inPhoto]
      omega
    have h := (hpix (627 + (x : Int)) (376 + (y : Int)) (by omega)
      (by simp only [screenW]; omega) (by omega) (by simp only [screenH]; omega)).1 hph
    rw [h]
    have ex : (627 : Int) + (x : Int) - 627 = (x : Int) := by omega
    have ey : (376 : Int) + (y : Int) - 376 = (y : Int) := by omega
    simp only [ex, ey]
    exact hmem y x (by omega) (by omega)
  · have hph : Layout.inPhoto ⟨1128, 752, 1002, 752, 627, 376⟩ 627 376 :=
      ⟨by decide, by decide, by decide, by decide⟩
    have h := (hpix 627 376 (by decide) (by decide) (by decide) (by decide)).1 hph
    rw [h]
    exact hq0
  · have hph : Layout.inPhoto ⟨1128, 752, 1002, 752, 627, 376⟩ 628 376 :=
      ⟨by decide, by decide, by decide, by decide⟩
    have h := (hpix 628 376 (by decide) (by decide) (by decide) (by decide)).1 hph
    rw [h]
    exact hq1

/-- C11, refuted as stated. With zero noise the 4000 x 3000 solid-gray source does
not give a single-colour photo region: the first pixel of the region is
`findClosestColor 128 128 128 = (94, 129, 172)` and its right neighbour is
`(191, 97, 106)`. -/
theorem gray_region_not_single_colour :
    ∃ c, ditherImageWith 0 4000 3000 grayPhoto midStream = some c ∧
      (c.pix 627 376).rgb = findClosestColor 128 128 128 ∧
      (c.pix 628 376).rgb ≠ findClosestColor 128 128 128 := by
  obtain ⟨c, hc, _, h0, h1⟩ := gray_scenario midStream
  refine ⟨c, hc, ?_, ?_⟩
  · rw [h0]; decide
  · rw [h1]; decide

/-- C11, amended. For the photo region of the resized 4000 x 3000 solid-gray
source (1002 x 752 pixels at offset (627, 376)) and zero noise amplitude, every
pixel of the region is a palette colour and the first pixel is
`findClosestColor 128 128 128 = (94, 129, 172)`; the region is not one single
colour, because the quantization error `(34, -1, -44)` is diffused: the second
pixel of the first row is `findClosestColor 142 127 108 = (191, 97, 106)`. -/
theorem gray_region_is_dithered (rnd : Nat → ℚ) :
    ∃ c, ditherImageWith 0 4000 3000 grayPhoto rnd = some c ∧
      (∀ x y : Nat, x < 1002 → y < 752 →
        (c.pix (627 + (x : Int)) (376 + (y : Int))).rgb ∈ nordPalette) ∧
      (c.pix 627 376).rgb = findClosestColor 128 128 128 ∧
      findClosestColor 128 128 128 = (94, 129, 172) ∧
      (c.pix 628 376).rgb = findClosestColor 142 127 108 ∧
      findClosestColor 142 127 108 = (191, 97, 106) := by
  obtain ⟨c, hc, hm, h0, h1⟩ := gray_scenario rnd
  have e0 : findClosestColor 128 128 128 = (94, 129, 172) := by decide
  have e1 : findClosestColor 142 127 108 = (191, 97, 106) := by decide
  exact ⟨c, hc, hm, by rw [h0, e0], e0, by rw [h1, e1], e1⟩

theorem gray_region_is_dithered_witness :
    ∃ c, ditherImageWith 0 4000 3000 grayPhoto midStream = some c ∧
      (∀ x y : Nat, x < 1002 → y < 752 →
        (c.pix (627 + (x : Int)) (376 + (y : Int))).rgb ∈ nordPalette) ∧
      (c.pix 627 376).rgb = findClosestColor 128 128 128 ∧
      findClosestColor 128 128 128 = (94, 129, 172) ∧
      (c.pix 628 376).rgb = findClosestColor 142 127 108 ∧
      findClosestColor 142 127 108 = (191, 97, 106) :=
  gray_region_is_dithered midStream

/-! ## The batch driver -/

theorem processFile_of_panicked (env : Env) (existing : FileName → Bool) (s : Run)
    (fname : FileName) (h : s.panicked = true) : processFile env existing s fname = s := by
  simp only [processFile, h, if_true]

theorem processFile_skip (env : Env) (existing : FileName → Bool) (s : Run)
    (fname : FileName) (h : s.panicked = false) (hex : existing (outputName fname) = true) :
    processFile env existing s fname = { s with log := s.log ++ [Event.skipped fname] } := by
  simp [processFile, h, hex]

/-- The possible outcomes of one iteration: nothing (after a panic), a skip, or
an attempt that logs only events of this input and its output name and changes
at most the output file of that name. -/
theorem processFile_shape (env : Env) (existing : FileName → Bool) (s : Run)
    (fname : FileName) :
    processFile env existing s fname = s ∨
    (existing (outputName fname) = true ∧
      processFile env existing s fname =
        { s with log := s.log ++ [Event.skipped fname] }) ∨
    (existing (outputName fname) = false ∧
      ∃ evs out' p, processFile env existing s fname = ⟨out', s.log ++ evs, p⟩ ∧
        (∀ e ∈ evs, e = Event.loadTried fname ∨ e = Event.converted fname ∨
          e = Event.created (outputName fname) ∨ e = Event.encoded (outputName fname)) ∧
        ∀ o, o ≠ outputName fname → out' o = s.out o) := by
  by_cases hp : s.panicked = true
  · exact Or.inl (processFile_of_panicked env existing s fname hp)
  · have hp' : s.panicked = false := by simpa using hp
    by_cases hex : existing (outputName fname) = true
    · exact Or.inr (Or.inl ⟨hex, processFile_skip env existing s fname hp' hex⟩)
    · have hex' : existing (outputName fname) = false := by simpa using hex
      refine Or.inr (Or.inr ⟨hex', ?_⟩)
      cases hl : env.loadImage fname with
      | none =>
        refine ⟨[Event.loadTried fname], s.out, s.panicked, ?_, ?_, fun _ _ => rfl⟩
        · simp [processFile, hp', hex', hl]
        · intro e he
          simp at he
          exact Or.inl he
      | some img =>
        cases hd : ditherImage img.srcW img.srcH img.composited (env.rnd fname) with
        | none =>
          refine ⟨[Event.loadTried fname], s.out, true, ?_, ?_, fun _ _ => rfl⟩
          · simp [processFile, hp', hex', hl, hd]
          · intro e he
            simp at he
            exact Or.inl he
        | some result =>
          by_cases hc : env.createOk fname = true
          · by_cases hen : env.encodeOk fname = true
            · refine ⟨[Event.loadTried fname, Event.converted fname,
                  Event.created (outputName fname), Event.encoded (outputName fname)],
                fun n => if n = outputName fname then some (some result) else s.out n,
                s.panicked, ?_, ?_, ?_⟩
              · simp [processFile, hp', hex', hl, hd, hc, hen]
              · intro e he
                simp at he
                tauto
              · intro o ho
                simp [ho]
            · refine ⟨[Event.loadTried fname, Event.converted fname,
                  Event.created (outputName fname)],
                fun n => if n = outputName fname then some none else s.out n,
                s.panicked, ?_, ?_, ?_⟩
              · simp [processFile, hp', hex', hl, hd, hc, hen]
              · intro e he
                simp at he
                tauto
              · intro o ho
                simp [ho]
          · refine ⟨[Event.loadTried fname, Event.converted fname], s.out, s.panicked,
              ?_, ?_, fun _ _ => rfl⟩
            · simp [processFile, hp', hex', hl, hd, hc]
            · intro e he
              simp at he
              tauto

theorem processFile_untouched (env : Env) (existing : FileName → Bool)
    (out0 : FileName → Option (Option Canvas)) (s : Run) (fname : FileName)
    (h : Untouched existing out0 s) :
    Untouched existing out0 (processFile env existing s fname) := by
  obtain ⟨h1, h2⟩ := h
  rcases processFile_shape env existing s fname with e | ⟨_, e⟩ | ⟨hex, evs, out', p, e, hev, hout⟩
  · rw [e]; exact ⟨h1, h2⟩
  · rw [e]
    constructor
    · intro g hg
      obtain ⟨a, b⟩ := h1 g hg
      simp [a, b]
    · intro o ho
      obtain ⟨a, b, c⟩ := h2 o ho
      simp [a, b, c]
  · rw [e]
    have hne : ∀ g, existing (outputName g) = true → g ≠ fname := by
      intro g hg e'
      rw [e', hex] at hg
      exact Bool.noConfusion hg
    have hno : ∀ o, existing o = true → o ≠ outputName fname := by
      intro o ho e'
      rw [e', hex] at ho
      exact Bool.noConfusion ho
    constructor
    · intro g hg
      obtain ⟨a, b⟩ := h1 g hg
      have hg' := hne g hg
      constructor
      · intro hm
        rcases List.mem_append.1 hm with hm | hm
        · exact a hm
        · rcases hev _ hm with h' | h' | h' | h'
          · exact hg' (Event.loadTried.inj h')
          · exact Event.noConfusion h'
          · exact Event.noConfusion h'
          · exact Event.noConfusion h'
      · intro hm
        rcases List.mem_append.1 hm with hm | hm
        · exact b hm
        · rcases hev _ hm with h' | h' | h' | h'
          · exact Event.noConfusion h'
          · exact hg' (Event.converted.inj h')
          · exact Event.noConfusion h'
          · exact Event.noConfusion h'
    · intro o ho
      obtain ⟨a, b, c⟩ := h2 o ho
      have ho' := hno o ho
      refine ⟨?_, ?_, ?_⟩
      · intro hm
        rcases List.mem_append.1 hm with hm | hm
        · exact a hm
        · rcases hev _ hm with h' | h' | h' | h'
          · exact Event.noConfusion h'
          · exact Event.noConfusion h'
          · exact ho' (Event.created.inj h')
          · exact Event.noConfusion h'
      · intro hm
        rcases List.mem_append.1 hm with hm | hm
        · exact b hm
        · rcases hev _ hm with h' | h' | h' | h'
          · exact Event.noConfusion h'
          · exact Event.noConfusion h'
          · exact Event.noConfusion h'
          · exact ho' (Event.encoded.inj h')
      · show out' o = out0 o
        rw [hout o ho', c]

theorem foldl_untouched (env : Env) (existing : FileName → Bool)
    (out0 : FileName → Option (Option Canvas)) (files : List FileName) (s : Run)
    (h : Untouched existing out0 s) :
    Untouched existing out0 (files.foldl (processFile env existing) s) := by
  induction files generalizing s with
  | nil => exact h
  | cons f rest ih => exact ih _ (processFile_untouched env existing out0 s f h)

theorem processFile_log_mono (env : Env) (existing : FileName → Bool) (s : Run)
    (fname : FileName) (e : Event) (h : e ∈ s.log) :
    e ∈ (processFile env existing s fname).log := by
  rcases processFile_shape env existing s fname with e' | ⟨_, e'⟩ | ⟨_, evs, out', p, e', _, _⟩
  · rw [e']; exact h
  · rw [e']; exact List.mem_append_left _ h
  · rw [e']; exact List.mem_append_left _ h

theorem foldl_log_mono (env : Env) (existing : FileName → Bool) (files : List FileName)
    (s : Run) (e : Event) (h : e ∈ s.log) :
    e ∈ (files.foldl (processFile env existing) s).log := by
  induction files generalizing s with
  | nil => exact h
  | cons f rest ih => exact ih _ (processFile_log_mono env existing s f e h)

theorem foldl_of_panicked (env : Env) (existing : FileName → Bool) (files : List FileName)
    (s : Run) (h : s.panicked = true) : files.foldl (processFile env existing) s = s := by
  induction files generalizing s with
  | nil => rfl
  | cons f rest ih =>
    simp only [List.foldl, processFile_of_panicked env existing s f h]
    exact ih s h

theorem foldl_skips (env : Env) (existing : FileName → Bool) (files : List FileName)
    (s : Run) (f : FileName) (hf : f ∈ files) (hex : existing (outputName f) = true)
    (hend : (files.foldl (processFile env existing) s).panicked = false) :
    Event.skipped f ∈ (files.foldl (processFile env existing) s).log := by
  induction files generalizing s with
  | nil => simp at hf
  | cons g rest ih =>
    have hs : s.panicked = false := by
      by_contra hp
      have hp' : s.panicked = true := by simpa using hp
      rw [foldl_of_panicked env existing (g :: rest) s hp'] at hend
      rw [hend] at hp'
      exact Bool.noConfusion hp'
    rcases List.mem_cons.1 hf with rfl | hmem
    · simp only [List.foldl]
      apply foldl_log_mono
      rw [processFile_skip env existing s f hs hex]
      simp
    · simp only [List.foldl] at hend ⊢
      exact ih _ hmem hend

/-- C14. In the batch driver, an accepted input whose output name
`"fm13_" + base + ".png"` is in the listing of the output directory is skipped: it
is never loaded or converted, no file of that output name is created or encoded
during the run, the file of that name keeps its contents, and (unless an earlier
conversion ended the program) the skip is what the loop does for it. -/
theorem existing_output_is_skipped (env : Env) (entries outEntries : List FileName)
    (out0 : FileName → Option (Option Canvas)) (fname : FileName)
    (hacc : accepted fname = true) (hin : fname ∈ entries)
    (hex : outputName fname ∈ outEntries) :
    Event.loadTried fname ∉ (main env (some entries) outEntries out0).log ∧
    Event.converted fname ∉ (main env (some entries) outEntries out0).log ∧
    Event.created (outputName fname) ∉ (main env (some entries) outEntries out0).log ∧
    Event.encoded (outputName fname) ∉ (main env (some entries) outEntries out0).log ∧
    (main env (some entries) outEntries out0).out (outputName fname) =
      out0 (outputName fname) ∧
    ((main env (some entries) outEntries out0).panicked = false →
      Event.skipped fname ∈ (main env (some entries) outEntries out0).log) := by
  have hex' : (fun n => outEntries.contains n) (outputName fname) = true := by
    simpa using hex
  have hU := foldl_untouched env (fun n => outEntries.contains n) out0
    (entries.filter accepted) { out := out0, log := [], panicked := false }
    ⟨fun _ _ => ⟨by simp, by simp⟩, fun _ _ => ⟨by simp, by simp, rfl⟩⟩
  obtain ⟨h1, h2⟩ := hU
  obtain ⟨a, b⟩ := h1 fname hex'
  obtain ⟨c, d, e⟩ := h2 (outputName fname) hex'
  refine ⟨a, b, c, d, e, ?_⟩
  intro hp
  exact foldl_skips env (fun n => outEntries.contains n) (entries.filter accepted) _ fname
    (List.mem_filter.2 ⟨hin, hacc⟩) hex' hp

theorem existing_output_is_skipped_witness :
    Event.loadTried "a.jpg".toList ∉
      (main sampleEnv (some ["a.jpg".toList, "b.png".toList]) ["fm13_a.png".toList]
        (fun _ => none)).log ∧
    Event.converted "a.jpg".toList ∉
      (main sampleEnv (some ["a.jpg".toList, "b.png".toList]) ["fm13_a.png".toList]
        (fun _ => none)).log ∧
    Event.created (outputName "a.jpg".toList) ∉
      (main sampleEnv (some ["a.jpg".toList, "b.png".toList]) ["fm13_a.png".toList]
        (fun _ => none)).log ∧
    Event.encoded (outputName "a.jpg".toList) ∉
      (main sampleEnv (some ["a.jpg".toList, "b.png".toList]) ["fm13_a.png".toList]
        (fun _ => none)).log ∧
    (main sampleEnv (some ["a.jpg".toList, "b.png".toList]) ["fm13_a.png".toList]
        (fun _ => none)).out (outputName "a.jpg".toList) =
      (fun _ => none) (outputName "a.jpg".toList) ∧
    ((main sampleEnv (some ["a.jpg".toList, "b.png".toList]) ["fm13_a.png".toList]
        (fun _ => none)).panicked = false →
      Event.skipped "a.jpg".toList ∈
        (main sampleEnv (some ["a.jpg".toList, "b.png".toList]) ["fm13_a.png".toList]
          (fun _ => none)).log) :=
  existing_output_is_skipped sampleEnv ["a.jpg".toList, "b.png".toList]
    ["fm13_a.png".toList] (fun _ => none) "a.jpg".toList (by decide) (by decide) (by decide)

theorem ditherImage_isSome_of_pos (srcW srcH : Int) (hw : 1 ≤ srcW) (hh : 1 ≤ srcH)
    (composited : Int → Int → NRGBA) (rnd : Nat → ℚ) :
    (ditherImage srcW srcH composited rnd).isSome = true := by
  obtain ⟨_, _, _, c, _, _, _, hc, _⟩ := ditherImage_pos srcW srcH hw hh composited rnd
  rw [hc]
  rfl

theorem processFile_success (env : Env) (existing : FileName → Bool) (s : Run)
    (fname : FileName) (img : Decoded) (c : Canvas)
    (hp : s.panicked = false) (hex : existing (outputName fname) = false)
    (hl : env.loadImage fname = some img)
    (hd : ditherImage img.srcW img.srcH img.composited (env.rnd fname) = some c)
    (hc : env.createOk fname = true) (he : env.encodeOk fname = true) :
    processFile env existing s fname =
      { out := fun n => if n = outputName fname then some (some c) else s.out n
        log := s.log ++ [Event.loadTried fname, Event.converted fname,
          Event.created (outputName fname), Event.encoded (outputName fname)]
        panicked := false } := by
  simp [processFile, hp, hex, hl, hd, hc, he]

/-- The run on a directory of two inputs that share an output name which is not
in the listing, when every external operation succeeds. -/
theorem main_two_colliding (env : Env) (outEntries : List FileName)
    (out0 : FileName → Option (Option Canvas)) (f1 f2 : FileName)
    (h1 : accepted f1 = true) (h2 : accepted f2 = true)
    (hsame : outputName f1 = outputName f2) (hnew : outputName f1 ∉ outEntries)
    (img1 img2 : Decoded) (hl1 : env.loadImage f1 = some img1)
    (hl2 : env.loadImage f2 = some img2)
    (hd1 : (ditherImage img1.srcW img1.srcH img1.composited (env.rnd f1)).isSome = true)
    (hd2 : (ditherImage img2.srcW img2.srcH img2.composited (env.rnd f2)).isSome = true)
    (hc1 : env.createOk f1 = true) (he1 : env.encodeOk f1 = true)
    (hc2 : env.createOk f2 = true) (he2 : env.encodeOk f2 = true) :
    (main env (some [f1, f2]) outEntries out0).log =
      [Event.loadTried f1, Event.converted f1, Event.created (outputName f1),
        Event.encoded (outputName f1),
        Event.loadTried f2, Event.converted f2, Event.created (outputName f1),
        Event.encoded (outputName f1)] ∧
    (main env (some [f1, f2]) outEntries out0).out (outputName f1) =
      some (ditherImage img2.srcW img2.srcH img2.composited (env.rnd f2)) ∧
    (main env (some [f1, f2]) outEntries out0).panicked = false := by
  obtain ⟨c1, e1⟩ := Option.isSome_iff_exists.1 hd1
  obtain ⟨c2, e2⟩ := Option.isSome_iff_exists.1 hd2
  have hx1 : (fun n => outEntries.contains n) (outputName f1) = false := by simpa using hnew
  have hx2 : (fun n => outEntries.contains n) (outputName f2) = false := by
    rw [← hsame]; exact hx1
  have hfilter : [f1, f2].filter accepted = [f1, f2] := by
    simp [List.filter, h1, h2]
  have s1 := processFile_success env (fun n => outEntries.contains n)
    { out := out0, log := [], panicked := false } f1 img1 c1 rfl hx1 hl1 e1 hc1 he1
  have s2 := processFile_success env (fun n => outEntries.contains n)
    { out := fun n => if n = outputName f1 then some (some c1) else out0 n
      log := [] ++ [Event.loadTried f1, Event.converted f1,
        Event.created (outputName f1), Event.encoded (outputName f1)]
      panicked := false } f2 img2 c2 rfl hx2 hl2 e2 hc2 he2
  simp only [main, hfilter, List.foldl, s1, s2]
  rw [e2, ← hsame]
  simp
/-- C19. The output-name mapping is not injective on accepted names (`a.jpg` and
`a.png` are distinct, both accepted, and both map to `fm13_a.png`); and for any two
accepted inputs `f1`, `f2` with one output name that is not in the listing read
before the loop, a run over `[f1, f2]` in which the external operations succeed
processes both (the listing is never updated) and leaves in the output file the
canvas of the later input `f2`, written over that of `f1`. -/
theorem output_name_collision_overwrites (env : Env) (outEntries : List FileName)
    (out0 : FileName → Option (Option Canvas)) (f1 f2 : FileName)
    (hne : f1 ≠ f2) (h1 : accepted f1 = true) (h2 : accepted f2 = true)
    (hsame : outputName f1 = outputName f2) (hnew : outputName f1 ∉ outEntries)
    (img1 img2 : Decoded) (hl1 : env.loadImage f1 = some img1)
    (hl2 : env.loadImage f2 = some img2)
    (hd1 : (ditherImage img1.srcW img1.srcH img1.composited (env.rnd f1)).isSome = true)
    (hd2 : (ditherImage img2.srcW img2.srcH img2.composited (env.rnd f2)).isSome = true)
    (hc1 : env.createOk f1 = true) (he1 : env.encodeOk f1 = true)
    (hc2 : env.createOk f2 = true) (he2 : env.encodeOk f2 = true) :
    (accepted "a.jpg".toList = true ∧ accepted "a.png".toList = true ∧
      "a.jpg".toList ≠ "a.png".toList ∧
      outputName "a.jpg".toList = "fm13_a.png".toList ∧
      outputName "a.png".toList = "fm13_a.png".toList) ∧
    f1 ≠ f2 ∧
    (main env (some [f1, f2]) outEntries out0).log =
      [Event.loadTried f1, Event.converted f1, Event.created (outputName f1),
        Event.encoded (outputName f1),
        Event.loadTried f2, Event.converted f2, Event.created (outputName f1),
        Event.encoded (outputName f1)] ∧
    (main env (some [f1, f2]) outEntries out0).out (outputName f1) =
      some (ditherImage img2.srcW img2.srcH img2.composited (env.rnd f2)) ∧
    (main env (some [f1, f2]) outEntries out0).panicked = false := by
  refine ⟨⟨by decide, by decide, by decide, by decide, by decide⟩, hne, ?_⟩
  exact main_two_colliding env outEntries out0 f1 f2 h1 h2 hsame hnew img1 img2 hl1 hl2
    hd1 hd2 hc1 he1 hc2 he2

theorem output_name_collision_overwrites_witness :
    (accepted "a.jpg".toList = true ∧ accepted "a.png".toList = true ∧
      "a.jpg".toList ≠ "a.png".toList ∧
      outputName "a.jpg".toList = "fm13_a.png".toList ∧
      outputName "a.png".toList = "fm13_a.png".toList) ∧
    "a.jpg".toList ≠ "a.png".toList ∧
    (main sampleEnv (some ["a.jpg".toList, "a.png".toList]) [] (fun _ => none)).log =
      [Event.loadTried "a.jpg".toList, Event.converted "a.jpg".toList,
        Event.created (outputName "a.jpg".toList),
        Event.encoded (outputName "a.jpg".toList),
        Event.loadTried "a.png".toList, Event.converted "a.png".toList,
        Event.created (outputName "a.jpg".toList),
        Event.encoded (outputName "a.jpg".toList)] ∧
    (main sampleEnv (some ["a.jpg".toList, "a.png".toList]) [] (fun _ => none)).out
        (outputName "a.jpg".toList) =
      some (ditherImage (3 : Int) (1 : Int) grayPhoto (sampleEnv.rnd "a.png".toList)) ∧
    (main sampleEnv (some ["a.jpg".toList, "a.png".toList]) [] (fun _ => none)).panicked
      = false :=
  output_name_collision_overwrites sampleEnv [] (fun _ => none) "a.jpg".toList
    "a.png".toList (by decide) (by decide) (by decide) (by decide) (by simp)
    ⟨3, 1, grayPhoto⟩ ⟨3, 1, grayPhoto⟩ rfl rfl
    (ditherImage_isSome_of_pos 3 1 (by decide) (by decide) grayPhoto _)
    (ditherImage_isSome_of_pos 3 1 (by decide) (by decide) grayPhoto _) rfl rfl rfl rfl


end Wallpapers
